import Mathlib

/-!
# gs: directory synchronisation orchestrator

A shallow embedding of the Go sources (`config.go`, `state.go`, `remote.go`,
`commands.go`) together with theorems about the mapping registry, the
synchronisation state store, the change-set interpreter and the orchestrator.

Go strings are modelled as lists of Unicode code points (`GoString`), that is,
as valid UTF-8 text; `len` is the UTF-8 byte length.
-/

namespace Gs

/-! ## Strings -/

/-- Go `string`, as the list of its code points. -/
abbrev GoString := List Char

/-- Go `filepath.Separator` (Unix). -/
def filepathSeparator : Char := '/'

/-- Go `strings.HasPrefix(s, pre)`. -/
def hasPrefix (s pre : GoString) : Bool := pre.isPrefixOf s

/-! ## Errors -/

/-- The errors the program returns, one constructor per `fmt.Errorf` / sentinel
of the source; wrapped errors (`%w`) carry the inner error. -/
inductive GsError where
  /-- Message "failed to read config: %w" -/
  | configRead
  /-- Message "failed to parse config: %w" -/
  | configParse
  /-- Message "local '%s' already exists (names must be unique ...)" -/
  | duplicateName (name : GoString)
  /-- Message "path '%s' already configured as local '%s'" -/
  | pathConflict (path existing : GoString)
  /-- Message "failed to get current directory: %w" -/
  | getwd
  /-- Message "current directory is not a configured local (run 'gs track' first)" -/
  | notConfigured
  /-- Message "failed to open state file: %w" -/
  | stateOpen
  /-- The error of `scanner.Err()`: `bufio.ErrTooLong`. -/
  | scanTooLong
  /-- Message "failed to create state file: %w" -/
  | stateCreate
  /-- Message "failed to save state: %w" -/
  | saveStateFailed (inner : GsError)
  /-- The error of `os.CreateTemp` in `writeExcludeFile`. -/
  | createTemp
  /-- Message "ssh connection failed (check pubkey auth): %s" -/
  | sshFailed (output : GoString)
  /-- The sentinel `ErrRemoteNotFound`. -/
  | remoteNotFound
  /-- Message "rsync failed: %w\n%s" -/
  | rsyncFailed (output : GoString)
  /-- Message "failed to check remote: %w" -/
  | checkRemote (inner : GsError)
  /-- Message "failed to check local changes: %w" -/
  | checkLocal (inner : GsError)
  /-- Message "no locals configured" -/
  | noLocals
  /-- Message "timeout waiting for server" -/
  | waitTimeout
  /-- Message "failed to pull: %v" -/
  | failedToPull (names : List GoString)
  /-- Message "invalid remote format, expected 'user@host:port:/path'" -/
  | invalidRemote
deriving DecidableEq, Repr

/-! ## config.go -/

/-- Go `type Local struct`. -/
structure Local where
  Name : GoString
  Path : GoString
deriving DecidableEq, Repr

/-- Go `type Config struct`. -/
structure Config where
  Server : GoString
  Port : GoString
  RemotePath : GoString
  Excludes : List GoString
  Locals : List Local
deriving DecidableEq, Repr

/-- What `expandPath` reads from its environment: the result of
`os.UserHomeDir()` (`none` on error) and the library function `filepath.Join`. -/
structure Env where
  userHomeDir : Option GoString
  filepathJoin : GoString → GoString → GoString

/-- Go `expandPath`. -/
def expandPath (env : Env) (path : GoString) : GoString :=
  if hasPrefix path ['~', '/'] then
    match env.userHomeDir with
    | none => path
    | some home => env.filepathJoin home (path.drop 2)
  else
    path

/-- Go `(c *Config) RemoteForLocal`: `fmt.Sprintf("%s:%s/%s", ...)`. -/
def Config.RemoteForLocal (c : Config) (l : Local) : GoString :=
  c.Server ++ [':'] ++ c.RemotePath ++ ['/'] ++ l.Name

/-- The loop of `FindLocalForPath` over `c.Locals`, on the expanded path. -/
def findLocalForPathLoop (path : GoString) : List Local → Option Local
  | [] => none
  | l :: rest =>
    if path = l.Path ∨ hasPrefix path (l.Path ++ [filepathSeparator]) = true then
      some l
    else
      findLocalForPathLoop path rest

/-- Go `(c *Config) FindLocalForPath`. -/
def Config.FindLocalForPath (env : Env) (c : Config) (path : GoString) : Option Local :=
  findLocalForPathLoop (expandPath env path) c.Locals

/-- The loop of `FindLocalByName` over `c.Locals`. -/
def findLocalByNameLoop (name : GoString) : List Local → Option Local
  | [] => none
  | l :: rest => if l.Name = name then some l else findLocalByNameLoop name rest

/-- Go `(c *Config) FindLocalByName`. -/
def Config.FindLocalByName (c : Config) (name : GoString) : Option Local :=
  findLocalByNameLoop name c.Locals

/-- Go `(c *Config) AddLocal`: the returned error (`none` for `nil`) and the
registry after the call. -/
def Config.AddLocal (env : Env) (c : Config) (name path : GoString) :
    Option GsError × Config :=
  match c.FindLocalByName name with
  | some _ => (some (GsError.duplicateName name), c)
  | none =>
    match c.FindLocalForPath env path with
    | some existing => (some (GsError.pathConflict path existing.Name), c)
    | none => (none, { c with Locals := c.Locals ++ [{ Name := name, Path := path }] })

/-- The loop of `RemoveLocal`: at the first index `i` whose name matches, the
list becomes `Locals[:i] ++ Locals[i+1:]`. -/
def removeLocalLoop (name : GoString) : List Local → List Local
  | [] => []
  | l :: rest => if l.Name = name then rest else l :: removeLocalLoop name rest

/-- Go `(c *Config) RemoveLocal`. -/
def Config.RemoveLocal (c : Config) (name : GoString) : Config :=
  { c with Locals := removeLocalLoop name c.Locals }

/-- Go `stateFileName`. -/
def stateFileName : GoString := ".gs.state".toList

/-- The registry `cmdInit` creates: no bindings yet. -/
def newConfig (host port remotePath : GoString) : Config :=
  { Server := host, Port := port, RemotePath := remotePath,
    Excludes := [".git".toList, "*.tmp".toList, stateFileName], Locals := [] }

/-- A call on the registry. -/
inductive RegistryOp where
  | add (name path : GoString)
  | remove (name : GoString)
deriving DecidableEq, Repr

/-- One registry call; a failed `AddLocal` leaves the registry as it was. -/
def applyOp (env : Env) (c : Config) : RegistryOp → Config
  | RegistryOp.add name path => (c.AddLocal env name path).2
  | RegistryOp.remove name => c.RemoveLocal name

/-- A sequence of registry calls, left to right. -/
def runOps (env : Env) (ops : List RegistryOp) (c : Config) : Config :=
  ops.foldl (applyOp env) c

/-- An environment whose home directory lookup fails. -/
def noHomeEnv : Env := { userHomeDir := none, filepathJoin := fun a b => a ++ '/' :: b }

/-- The one-binding registry of the test suite: `notes` at `/home/user/notes`. -/
def notesConfig : Config :=
  { newConfig "user@host".toList "22".toList "/srv/sync".toList with
    Locals := [{ Name := "notes".toList, Path := "/home/user/notes".toList }] }

/-- A registry whose only binding, named `name`, is at `/a/notes`. -/
def aNotesConfig (name : GoString) : Config :=
  { newConfig "user@host".toList "22".toList "/srv/sync".toList with
    Locals := [{ Name := name, Path := "/a/notes".toList }] }

/-! ### Path relations used to state the registry properties -/

/-- The prefix test of `FindLocalForPath` as a relation: `path` is `base`, a
separator, and a remainder. Such a path is a descendant of `base` at a
path-separator boundary. -/
def IsDescendantPath (path base : GoString) : Prop :=
  ∃ rest : GoString, path = base ++ filepathSeparator :: rest

/-- The descendant relation of the registry as the specification words it:
`base` is a strict prefix of `path` up to a separator boundary. The path
continues `base`, and the cut between the two falls next to a separator, the
last character of `base` or the first character of the remainder. -/
def descendsAtSeparator (path base : GoString) : Bool :=
  hasPrefix path base && decide (base.length < path.length) &&
    (decide (base.getLast? = some filepathSeparator) ||
     decide ((path.drop base.length).head? = some filepathSeparator))

/-- Go `strings.Split(s, sep)` for a one-character separator: the maximal
pieces of `s` between occurrences of `sep` (always at least one piece). -/
def splitOnChar (sep : Char) : GoString → List GoString
  | [] => [[]]
  | c :: cs =>
    if c = sep then
      [] :: splitOnChar sep cs
    else
      match splitOnChar sep cs with
      | [] => [[c]]
      | hd :: tl => (c :: hd) :: tl

/-- The components of a path: the names between its separators. The root
directory has none, and a doubled or trailing separator adds none. The names
`.` and `..` are taken as they stand; in a cleaned path, as `os.Getwd` gives
it, they do not occur. -/
def pathComponents (p : GoString) : List GoString :=
  (splitOnChar filepathSeparator p).filter (fun n => !n.isEmpty)

/-- Go `filepath.IsAbs` on Unix: the path starts with a separator. -/
def isAbs (p : GoString) : Bool := hasPrefix p [filepathSeparator]

/-- The directory `dir` is a strict ancestor directory of `cwd`, by whole path
components: both are absolute paths, and the components of `dir` are a proper
initial segment of the components of `cwd`. The root is a strict ancestor of
every other absolute directory. -/
def IsStrictAncestorDir (dir cwd : GoString) : Prop :=
  isAbs dir = true ∧ isAbs cwd = true ∧
    pathComponents dir <+: pathComponents cwd ∧ pathComponents dir ≠ pathComponents cwd

instance (dir cwd : GoString) : Decidable (IsStrictAncestorDir dir cwd) := by
  unfold IsStrictAncestorDir
  infer_instance

/-- An absolute path as `os.Getwd` and `filepath.Clean` give it: the root, or a
separator followed by names joined by single separators, no name being empty,
`.` or `..`. -/
def isCleanAbs (p : GoString) : Bool :=
  decide (p = [filepathSeparator]) ||
    (match splitOnChar filepathSeparator p with
     | [] :: names =>
       !names.isEmpty &&
         names.all (fun n => !n.isEmpty && decide (n ≠ ['.']) && decide (n ≠ ['.', '.']))
     | _ => false)

/-- The registry after `gs track` in the root directory of a freshly
initialised registry: `filepath.Base("/")` is `/`, so the binding `/` is at
`/`. -/
def rootConfig (host port remotePath : GoString) : Config :=
  { newConfig host port remotePath with
    Locals := [{ Name := [filepathSeparator], Path := [filepathSeparator] }] }

/-- The registries that arise from a freshly initialised one by registry calls. -/
def Reachable (env : Env) (c : Config) : Prop :=
  ∃ (host port remotePath : GoString) (ops : List RegistryOp),
    c = runOps env ops (newConfig host port remotePath)

/-! ## Go library functions on strings -/

/-- Number of bytes of the UTF-8 encoding of a code point. -/
def utf8Size (c : Char) : Nat :=
  if c.toNat < 0x80 then 1
  else if c.toNat < 0x800 then 2
  else if c.toNat < 0x10000 then 3
  else 4

/-- Go `len(s)`: the length of the string in bytes. -/
def goLen (s : GoString) : Nat := (s.map utf8Size).sum

/-- Go `unicode.IsSpace`: the Latin-1 spaces `\t \n \v \f \r`, space, U+0085,
U+00A0, and beyond Latin-1 the code points with the White_Space property. -/
def isSpace (c : Char) : Bool :=
  let n := c.toNat
  (0x09 ≤ n && n ≤ 0x0D) || n == 0x20 || n == 0x85 || n == 0xA0 || n == 0x1680 ||
  (0x2000 ≤ n && n ≤ 0x200A) || n == 0x2028 || n == 0x2029 || n == 0x202F ||
  n == 0x205F || n == 0x3000

/-- Go `strings.TrimSpace`: the string without its leading and trailing white
space. -/
def trimSpace (s : GoString) : GoString :=
  ((s.dropWhile isSpace).reverse.dropWhile isSpace).reverse

/-- Go `strings.Contains(s, sub)`. -/
def containsSub (s sub : GoString) : Bool :=
  match s with
  | [] => sub.isEmpty
  | c :: cs => hasPrefix (c :: cs) sub || containsSub cs sub

/-- Go `strings.HasSuffix(s, suf)`. -/
def hasSuffix (s suf : GoString) : Bool := suf.isSuffixOf s

/-! ## remote.go: the change-set interpreter -/

/-- The test `line[0] == b` of the source for an ASCII byte `b`: the first byte
of the line is `b` exactly when its first code point is. -/
def firstByteIs (line : GoString) (b : Char) : Bool := line.head? == some b

/-- The body of the loop of `parseItemizedChanges` over the lines still to be
read, with the slice `changes` built so far. -/
def parseItemizedLoop : List GoString → List GoString → List GoString
  | [], changes => changes
  | line :: rest, changes =>
    let line := trimSpace line
    if goLen line < 12 then
      parseItemizedLoop rest changes
    else if firstByteIs line '<' || firstByteIs line '>' || firstByteIs line '*' ||
        firstByteIs line 'c' then
      parseItemizedLoop rest (changes ++ [line])
    else
      parseItemizedLoop rest changes

/-- Go `parseItemizedChanges`. -/
def parseItemizedChanges (output : GoString) : List GoString :=
  parseItemizedLoop (splitOnChar '\n' output) []

/-- A trimmed line is a change annotation when it is at least 12 bytes long and
its first byte is one of `<`, `>`, `*`, `c`. -/
def isChangeLine (line : GoString) : Bool :=
  decide (12 ≤ goLen line) &&
    (line.head? == some '<' || line.head? == some '>' || line.head? == some '*' ||
      line.head? == some 'c')

/-- The change-annotation lines of an output as the claim words them: the
trimmed lines, in order, that are change annotations. -/
def changeAnnotationLines (output : GoString) : List GoString :=
  ((splitOnChar '\n' output).map trimSpace).filter isChangeLine

/-- A dry-run output that consists of the summary footer only. -/
def footerOnlyOutput : GoString :=
  ("\nsent 1,234 bytes  received 56 bytes  860.00 bytes/sec\n" ++
   "total size is 10,240  speedup is 7.94 (DRY RUN)\n").toList

/-- A dry-run output with change annotations, other lines and the footer. -/
def sampleDryRunOutput : GoString :=
  ("sending incremental file list\n" ++
   "<f+++++++++ notes/a.txt\n" ++
   ".d..t...... notes/\n" ++
   "*deleting   notes/old.txt\n" ++
   "  >f.st...... notes/b.txt \n" ++
   "<f+++++++++ notes/a.txt\n" ++
   "cd+++++++++ notes/sub/\n" ++
   "\nsent 1,234 bytes  received 56 bytes  860.00 bytes/sec\n" ++
   "total size is 10,240  speedup is 7.94 (DRY RUN)\n").toList

/-! ## Go library: package time

`time.Time` is modelled by the civil reading in UTC of its instant, the
nanosecond within the second, and the offset of its location (seconds east of
UTC). `Format` and `Parse` are modelled for the layout `time.RFC3339`
(`2006-01-02T15:04:05Z07:00`). -/

/-- Go `time.Time`. -/
structure Time where
  year : Int
  month : Nat
  day : Nat
  hour : Nat
  minute : Nat
  second : Nat
  nsec : Nat
  offset : Int
deriving DecidableEq, Repr

/-- The zero value `time.Time{}`: January 1, year 1, 00:00:00 UTC. -/
def Time.zero : Time :=
  { year := 1, month := 1, day := 1, hour := 0, minute := 0, second := 0, nsec := 0,
    offset := 0 }

instance : Inhabited Time := ⟨Time.zero⟩

/-- Go `Time.IsZero`: the instant is January 1, year 1, 00:00:00 UTC. -/
def Time.IsZero (t : Time) : Bool :=
  t.year == 1 && t.month == 1 && t.day == 1 && t.hour == 0 && t.minute == 0 &&
    t.second == 0 && t.nsec == 0

/-- Go `isLeap`. -/
def isLeap (year : Int) : Bool :=
  year % 4 == 0 && (year % 100 != 0 || year % 400 == 0)

/-- Go `daysIn(month, year)`. -/
def daysIn (month : Nat) (year : Int) : Nat :=
  if month = 2 then (if isLeap year then 29 else 28)
  else if month = 4 ∨ month = 6 ∨ month = 9 ∨ month = 11 then 30
  else 31

/-- The fields of a `Time` are those of a civil date and clock reading. -/
def Time.Valid (t : Time) : Prop :=
  1 ≤ t.month ∧ t.month ≤ 12 ∧ 1 ≤ t.day ∧ t.day ≤ daysIn t.month t.year ∧
    t.hour < 24 ∧ t.minute < 60 ∧ t.second < 60 ∧ t.nsec < 1000000000

instance (t : Time) : Decidable t.Valid := by
  unfold Time.Valid
  infer_instance

/-- The civil date after `(year, month, day)`. -/
def nextDay (d : Int × Nat × Nat) : Int × Nat × Nat :=
  if d.2.2 < daysIn d.2.1 d.1 then (d.1, d.2.1, d.2.2 + 1)
  else if d.2.1 < 12 then (d.1, d.2.1 + 1, 1)
  else (d.1 + 1, 1, 1)

/-- The civil date before `(year, month, day)`. -/
def prevDay (d : Int × Nat × Nat) : Int × Nat × Nat :=
  if 1 < d.2.2 then (d.1, d.2.1, d.2.2 - 1)
  else if 1 < d.2.1 then (d.1, d.2.1 - 1, daysIn (d.2.1 - 1) d.1)
  else (d.1 - 1, 12, 31)

/-- The civil date `days` days after (before, when negative) a date. -/
def shiftDays (days : Int) (d : Int × Nat × Nat) : Int × Nat × Nat :=
  if 0 ≤ days then nextDay^[days.toNat] d else prevDay^[(-days).toNat] d

/-- The civil reading `delta` seconds later: Go `Time.addSec` on the fields. -/
def Time.addSec (t : Time) (delta : Int) : Time :=
  let total : Int := ((t.hour * 3600 + t.minute * 60 + t.second : Nat) : Int) + delta
  let rem : Nat := (total % 86400).toNat
  let d := shiftDays (total / 86400) (t.year, t.month, t.day)
  { t with year := d.1, month := d.2.1, day := d.2.2,
           hour := rem / 3600, minute := rem % 3600 / 60, second := rem % 60 }

/-- The decimal digit character of `d % 10`. -/
def digitChar (d : Nat) : Char := Char.ofNat (48 + d % 10)

/-- The decimal digits of `n`, most significant first, in front of `acc`
(at most 20 digits, enough for every 64-bit integer). -/
def natDigitsAux : Nat → Nat → List Char → List Char
  | 0, _, acc => acc
  | fuel + 1, n, acc =>
    if n < 10 then digitChar n :: acc
    else natDigitsAux fuel (n / 10) (digitChar n :: acc)

/-- The decimal representation of `n`. -/
def natDigits (n : Nat) : List Char := natDigitsAux 20 n []

/-- Go `appendInt(b, x, width)`: the decimal form of `x`, zero-padded to
`width` digits, after a minus sign when negative. -/
def appendInt (x : Int) (width : Nat) : GoString :=
  let ds := natDigits x.natAbs
  (if x < 0 then ['-'] else []) ++ List.replicate (width - ds.length) '0' ++ ds

/-- Go `Time.Format(time.RFC3339)`: the reading in the time's own location
followed by `Z` for offset zero and by `±hh:mm` otherwise. -/
def Time.formatRFC3339 (t : Time) : GoString :=
  let l := t.addSec t.offset
  let zone : Int := Int.tdiv t.offset 60
  appendInt l.year 4 ++ ['-'] ++ appendInt l.month 2 ++ ['-'] ++ appendInt l.day 2 ++ ['T'] ++
    appendInt l.hour 2 ++ [':'] ++ appendInt l.minute 2 ++ [':'] ++ appendInt l.second 2 ++
    (if t.offset = 0 then ['Z']
     else (if zone < 0 then ['-'] else ['+']) ++
       appendInt (Int.tdiv (Int.natAbs zone) 60) 2 ++ [':'] ++
       appendInt (Int.tmod (Int.natAbs zone) 60) 2)

/-- Go `isDigit`: an ASCII decimal digit. -/
def isDigit (c : Char) : Bool := decide (48 ≤ c.toNat) && decide (c.toNat ≤ 57)

/-- The value of a decimal digit character. -/
def digitVal (c : Char) : Nat := c.toNat - 48

/-- Go `getnum(s, fixed)`: a number of two digits, or of one digit when not
`fixed`, and the rest of the input. -/
def getnum (s : GoString) (fixed : Bool) : Option (Nat × GoString) :=
  match s with
  | [] => none
  | [c0] =>
    if isDigit c0 && !fixed then some (digitVal c0, []) else none
  | c0 :: c1 :: rest =>
    if isDigit c0 then
      if isDigit c1 then some (digitVal c0 * 10 + digitVal c1, rest)
      else if fixed then none
      else some (digitVal c0, c1 :: rest)
    else none

/-- The four-digit year of the layout element `2006`. -/
def getYear (s : GoString) : Option (Nat × GoString) :=
  match s with
  | c0 :: c1 :: c2 :: c3 :: rest =>
    if isDigit c0 && isDigit c1 && isDigit c2 && isDigit c3 then
      some (digitVal c0 * 1000 + digitVal c1 * 100 + digitVal c2 * 10 + digitVal c3, rest)
    else none
  | _ => none

/-- A literal character of the layout. -/
def expectChar (c : Char) (s : GoString) : Option GoString :=
  match s with
  | [] => none
  | x :: rest => if x = c then some rest else none

/-- Go `parseNanoseconds` on the digits of a fractional second: the first nine
digits, scaled to nanoseconds. -/
def parseNanoseconds (digits : List Char) : Nat :=
  let ds := digits.take 9
  (ds.foldl (fun acc c => acc * 10 + digitVal c) 0) * 10 ^ (9 - ds.length)

/-- The optional fractional second after the seconds field: a period or comma
followed by at least one digit. -/
def getFraction (s : GoString) : Nat × GoString :=
  match s with
  | p :: d :: rest =>
    if (p = '.' ∨ p = ',') ∧ isDigit d = true then
      (parseNanoseconds ((d :: rest).takeWhile isDigit), (d :: rest).dropWhile isDigit)
    else (0, s)
  | _ => (0, s)

/-- The zone of the layout element `Z07:00`: `Z`, or a sign, two digits of
hours (at most 24), a colon and two digits of minutes (at most 60); nothing may
follow. The result is the offset in seconds east of UTC and whether the zone is
written `Z`. -/
def getZone (s : GoString) : Option Int :=
  match s with
  | ['Z'] => some 0
  | [sign, h0, h1, colon, m0, m1] =>
    if colon = ':' then
      match getnum [h0, h1] true, getnum [m0, m1] true with
      | some (hr, _), some (mm, _) =>
        if hr > 24 ∨ mm > 60 then none
        else if sign = '+' then some (((hr * 60 + mm) * 60 : Nat) : Int)
        else if sign = '-' then some (-(((hr * 60 + mm) * 60 : Nat) : Int))
        else none
      | _, _ => none
    else none
  | _ => none

/-- Go `time.Parse(time.RFC3339, value)`; `none` stands for a parse error. -/
def timeParseRFC3339 (value : GoString) : Option Time :=
  match getYear value with
  | none => none
  | some (year, s) =>
  match expectChar '-' s with
  | none => none
  | some s =>
  match getnum s true with
  | none => none
  | some (month, s) =>
  match expectChar '-' s with
  | none => none
  | some s =>
  match getnum s true with
  | none => none
  | some (day, s) =>
  match expectChar 'T' s with
  | none => none
  | some s =>
  match getnum s false with
  | none => none
  | some (hour, s) =>
  match expectChar ':' s with
  | none => none
  | some s =>
  match getnum s true with
  | none => none
  | some (minute, s) =>
  match expectChar ':' s with
  | none => none
  | some s =>
  match getnum s true with
  | none => none
  | some (second, s) =>
  match getFraction s with
  | (nsec, s) =>
  match getZone s with
  | none => none
  | some zoneOffset =>
    if month < 1 ∨ 12 < month ∨ 24 ≤ hour ∨ 60 ≤ minute ∨ 60 ≤ second ∨
        day < 1 ∨ daysIn month year < day then none
    else
      some ({ ({ year := year, month := month, day := day, hour := hour, minute := minute,
                 second := second, nsec := nsec, offset := 0 } : Time).addSec (-zoneOffset)
              with offset := zoneOffset })

/-- Go `time.Now().UTC()` stamps and `Format` keeps whole seconds only: the
time with its nanoseconds cleared. -/
def Time.truncSecond (t : Time) : Time := { t with nsec := 0 }

/-! ## Go library: `strings.Fields` and `bufio.Scanner` -/

/-- The loop of Go `strings.Fields`: `cur` is the field being read. -/
def fieldsAux : GoString → GoString → List GoString
  | [], cur => if cur = [] then [] else [cur]
  | c :: cs, cur =>
    if isSpace c then
      (if cur = [] then fieldsAux cs [] else cur :: fieldsAux cs [])
    else
      fieldsAux cs (cur ++ [c])

/-- Go `strings.Fields`: the maximal runs of non-space characters. -/
def fields (s : GoString) : List GoString := fieldsAux s []

/-- Go `bufio.MaxScanTokenSize`. -/
def maxScanTokenSize : Nat := 64 * 1024

/-- The `dropCR` of `bufio.ScanLines`: a trailing carriage return is dropped. -/
def dropCR (line : GoString) : GoString :=
  if line.getLast? = some '\r' then line.dropLast else line

/-- The tokens a `bufio.Scanner` with `ScanLines` delivers for the pieces
between newlines, and whether it stopped with `bufio.ErrTooLong`: a line of
`maxScanTokenSize` bytes or more does not fit the buffer; an empty final piece
is not a line. -/
def scanPieces : List GoString → List GoString × Bool
  | [] => ([], false)
  | [last] =>
    if last = [] then ([], false)
    else if maxScanTokenSize ≤ goLen last then ([], true)
    else ([dropCR last], false)
  | piece :: rest =>
    if maxScanTokenSize ≤ goLen piece then ([], true)
    else ((dropCR piece) :: (scanPieces rest).1, (scanPieces rest).2)

/-- The lines `scanner.Scan()` / `scanner.Text()` yield for a file content, and
the final `scanner.Err()`. -/
def scanLines (content : GoString) : List GoString × Option GsError :=
  let r := scanPieces (splitOnChar '\n' content)
  (r.1, if r.2 then some GsError.scanTooLong else none)

/-! ## state.go -/

/-- Go `type State struct`. -/
structure State where
  LastPush : Time
  LastPull : Time
deriving DecidableEq, Repr

/-- The zero value `State{}`: both timestamps absent. -/
def State.empty : State := { LastPush := Time.zero, LastPull := Time.zero }

/-- Go `statePath`: `filepath.Join(localDir, stateFileName)`. -/
def statePath (env : Env) (localDir : GoString) : GoString :=
  env.filepathJoin localDir stateFileName

/-- The body of the scanning loop of `loadState` for one line. -/
def loadStateLine (state : State) (line : GoString) : State :=
  match fields line with
  | [key, value] =>
    match timeParseRFC3339 value with
    | none => state
    | some t =>
      if key = "last_push".toList then { state with LastPush := t }
      else if key = "last_pull".toList then { state with LastPull := t }
      else state
  | _ => state

/-- The scanning loop of `loadState` over the lines of the file. -/
def loadStateLoop (lines : List GoString) (state : State) : State :=
  lines.foldl loadStateLine state

/-- What `loadState` does with the content of an opened state file: the state
and the value of `scanner.Err()`. -/
def loadStateContent (content : GoString) : State × Option GsError :=
  ((loadStateLoop (scanLines content).1 State.empty), (scanLines content).2)

/-- What `saveState` writes into the created file. -/
def saveStateContent (state : State) : GoString :=
  (if !state.LastPush.IsZero then
      "last_push ".toList ++ state.LastPush.formatRFC3339 ++ ['\n'] else []) ++
  (if !state.LastPull.IsZero then
      "last_pull ".toList ++ state.LastPull.formatRFC3339 ++ ['\n'] else [])

/-! ## The world the commands run in -/

/-- A path of the file system as the state store sees it: no file, a file with
a content, or a path that can be neither opened nor created. -/
inductive FileSlot where
  | missing
  | file (content : GoString)
  | blocked
deriving DecidableEq, Repr

/-- The outcome of `cmd.CombinedOutput()`: success, an `*exec.ExitError` with
its exit code, or another error; each with the combined output. -/
inductive ExecOutcome where
  | success (output : GoString)
  | exit (code : Int) (output : GoString)
  | failed (output : GoString)
deriving DecidableEq, Repr

/-- The observable actions of a command, in order. -/
inductive Event where
  /-- Text written to standard output. -/
  | print (text : GoString)
  /-- Go `time.Sleep(d)`, `d` in nanoseconds. -/
  | sleep (d : Int)
  /-- Go `exec.Command("rsync", args...)` run to completion. -/
  | exec (args : List GoString)
  /-- The exclude file written by `writeExcludeFile`. -/
  | writeTemp (name : GoString) (lines : List GoString)
  /-- Go `os.Remove` of the exclude file. -/
  | removeTemp (name : GoString)
  /-- One `net.DialTimeout` probe of `isServerReachable`. -/
  | dial (host port : GoString) (timeout : Int)
  /-- A `Printf` whose last verb formats an error value. -/
  | printErr (text : GoString) (err : GsError)
deriving DecidableEq, Repr

/-- The environment of a command and the record of what it did. The transfer
engine, the network, the clocks and the temporary-file facility are oracles
indexed by the number of earlier calls; the engine is taken not to touch the
state files (they are on the exclude list `cmdInit` writes). -/
structure World where
  env : Env
  /-- Go `os.ReadFile(configPath())`: `none` when unreadable, `some none` when the
  content does not parse, else the decoded registry. -/
  configFile : Option (Option Config)
  /-- Go `os.Getwd()`, `none` on error. -/
  cwd : Option GoString
  /-- The files at the state paths. -/
  files : GoString → FileSlot
  /-- The successive values of `time.Now().UTC()`. -/
  clock : Nat → Time
  ticks : Nat
  /-- The transfer engine: outcome of the `n`-th invocation on its arguments. -/
  engine : Nat → List GoString → ExecOutcome
  execs : Nat
  /-- Go `os.CreateTemp`: the name of the `n`-th temporary file, `none` on error. -/
  tempFile : Nat → Option GoString
  temps : Nat
  /-- Whether the `n`-th dial succeeds, and how long it takes. -/
  dialOk : Nat → Bool
  dialCost : Nat → Int
  dials : Nat
  /-- The monotonic clock, in nanoseconds. -/
  mono : Int
  trace : List Event

/-- Append an event to the record. -/
def World.emit (w : World) (e : Event) : World := { w with trace := w.trace ++ [e] }

/-- Go `fmt.Print` / `fmt.Println` / `fmt.Printf` of a finished text. -/
def World.print (w : World) (text : GoString) : World := w.emit (Event.print text)

/-- Go `time.Sleep(d)`. -/
def World.sleep (w : World) (d : Int) : World :=
  { w with trace := w.trace ++ [Event.sleep d], mono := w.mono + max d 0 }

/-- Go `time.Second`, in nanoseconds. -/
def second : Int := 1000000000

/-- Go `loadConfig`. -/
def loadConfig (w : World) : Except GsError Config :=
  match w.configFile with
  | none => Except.error GsError.configRead
  | some none => Except.error GsError.configParse
  | some (some cfg) =>
    Except.ok { cfg with
      Locals := cfg.Locals.map (fun l => { l with Path := expandPath w.env l.Path }) }

/-- Go `loadState`. The nil pointer returned together with the open error is
rendered as the zero `State`; no caller reads it. -/
def loadState (w : World) (localDir : GoString) : State × Option GsError :=
  match w.files (statePath w.env localDir) with
  | FileSlot.missing => (State.empty, none)
  | FileSlot.blocked => (State.empty, some GsError.stateOpen)
  | FileSlot.file content => loadStateContent content

/-- Go `saveState`. -/
def saveState (w : World) (localDir : GoString) (state : State) : Option GsError × World :=
  match w.files (statePath w.env localDir) with
  | FileSlot.blocked => (some GsError.stateCreate, w)
  | _ =>
    (none,
      { w with
        files := fun p =>
          if p = statePath w.env localDir then FileSlot.file (saveStateContent state)
          else w.files p })

/-! ## remote.go -/

/-- Go `sshOptions`. -/
def sshOptions : GoString := "-o PasswordAuthentication=no -o BatchMode=yes".toList

/-- Go `isServerReachable`: one dial of the host (without its `user@` part). -/
def isServerReachable (w : World) (host port : GoString) (timeout : Int) : Bool × World :=
  let hostOnly := ((splitOnChar '@' host).getLast?).getD host
  (w.dialOk w.dials,
    { w with
      dials := w.dials + 1
      mono := w.mono + w.dialCost w.dials
      trace := w.trace ++ [Event.dial hostOnly port timeout] })

/-- The loop of `waitForServer`, `start` being the monotonic reading taken
before it; `none` when the loop is still running after `fuel` rounds. -/
def waitForServerLoop (host port : GoString) (interval timeout start : Int) :
    Nat → World → Option (Option GsError × World)
  | 0, _ => none
  | fuel + 1, w =>
    match isServerReachable w host port (5 * second) with
    | (true, w) => some (none, w)
    | (false, w) =>
      if 0 < timeout ∧ timeout ≤ w.mono - start then
        some (some GsError.waitTimeout, w)
      else
        waitForServerLoop host port interval timeout start fuel (w.sleep interval)

/-- Go `waitForServer`. -/
def waitForServer (fuel : Nat) (w : World) (host port : GoString) (interval timeout : Int) :
    Option (Option GsError × World) :=
  waitForServerLoop host port interval timeout w.mono fuel w

/-- Go `type RsyncResult struct`. -/
structure RsyncResult where
  Output : GoString
  Changes : List GoString
deriving DecidableEq, Repr

/-- Go `writeExcludeFile`: the name of the temporary file written. -/
def writeExcludeFile (w : World) (excludes : List GoString) : Except GsError GoString × World :=
  match w.tempFile w.temps with
  | none => (Except.error GsError.createTemp, { w with temps := w.temps + 1 })
  | some name =>
    (Except.ok name,
      { w with temps := w.temps + 1, trace := w.trace ++ [Event.writeTemp name excludes] })

/-- The normalisation `if !strings.HasSuffix(p, "/") { p += "/" }` of `runRsync`. -/
def normDir (p : GoString) : GoString :=
  if !hasSuffix p ['/'] then p ++ ['/'] else p

/-- The classification of the engine outcome by `runRsync`: the error it
returns, `none` when the engine succeeded. -/
def rsyncError : ExecOutcome → Option GsError
  | ExecOutcome.success _ => none
  | ExecOutcome.exit code output =>
    if code = 255 then some (GsError.sshFailed output)
    else if code = 23 ∧ containsSub output "No such file or directory".toList = true then
      some GsError.remoteNotFound
    else some (GsError.rsyncFailed output)
  | ExecOutcome.failed output => some (GsError.rsyncFailed output)

/-- The combined output of an engine run. -/
def ExecOutcome.output : ExecOutcome → GoString
  | ExecOutcome.success output => output
  | ExecOutcome.exit _ output => output
  | ExecOutcome.failed output => output

/-- The part of `runRsync` from the normalisation of `src` and `dst` on: the
engine is run on the finished argument list and its outcome is classified. -/
def runRsyncExec (w : World) (args : List GoString) (src dst : GoString) (dryRun : Bool) :
    Except GsError RsyncResult × World :=
  let args := args ++ [normDir src, normDir dst]
  let outcome := w.engine w.execs args
  let w' : World := { w with execs := w.execs + 1, trace := w.trace ++ [Event.exec args] }
  match rsyncError outcome with
  | some e => (Except.error e, w')
  | none =>
    (Except.ok { Output := outcome.output,
                 Changes := if dryRun then parseItemizedChanges outcome.output else [] }, w')

/-- The argument list `runRsync` has built before the exclude file and the two
paths are added. -/
def rsyncBaseArgs (port : GoString) (dryRun del : Bool) : List GoString :=
  let sshCmd := "ssh -p ".toList ++ port ++ " ".toList ++ sshOptions
  let args := ["-avz".toList, "-e".toList, sshCmd]
  let args := if dryRun then args ++ ["--dry-run".toList, "--itemize-changes".toList] else args
  if del then args ++ ["--delete".toList] else args

/-- Go `runRsync`. -/
def runRsync (w : World) (src dst port : GoString) (excludes : List GoString)
    (dryRun del : Bool) : Except GsError RsyncResult × World :=
  let args := rsyncBaseArgs port dryRun del
  if 0 < excludes.length then
    match writeExcludeFile w excludes with
    | (Except.error e, w) => (Except.error e, w)
    | (Except.ok excludeFile, w) =>
      match runRsyncExec w (args ++ ["--exclude-from=".toList ++ excludeFile]) src dst dryRun with
      | (r, w) => (r, w.emit (Event.removeTemp excludeFile))
  else
    runRsyncExec w args src dst dryRun

/-- Go `checkRemoteChanges`. -/
def checkRemoteChanges (w : World) (cfg : Config) (l : Local) :
    Except GsError (List GoString) × World :=
  match runRsync w (cfg.RemoteForLocal l) l.Path cfg.Port cfg.Excludes true false with
  | (Except.error e, w) => (Except.error e, w)
  | (Except.ok result, w) => (Except.ok result.Changes, w)

/-! ## commands.go -/

/-- Go `getCurrentLocal`. -/
def getCurrentLocal (w : World) (cfg : Config) : Except GsError Local :=
  match w.cwd with
  | none => Except.error GsError.getwd
  | some cwd =>
    match cfg.FindLocalForPath w.env cwd with
    | none => Except.error GsError.notConfigured
    | some l => Except.ok l

/-- The loops `for _, c := range changes { fmt.Printf("  %s\n", c) }`. -/
def printChanges (w : World) (changes : List GoString) : World :=
  changes.foldl (fun w c => w.print ("  ".toList ++ c ++ "\n".toList)) w

/-- The part of `cmdPush`, `cmdPull` and `pullLocal` after a successful
transfer: the state is stamped with `time.Now().UTC()` by `stamp` and saved,
then the engine output and the closing line are printed. -/
def stampAndSave (w : World) (l : Local) (stamp : Time → State) (output closing : GoString) :
    Option GsError × World :=
  let now := w.clock w.ticks
  let w := { w with ticks := w.ticks + 1 }
  match saveState w l.Path (stamp now) with
  | (some e, w) => (some (GsError.saveStateFailed e), w)
  | (none, w) => (none, (w.print output).print closing)

/-- The block of `cmdPush`, `cmdPull` and `pullLocal` that is the same in the
three: the real transfer `runRsync(src, dst, cfg.Port, cfg.Excludes, false,
true)`, the return of its error, and on success the stamping by `stamp`. -/
def transferAndStamp (w : World) (cfg : Config) (l : Local) (src dst : GoString)
    (stamp : Time → State) (closing : GoString) : Option GsError × World :=
  match runRsync w src dst cfg.Port cfg.Excludes false true with
  | (Except.error e, w) => (some e, w)
  | (Except.ok result, w) => stampAndSave w l stamp result.Output closing

/-- The block `if !state.LastPull.IsZero() { ... }` of `cmdPush`: the advisory
check for remote changes that have not been pulled. -/
def pushAdvisory (w : World) (cfg : Config) (l : Local) (state : State) :
    Option GsError × World :=
  if !state.LastPull.IsZero then
    match checkRemoteChanges (w.print "[~] checking for remote changes...\n".toList) cfg l with
    | (Except.error e, w) => (some (GsError.checkRemote e), w)
    | (Except.ok changes, w) =>
      if 0 < changes.length then
        (none,
          (printChanges
            (w.print "[!] warning: remote has changes that haven't been pulled:\n".toList)
            changes).print
            "[+] consider running 'gs pull' first, or use 'gs push' again to force\n".toList)
      else (none, w)
  else (none, w)

/-- The delay of the first-push guard, `5 * time.Second`. -/
def firstPushDelay : Int := 5 * second

/-- The delay of the first-pull guard, `3 * time.Second`. -/
def firstPullDelay : Int := 3 * second

/-- The block `if state.LastPush.IsZero() { ... }` of `cmdPush`: the
first-transfer warning and delay. -/
def firstPushGuard (w : World) (state : State) : World :=
  if state.LastPush.IsZero then
    ((w.print ("[!] warning: first push will use --delete flag, which removes files on " ++
        "remote that don't exist locally\n").toList).print
      "[?] press ctrl+c to abort, or wait 5 seconds to continue...\n".toList).sleep
      firstPushDelay
  else w

/-- The block `if state.LastPull.IsZero() { ... }` of `cmdPull`: the
first-transfer warning and delay. -/
def firstPullGuard (w : World) (state : State) : World :=
  if state.LastPull.IsZero then
    ((w.print ("[!] warning: first pull will use --delete flag, which removes local " ++
        "files that don't exist on remote\n").toList).print
      "[?] press ctrl+c to abort, or wait 3 seconds to continue...\n".toList).sleep
      firstPullDelay
  else w

/-- The statements of `cmdPush` between `loadState` and the transfer: the
advisory check, the first-push guard and the progress line. -/
def pushPrepare (w : World) (cfg : Config) (l : Local) (state : State) :
    Option GsError × World :=
  match pushAdvisory w cfg l state with
  | (some e, w) => (some e, w)
  | (none, w) =>
    (none, (firstPushGuard w state).print
      ("[~] pushing '".toList ++ l.Name ++ "' to server...\n".toList))

/-- The statements of `cmdPull` between `loadState` and the transfer: the
first-pull guard and the progress line. -/
def pullPrepare (w : World) (l : Local) (state : State) : World :=
  (firstPullGuard w state).print ("[~] pulling '".toList ++ l.Name ++ "' from server...\n".toList)

/-- The statement of `pullLocal` between `loadState` and the transfer: the
progress line. -/
def pullLocalPrepare (w : World) (l : Local) : World :=
  w.print ("[~] pulling '".toList ++ l.Name ++ "' from server...\n".toList)

/-- Go `cmdPush`. -/
def cmdPush (w : World) : Option GsError × World :=
  match loadConfig w with
  | Except.error e => (some e, w)
  | Except.ok cfg =>
  match getCurrentLocal w cfg with
  | Except.error e => (some e, w)
  | Except.ok l =>
  match loadState w l.Path with
  | (_, some e) => (some e, w)
  | (state, none) =>
  match pushPrepare w cfg l state with
  | (some e, w) => (some e, w)
  | (none, w) =>
    transferAndStamp w cfg l l.Path (cfg.RemoteForLocal l)
      (fun now => { state with LastPush := now }) "[+] push complete\n".toList

/-- Go `cmdPull`. -/
def cmdPull (w : World) : Option GsError × World :=
  match loadConfig w with
  | Except.error e => (some e, w)
  | Except.ok cfg =>
  match getCurrentLocal w cfg with
  | Except.error e => (some e, w)
  | Except.ok l =>
  match loadState w l.Path with
  | (_, some e) => (some e, w)
  | (state, none) =>
    transferAndStamp (pullPrepare w l state) cfg l (cfg.RemoteForLocal l) l.Path
      (fun now => { state with LastPull := now }) "[+] pull complete\n".toList

/-- Go `cmdStatus`. -/
def cmdStatus (w : World) : Option GsError × World :=
  match loadConfig w with
  | Except.error e => (some e, w)
  | Except.ok cfg =>
  match getCurrentLocal w cfg with
  | Except.error e => (some e, w)
  | Except.ok l =>
  let remote := cfg.RemoteForLocal l
  let w := w.print ("[~] checking status for '".toList ++ l.Name ++ "'...\n".toList)
  let w := w.print "[~] checking remote...\n".toList
  match runRsync w remote l.Path cfg.Port cfg.Excludes true true with
  | (Except.error e, w) =>
    if e = GsError.remoteNotFound then
      (none, (w.print "[!] remote directory does not exist yet\n".toList).print
        "[+] run 'gs push' to initialize it\n".toList)
    else (some (GsError.checkRemote e), w)
  | (Except.ok pullResult, w) =>
  let w := w.print "[~] checking local...\n".toList
  match runRsync w l.Path remote cfg.Port cfg.Excludes true true with
  | (Except.error e, w) => (some (GsError.checkLocal e), w)
  | (Except.ok pushResult, w) =>
  let w := w.print "\n".toList
  if pushResult.Changes.length = 0 ∧ pullResult.Changes.length = 0 then
    (none, w.print "[+] everything is in sync\n".toList)
  else
    let w :=
      if 0 < pushResult.Changes.length then
        printChanges (w.print "local changes (push to sync):\n".toList) pushResult.Changes
      else w
    let w :=
      if 0 < pullResult.Changes.length then
        printChanges (w.print "remote changes (pull to sync):\n".toList) pullResult.Changes
      else w
    (none, w)

/-- Go `pullLocal`. -/
def pullLocal (w : World) (cfg : Config) (l : Local) : Option GsError × World :=
  match loadState w l.Path with
  | (_, some e) => (some e, w)
  | (state, none) =>
    transferAndStamp (pullLocalPrepare w l) cfg l (cfg.RemoteForLocal l) l.Path
      (fun now => { state with LastPull := now })
      ("[+] pull complete for '".toList ++ l.Name ++ "'\n".toList)

/-- The loop of `cmdAuto` over the bindings still to pull, with the slice
`failed` built so far. -/
def autoPullLoop (cfg : Config) : List Local → World → List GoString → List GoString × World
  | [], w, failed => (failed, w)
  | l :: rest, w, failed =>
    match pullLocal w cfg l with
    | (some err, w) =>
      autoPullLoop cfg rest
        (w.emit (Event.printErr ("[!] failed to pull '".toList ++ l.Name ++ "': ".toList) err))
        (failed ++ [l.Name])
    | (none, w) => autoPullLoop cfg rest w failed

/-- Go `cmdAuto`; `none` when `waitForServer` is still polling after `fuel`
rounds. -/
def cmdAuto (fuel : Nat) (w : World) (interval timeout : Int) : Option (Option GsError × World) :=
  match loadConfig w with
  | Except.error e => some (some e, w)
  | Except.ok cfg =>
  if cfg.Locals.length = 0 then some (some GsError.noLocals, w)
  else
    let w := w.print ("[~] waiting for server ".toList ++ cfg.Server ++ ":".toList ++ cfg.Port ++
      "...\n".toList)
    match waitForServer fuel w cfg.Server cfg.Port interval timeout with
    | none => none
    | some (some e, w) => some (some e, w)
    | some (none, w) =>
      let w := w.print ("[~] server is reachable, pulling ".toList ++
        natDigits cfg.Locals.length ++ " local(s)...\n".toList)
      match autoPullLoop cfg cfg.Locals w [] with
      | (failed, w) =>
        if 0 < failed.length then some (some (GsError.failedToPull failed), w)
        else some (none, w.print "[+] auto-pull complete for all locals\n".toList)

/-! ## Predicates and sample inputs used by the theorems -/

/-- A text made of lines, each closed by a newline. -/
def joinLines : List GoString → GoString
  | [] => []
  | l :: ls => l ++ '\n' :: joinLines ls

/-- A timestamp the state store keeps exactly apart from its sub-second part:
a UTC time with a four-digit year. -/
def Time.Storable (t : Time) : Prop :=
  t.Valid ∧ t.offset = 0 ∧ 0 ≤ t.year ∧ t.year ≤ 9999

instance (t : Time) : Decidable t.Storable := by
  unfold Time.Storable
  infer_instance

/-- The instant 2026-11-01 09:05:07.5 UTC, a value `time.Now().UTC()` can return. -/
def sampleNow : Time :=
  { year := 2026, month := 11, day := 1, hour := 9, minute := 5, second := 7,
    nsec := 500000000, offset := 0 }

/-- The registry of the test suite in a world with the working directory
`/home/user/notes`, no state files, an engine that succeeds with empty output,
a reachable server and a clock that reads `sampleNow`. -/
def sampleWorld : World :=
  { env := noHomeEnv
    configFile := some (some notesConfig)
    cwd := some "/home/user/notes".toList
    files := fun _ => FileSlot.missing
    clock := fun _ => sampleNow
    ticks := 0
    engine := fun _ _ => ExecOutcome.success []
    execs := 0
    tempFile := fun _ => some "/tmp/gs-excludes-1".toList
    temps := 0
    dialOk := fun _ => true
    dialCost := fun _ => 0
    dials := 0
    mono := 0
    trace := [] }

/-- A line the scanner returns as it is: it holds no newline, does not end in
a carriage return and fits the buffer. -/
def GoodLine (l : GoString) : Prop :=
  '\n' ∉ l ∧ dropCR l = l ∧ goLen l < maxScanTokenSize

/-- A text without white space that is not empty: a field of `strings.Fields`. -/
def IsField (s : GoString) : Prop :=
  s ≠ [] ∧ ∀ c ∈ s, isSpace c = false

/-- A state as `cmdPush` stamps it: pushed at `sampleNow`, never pulled. -/
def samplePushedState : State := { LastPush := sampleNow, LastPull := Time.zero }

/-! ## Reading a record of events -/

/-- The events that matter for the safety guard: delays and engine runs. -/
def Event.isSignificant : Event → Bool
  | Event.sleep _ => true
  | Event.exec _ => true
  | _ => false

/-- The delays and engine runs of a record, in order. -/
def significant (evs : List Event) : List Event := evs.filter Event.isSignificant

/-- The argument list carries the flag. -/
def hasFlag (args : List GoString) (flag : String) : Prop := flag.toList ∈ args

instance (args : List GoString) (flag : String) : Decidable (hasFlag args flag) := by
  unfold hasFlag
  infer_instance

/-- The last two arguments of an invocation are the source and destination. -/
def transfersFromTo (args : List GoString) (src dst : GoString) : Prop :=
  ∃ front : List GoString, args = front ++ [normDir src, normDir dst]

/-- Two worlds resolve the same registry and binding: same environment, same
configuration file, same working directory. -/
def SameSetup (w w' : World) : Prop :=
  w'.env = w.env ∧ w'.configFile = w.configFile ∧ w'.cwd = w.cwd

/-- The sample world with an engine that always exits with code 12. -/
def failingWorld : World :=
  { sampleWorld with engine := fun _ _ => ExecOutcome.exit 12 "rsync error".toList }

/-- An invocation in dry-run mode that also carries the deletion flag, from
`src` to `dst`. -/
def DryRunWithDelete (args : List GoString) (src dst : GoString) : Prop :=
  hasFlag args "--dry-run" ∧ hasFlag args "--itemize-changes" ∧ hasFlag args "--delete" ∧
    transfersFromTo args src dst

/-- A real transfer with deletion reconciliation, from `src` to `dst`. -/
def RealWithDelete (args : List GoString) (src dst : GoString) : Prop :=
  ¬ hasFlag args "--dry-run" ∧ hasFlag args "--delete" ∧ transfersFromTo args src dst

/-- The words of an argument list. -/
def words (ws : List String) : List GoString := ws.map String.toList

/-- The arguments of the pull-direction dry run of `status` in the sample world. -/
def sampleStatusPullArgs : List GoString :=
  words ["-avz", "-e", "ssh -p 22 -o PasswordAuthentication=no -o BatchMode=yes",
    "--dry-run", "--itemize-changes", "--delete", "--exclude-from=/tmp/gs-excludes-1",
    "user@host:/srv/sync/notes/", "/home/user/notes/"]

/-- The arguments of the push-direction dry run of `status` in the sample world. -/
def sampleStatusPushArgs : List GoString :=
  words ["-avz", "-e", "ssh -p 22 -o PasswordAuthentication=no -o BatchMode=yes",
    "--dry-run", "--itemize-changes", "--delete", "--exclude-from=/tmp/gs-excludes-1",
    "/home/user/notes/", "user@host:/srv/sync/notes/"]

/-- The arguments of the real pull of the binding `notes` in the sample world. -/
def samplePullArgs : List GoString :=
  words ["-avz", "-e", "ssh -p 22 -o PasswordAuthentication=no -o BatchMode=yes",
    "--delete", "--exclude-from=/tmp/gs-excludes-1",
    "user@host:/srv/sync/notes/", "/home/user/notes/"]

/-- The arguments of the real push of the binding `notes` in the sample world. -/
def samplePushArgs : List GoString :=
  words ["-avz", "-e", "ssh -p 22 -o PasswordAuthentication=no -o BatchMode=yes",
    "--delete", "--exclude-from=/tmp/gs-excludes-1",
    "/home/user/notes/", "user@host:/srv/sync/notes/"]

/-- The delay the first-push guard adds to the record: the fixed delay when
`lastPush` is absent, nothing otherwise. -/
def pushGuardEvents (state : State) : List Event :=
  if state.LastPush.IsZero then [Event.sleep firstPushDelay] else []

/-- The delay the first-pull guard adds to the record: the fixed delay when
`lastPull` is absent, nothing otherwise. -/
def pullGuardEvents (state : State) : List Event :=
  if state.LastPull.IsZero then [Event.sleep firstPullDelay] else []

/-- The files after `saveState` has written `state` for `localDir`. -/
def filesAfterSave (w : World) (localDir : GoString) (state : State) : GoString → FileSlot :=
  fun p =>
    if p = statePath w.env localDir then FileSlot.file (saveStateContent state)
    else w.files p

/-- A one-byte character that is not white space. -/
def IsPlainChar (c : Char) : Prop := isSpace c = false ∧ utf8Size c = 1

instance (c : Char) : Decidable (IsPlainChar c) := by
  unfold IsPlainChar
  infer_instance

/-- The binding of the sample world. -/
def notesLocal : Local := { Name := "notes".toList, Path := "/home/user/notes".toList }

/-- How an operation whose result is `op`, started in the world `w`, treats
its transfer `transfer` (the result of its `runRsync` call): an error of the
transfer is what the operation returns, with the state files as they were; no
failing run of the operation changes a state file; and a state file is changed
only when the transfer has returned success. -/
def FailsSafely (op : Option GsError × World) (w : World)
    (transfer : Except GsError RsyncResult × World) : Prop :=
  (∀ e, transfer.1 = Except.error e → op.1 = some e ∧ op.2.files = w.files) ∧
  (op.1 ≠ none → op.2.files = w.files) ∧
  (op.2.files ≠ w.files → ∃ result, transfer.1 = Except.ok result)

/-! ## config.go: `parseRemote` -/

/-- Go `strings.Index(s, sep)` for a one-character separator, as the cut it
is used for: the text before the first `sep` and the text after it, `none`
when `sep` does not occur. -/
def cutAtChar (sep : Char) : GoString → Option (GoString × GoString)
  | [] => none
  | c :: cs =>
    if c = sep then some ([], cs)
    else
      match cutAtChar sep cs with
      | none => none
      | some (a, b) => some (c :: a, b)

/-- The loop of Go `genSplit` with `k` cuts still allowed: the pieces cut off
so far are followed by the unsplit remainder. -/
def genSplitLoop (sep : Char) : Nat → GoString → List GoString
  | 0, s => [s]
  | k + 1, s =>
    match cutAtChar sep s with
    | none => [s]
    | some (a, rest) => a :: genSplitLoop sep k rest

/-- Go `strings.SplitN(s, sep, n)` for a one-character separator and `n ≥ 0`:
at most `n` pieces, the last one the unsplit remainder; `n` is first capped at
`len(s) + 1`. -/
def splitN (s : GoString) (sep : Char) (n : Nat) : List GoString :=
  if n = 0 then []
  else genSplitLoop sep ((if goLen s + 1 < n then goLen s + 1 else n) - 1) s

/-- Go `strings.TrimSuffix(s, suffix)`. -/
def trimSuffix (s suffix : GoString) : GoString :=
  if hasSuffix s suffix then s.take (s.length - suffix.length) else s

/-- Go `parseRemote`: host, port and path, or the format error. -/
def parseRemote (remote : GoString) : Except GsError (GoString × GoString × GoString) :=
  match splitN remote ':' 3 with
  | [host, port, path] => Except.ok (host, port, trimSuffix path ['/'])
  | _ => Except.error GsError.invalidRemote

/-- A path without one trailing `/`, as the claim words it: the last
character is dropped when it is a `/`. -/
def dropOneTrailingSlash (path : GoString) : GoString :=
  if path.getLast? = some '/' then path.dropLast else path

/-! ## Predicates and sample inputs for the tolerance of `loadState` -/

/-- The lines from which the loop of `loadState` takes a timestamp: exactly two
fields, a second field that `time.Parse` accepts for the layout
`time.RFC3339`, and the key `last_push` or `last_pull`. Every other line is
skipped by the loop. -/
def lineRead (line : GoString) : Bool :=
  match fields line with
  | [key, value] =>
    (timeParseRFC3339 value).isSome &&
      (decide (key = "last_push".toList) || decide (key = "last_pull".toList))
  | _ => false

/-- The rule `time-offset` of RFC 3339: `Z` (or `z`), or a sign, an hour from
`00` to `23`, a colon and a minute from `00` to `59`. -/
def isRFC3339Offset (s : GoString) : Bool :=
  match s with
  | [z] => decide (z = 'Z') || decide (z = 'z')
  | [sign, h0, h1, colon, m0, m1] =>
    (decide (sign = '+') || decide (sign = '-')) && decide (colon = ':') &&
      isDigit h0 && isDigit h1 && isDigit m0 && isDigit m1 &&
      decide (digitVal h0 * 10 + digitVal h1 ≤ 23) &&
      decide (digitVal m0 * 10 + digitVal m1 ≤ 59)
  | _ => false

/-- The end of `full-time` of RFC 3339 after the seconds: an optional
`time-secfrac`, a period and one or more digits, and then the `time-offset`. -/
def isRFC3339Tail (s : GoString) : Bool :=
  match s with
  | '.' :: d :: rest => isDigit d && isRFC3339Offset (rest.dropWhile isDigit)
  | _ => isRFC3339Offset s

/-- A valid RFC 3339 timestamp, by the rule `date-time` of RFC 3339 section
5.6: four digits of year, `-`, two digits of month (01-12), `-`, two digits of
day (01 to the length of the month), `T` (or `t`), two digits of hour (00-23),
`:`, two digits of minute (00-59), `:`, two digits of second (00-59, and 60
for a leap second), an optional fraction, and the offset. -/
def isRFC3339 (s : GoString) : Bool :=
  match s with
  | y0 :: y1 :: y2 :: y3 :: p0 :: m0 :: m1 :: p1 :: d0 :: d1 :: t :: h0 :: h1 :: c0 ::
      n0 :: n1 :: c1 :: s0 :: s1 :: tail =>
    isDigit y0 && isDigit y1 && isDigit y2 && isDigit y3 &&
      decide (p0 = '-') && isDigit m0 && isDigit m1 && decide (p1 = '-') &&
      isDigit d0 && isDigit d1 && (decide (t = 'T') || decide (t = 't')) &&
      isDigit h0 && isDigit h1 && decide (c0 = ':') && isDigit n0 && isDigit n1 &&
      decide (c1 = ':') && isDigit s0 && isDigit s1 &&
      decide (1 ≤ digitVal m0 * 10 + digitVal m1) &&
      decide (digitVal m0 * 10 + digitVal m1 ≤ 12) &&
      decide (1 ≤ digitVal d0 * 10 + digitVal d1) &&
      decide (digitVal d0 * 10 + digitVal d1
        ≤ daysIn (digitVal m0 * 10 + digitVal m1)
            ((digitVal y0 * 1000 + digitVal y1 * 100 + digitVal y2 * 10 + digitVal y3 : Nat) : Int)) &&
      decide (digitVal h0 * 10 + digitVal h1 ≤ 23) &&
      decide (digitVal n0 * 10 + digitVal n1 ≤ 59) &&
      decide (digitVal s0 * 10 + digitVal s1 ≤ 60) &&
      isRFC3339Tail tail
  | _ => false

/-- A line of the state file that is not invalid, as the claim words it: it
consists of exactly two whitespace-separated fields, the second field is a
valid RFC 3339 timestamp, and the key is `last_push` or `last_pull`. -/
def lineValid (line : GoString) : Bool :=
  match fields line with
  | [key, value] =>
    isRFC3339 value &&
      (decide (key = "last_push".toList) || decide (key = "last_pull".toList))
  | _ => false

/-- The text whose lines are the given ones: consecutive lines are separated
by a newline. -/
def joinWithNewlines : List GoString → GoString
  | [] => []
  | [l] => l
  | l :: m :: ls => l ++ '\n' :: joinWithNewlines (m :: ls)

/-- The content with every invalid line removed: the lines between newlines
that are valid, in order. -/
def removeInvalidLines (content : GoString) : GoString :=
  joinWithNewlines ((splitOnChar '\n' content).filter lineValid)

/-- Every line of the content is shorter than the scanner's token limit. -/
def AllLinesFit (content : GoString) : Prop :=
  ∀ p ∈ splitOnChar '\n' content, goLen p < maxScanTokenSize

instance (content : GoString) : Decidable (AllLinesFit content) := by
  unfold AllLinesFit
  infer_instance

/-- Every line of the content from which `loadState` takes a timestamp is a
valid line: the timestamps `time.Parse` accepts in this file are valid RFC 3339
timestamps. -/
def ReadLinesValid (content : GoString) : Prop :=
  ∀ p ∈ splitOnChar '\n' content, lineRead p = true → lineValid p = true

instance (content : GoString) : Decidable (ReadLinesValid content) := by
  unfold ReadLinesValid
  infer_instance

/-- A state file whose only line has the hour written with one digit:
`time.Parse` accepts the timestamp, RFC 3339 does not. -/
def lenientStateContent : GoString := "last_push 2026-11-01T9:05:07Z\n".toList

/-- A state file with two valid lines, a line with an unknown key and a line
with a malformed timestamp. -/
def mixedStateContent : GoString :=
  ("last_push 2026-11-01T09:05:07Z\n" ++
   "last_sync 2026-11-01T09:00:00Z\n" ++
   "last_pull yesterday\n" ++
   "last_pull 2026-11-01T10:00:00Z\n").toList

/-- The state file with only the two valid lines of `mixedStateContent`. -/
def validOnlyStateContent : GoString :=
  ("last_push 2026-11-01T09:05:07Z\n" ++
   "last_pull 2026-11-01T10:00:00Z\n").toList

/-- A state file whose first line is 65536 letters `x` and whose second line
is a valid `last_push` line. -/
def longLineContent : GoString :=
  List.replicate 65536 'x' ++ "\nlast_push 2026-11-01T09:05:07Z\n".toList

/-- The sample world with the given content in every state file. -/
def worldWithStateFile (content : GoString) : World :=
  { sampleWorld with files := fun _ => FileSlot.file content }

/-! ## Predicates and sample inputs for auto-pull-all -/

/-- The world in which `cmdAuto` starts waiting for the server: after its
first progress line. -/
def autoWaitingWorld (w : World) (cfg : Config) : World :=
  w.print ("[~] waiting for server ".toList ++ cfg.Server ++ ":".toList ++ cfg.Port ++
    "...\n".toList)

/-- The world in which `cmdAuto` starts pulling: after the line that reports
the server reachable. -/
def autoPullingWorld (w : World) (cfg : Config) : World :=
  w.print ("[~] server is reachable, pulling ".toList ++
    natDigits cfg.Locals.length ++ " local(s)...\n".toList)

/-- The pulls of auto-pull-all as the claim words them: every binding of the
list once, in order, each pull started in the world the earlier ones left
(a failed pull is reported on standard output and the next one is started);
for each binding the error of its pull, `none` when it succeeded. -/
def pullEach (cfg : Config) : List Local → World → List (Local × Option GsError) × World
  | [], w => ([], w)
  | l :: rest, w =>
    let r := pullLocal w cfg l
    let next : World :=
      match r.1 with
      | some err =>
        r.2.emit (Event.printErr ("[!] failed to pull '".toList ++ l.Name ++ "': ".toList) err)
      | none => r.2
    ((l, r.1) :: (pullEach cfg rest next).1, (pullEach cfg rest next).2)

/-- The names of the bindings whose pull failed, in order. -/
def failedNames (outcomes : List (Local × Option GsError)) : List GoString :=
  (outcomes.filter (fun o => o.2.isSome)).map (fun o => o.1.Name)

/-- The engine runs of the pull of one binding: none, and then the pull
failed, or one real transfer with `--delete` from the binding's remote to its
directory. -/
def PullRun (cfg : Config) (o : Local × Option GsError) (evs : List Event) : Prop :=
  (evs = [] ∧ o.2 ≠ none) ∨
  ∃ args, evs = [Event.exec args] ∧ RealWithDelete args (cfg.RemoteForLocal o.1) o.1.Path

/-- The binding `projects` of the test suite. -/
def projectsLocal : Local := { Name := "projects".toList, Path := "/home/user/projects".toList }

/-- The two-binding registry of the test suite. -/
def twoBindingConfig : Config := { notesConfig with Locals := [notesLocal, projectsLocal] }

/-- The sample world with the two-binding registry and an engine whose first
run exits with code 12 and whose later runs succeed. -/
def twoBindingWorld : World :=
  { sampleWorld with
    configFile := some (some twoBindingConfig)
    engine := fun n _ =>
      if n = 0 then ExecOutcome.exit 12 "rsync error".toList else ExecOutcome.success [] }

/-- The world of `twoBindingWorld` once the first dial has found the server. -/
def twoBindingReached : World :=
  (isServerReachable (autoWaitingWorld twoBindingWorld twoBindingConfig)
    twoBindingConfig.Server twoBindingConfig.Port (5 * second)).2

/-- The arguments of the real pull of the binding `projects` in the sample
world. -/
def sampleProjectsPullArgs : List GoString :=
  words ["-avz", "-e", "ssh -p 22 -o PasswordAuthentication=no -o BatchMode=yes",
    "--delete", "--exclude-from=/tmp/gs-excludes-1",
    "user@host:/srv/sync/projects/", "/home/user/projects/"]

/-! ## Theorems: the mapping registry -/

theorem hasPrefix_iff (s pre : GoString) : hasPrefix s pre = true ↔ pre <+: s := by
  simp [hasPrefix]

theorem expandPath_of_not_tilde (env : Env) (path : GoString)
    (h : hasPrefix path ['~', '/'] = false) : expandPath env path = path := by
  simp [expandPath, h]

theorem isDescendantPath_iff (path base : GoString) :
    IsDescendantPath path base ↔ hasPrefix path (base ++ [filepathSeparator]) = true := by
  rw [hasPrefix_iff]
  constructor
  · rintro ⟨rest, rfl⟩
    exact ⟨rest, by simp⟩
  · rintro ⟨rest, h⟩
    exact ⟨rest, by rw [← h]; simp⟩

theorem findLocalForPathLoop_eq_none (path : GoString) (ls : List Local) :
    findLocalForPathLoop path ls = none ↔
      ∀ b ∈ ls, ¬ (path = b.Path ∨ IsDescendantPath path b.Path) := by
  induction ls with
  | nil => simp [findLocalForPathLoop]
  | cons l rest ih =>
    simp only [findLocalForPathLoop, List.mem_cons, forall_eq_or_imp, isDescendantPath_iff]
    split
    · rename_i h
      simp [h]
    · rename_i h
      simp only [isDescendantPath_iff] at ih
      simp [h, ih]

theorem findLocalForPathLoop_some (path : GoString) (ls : List Local) (b : Local)
    (h : findLocalForPathLoop path ls = some b) :
    b ∈ ls ∧ (path = b.Path ∨ IsDescendantPath path b.Path) := by
  induction ls with
  | nil => simp [findLocalForPathLoop] at h
  | cons l rest ih =>
    simp only [findLocalForPathLoop] at h
    split at h
    · rename_i hc
      cases h
      refine ⟨List.mem_cons_self _ _, ?_⟩
      rw [isDescendantPath_iff]
      exact hc
    · obtain ⟨hm, hp⟩ := ih h
      exact ⟨List.mem_cons_of_mem _ hm, hp⟩

theorem findLocalByNameLoop_eq_none (name : GoString) (ls : List Local) :
    findLocalByNameLoop name ls = none ↔ ∀ b ∈ ls, b.Name ≠ name := by
  induction ls with
  | nil => simp [findLocalByNameLoop]
  | cons l rest ih =>
    simp only [findLocalByNameLoop, List.mem_cons, forall_eq_or_imp]
    split
    · rename_i h
      simp [h]
    · rename_i h
      simp [h, ih]

theorem findLocalByNameLoop_some (name : GoString) (ls : List Local) (b : Local)
    (h : findLocalByNameLoop name ls = some b) : b ∈ ls ∧ b.Name = name := by
  induction ls with
  | nil => simp [findLocalByNameLoop] at h
  | cons l rest ih =>
    simp only [findLocalByNameLoop] at h
    split at h
    · rename_i hc
      cases h
      exact ⟨List.mem_cons_self _ _, hc⟩
    · obtain ⟨hm, hp⟩ := ih h
      exact ⟨List.mem_cons_of_mem _ hm, hp⟩

/-- What `AddLocal` does, by the prefix test of the source: an error and the
registry unchanged when a binding has the name, or when the path equals a
binding's path or starts with a binding's path followed by a separator;
otherwise no error and the binding appended. -/
theorem AddLocal_eq (env : Env) (c : Config) (name path : GoString)
    (hpath : hasPrefix path ['~', '/'] = false) :
    (((∃ b ∈ c.Locals, b.Name = name) ∨
        (∃ b ∈ c.Locals, path = b.Path ∨ hasPrefix path (b.Path ++ [filepathSeparator]) = true)) →
      (c.AddLocal env name path).1 ≠ none ∧ (c.AddLocal env name path).2 = c) ∧
    (¬ ((∃ b ∈ c.Locals, b.Name = name) ∨
        (∃ b ∈ c.Locals, path = b.Path ∨ hasPrefix path (b.Path ++ [filepathSeparator]) = true)) →
      (c.AddLocal env name path).1 = none ∧
      (c.AddLocal env name path).2
        = { c with Locals := c.Locals ++ [{ Name := name, Path := path }] }) := by
  have hexp := expandPath_of_not_tilde env path hpath
  constructor
  · intro h
    unfold Config.AddLocal
    cases hn : c.FindLocalByName name with
    | some x => simp
    | none =>
      cases hp : c.FindLocalForPath env path with
      | some x => simp
      | none =>
        exfalso
        rw [Config.FindLocalByName, findLocalByNameLoop_eq_none] at hn
        rw [Config.FindLocalForPath, hexp, findLocalForPathLoop_eq_none] at hp
        rcases h with ⟨b, hb, hbn⟩ | ⟨b, hb, hbp⟩
        · exact hn b hb hbn
        · rw [← isDescendantPath_iff] at hbp
          exact hp b hb hbp
  · intro h
    have hn : c.FindLocalByName name = none := by
      rw [Config.FindLocalByName, findLocalByNameLoop_eq_none]
      intro b hb hbn
      exact h (Or.inl ⟨b, hb, hbn⟩)
    have hp : c.FindLocalForPath env path = none := by
      rw [Config.FindLocalForPath, hexp, findLocalForPathLoop_eq_none]
      intro b hb hbp
      rw [isDescendantPath_iff] at hbp
      exact h (Or.inr ⟨b, hb, hbp⟩)
    simp [Config.AddLocal, hn, hp]

/-- A path that starts with `base` followed by a separator descends from
`base` at a separator boundary. -/
theorem descendsAtSeparator_of_hasPrefix (path base : GoString)
    (h : hasPrefix path (base ++ [filepathSeparator]) = true) :
    descendsAtSeparator path base = true := by
  rw [hasPrefix_iff] at h
  obtain ⟨rest, rfl⟩ := h
  simp [descendsAtSeparator, hasPrefix]

/-- For a `base` that does not end with a separator, descending from it at a
separator boundary is starting with `base` followed by a separator. -/
theorem hasPrefix_of_descendsAtSeparator (path base : GoString)
    (hbase : base.getLast? ≠ some filepathSeparator)
    (h : descendsAtSeparator path base = true) :
    hasPrefix path (base ++ [filepathSeparator]) = true := by
  simp only [descendsAtSeparator, Bool.and_eq_true, Bool.or_eq_true, decide_eq_true_eq] at h
  obtain ⟨⟨hp, _⟩, hsep⟩ := h
  rw [hasPrefix_iff] at hp
  obtain ⟨rest, rfl⟩ := hp
  rcases hsep with hsep | hsep
  · exact absurd hsep hbase
  · rw [List.drop_left] at hsep
    cases rest with
    | nil => simp at hsep
    | cons x xs =>
      simp only [List.head?_cons, Option.some.injEq] at hsep
      rw [hasPrefix_iff, hsep]
      exact ⟨xs, by simp⟩

/-- C1: `AddLocal` accepts a path below a bound directory whose path ends with
a separator. With the root directory bound, as `gs track` run in `/` binds it,
`AddLocal("home", "/home")` returns no error and appends the binding, although
`/home` is a descendant of `/` at a path-separator boundary. For every
registry and every path that does not start with "~/": a duplicate name, an
equal path, and a descendant of a binding whose path does not end with a
separator give an error and leave the registry unchanged, and a call with
neither a duplicate name nor an equal or descendant path returns no error and
appends `{name, path}`. -/
theorem AddLocal_accepts_path_below_root (env : Env) (host port remotePath : GoString) :
    runOps env [RegistryOp.add "/".toList "/".toList] (newConfig host port remotePath)
      = rootConfig host port remotePath ∧
    descendsAtSeparator "/home".toList "/".toList = true ∧
    (rootConfig host port remotePath).AddLocal env "home".toList "/home".toList
      = (none, { rootConfig host port remotePath with
                 Locals := [{ Name := "/".toList, Path := "/".toList },
                            { Name := "home".toList, Path := "/home".toList }] }) ∧
    (∀ (c : Config) (name path : GoString), hasPrefix path ['~', '/'] = false →
      ((∃ b ∈ c.Locals, b.Name = name) →
        (c.AddLocal env name path).1 ≠ none ∧ (c.AddLocal env name path).2 = c) ∧
      (∀ b ∈ c.Locals,
        (path = b.Path ∨
          (descendsAtSeparator path b.Path = true ∧
            b.Path.getLast? ≠ some filepathSeparator)) →
        (c.AddLocal env name path).1 ≠ none ∧ (c.AddLocal env name path).2 = c) ∧
      (¬ ((∃ b ∈ c.Locals, b.Name = name) ∨
          (∃ b ∈ c.Locals, path = b.Path ∨ descendsAtSeparator path b.Path = true)) →
        (c.AddLocal env name path).1 = none ∧
        (c.AddLocal env name path).2
          = { c with Locals := c.Locals ++ [{ Name := name, Path := path }] })) ∧
    (notesConfig.AddLocal env "subdir".toList "/home/user/notes/subdir".toList).1 ≠ none := by
  have e1 := expandPath_of_not_tilde env "/".toList (by decide)
  have e2 := expandPath_of_not_tilde env "/home".toList (by decide)
  have e3 := expandPath_of_not_tilde env "/home/user/notes/subdir".toList (by decide)
  simp only [String.toList] at e1 e2 e3
  refine ⟨?_, by decide, ?_, ?_, ?_⟩
  · simp [runOps, applyOp, Config.AddLocal, Config.FindLocalByName, Config.FindLocalForPath,
      newConfig, rootConfig, findLocalByNameLoop, findLocalForPathLoop, e1, filepathSeparator]
  · simp [Config.AddLocal, Config.FindLocalByName, Config.FindLocalForPath,
      newConfig, rootConfig, findLocalByNameLoop, findLocalForPathLoop, e2, hasPrefix,
      filepathSeparator]
  · intro c name path hpath
    obtain ⟨herr, hok⟩ := AddLocal_eq env c name path hpath
    refine ⟨fun h => herr (Or.inl h), ?_, ?_⟩
    · rintro b hb (h | ⟨h, hbase⟩)
      · exact herr (Or.inr ⟨b, hb, Or.inl h⟩)
      · exact herr (Or.inr ⟨b, hb, Or.inr (hasPrefix_of_descendsAtSeparator path b.Path hbase h)⟩)
    · intro h
      apply hok
      rintro (h' | ⟨b, hb, h' | h'⟩)
      · exact h (Or.inl h')
      · exact h (Or.inr ⟨b, hb, Or.inl h'⟩)
      · exact h (Or.inr ⟨b, hb, Or.inr (descendsAtSeparator_of_hasPrefix path b.Path h')⟩)
  · simp [Config.AddLocal, Config.FindLocalByName, Config.FindLocalForPath,
      notesConfig, newConfig, findLocalByNameLoop, findLocalForPathLoop, e3, hasPrefix,
      filepathSeparator]

theorem splitOnChar_ne_nil (sep : Char) (s : GoString) : splitOnChar sep s ≠ [] := by
  induction s with
  | nil => simp [splitOnChar]
  | cons c cs ih =>
    simp only [splitOnChar]
    split
    · simp
    · split <;> simp

theorem splitOnChar_cons_of_ne (sep c : Char) (cs : GoString) (h : c ≠ sep) :
    ∃ hd tl, splitOnChar sep cs = hd :: tl ∧ splitOnChar sep (c :: cs) = (c :: hd) :: tl := by
  cases hs : splitOnChar sep cs with
  | nil => exact absurd hs (splitOnChar_ne_nil sep cs)
  | cons hd tl => exact ⟨hd, tl, rfl, by simp [splitOnChar, h, hs]⟩

theorem splitOnChar_append_sep (sep : Char) (d rest : GoString) :
    splitOnChar sep (d ++ sep :: rest) = splitOnChar sep d ++ splitOnChar sep rest := by
  induction d with
  | nil => simp [splitOnChar]
  | cons c cs ih =>
    by_cases h : c = sep
    · simp [splitOnChar, h, ih]
    · obtain ⟨hd, tl, h1, h2⟩ := splitOnChar_cons_of_ne sep c cs h
      rw [h2, List.cons_append]
      simp only [splitOnChar, if_neg h]
      rw [ih, h1]
      rfl

theorem prefix_of_splitOnChar_prefix (sep : Char) (d p : GoString)
    (h : splitOnChar sep d <+: splitOnChar sep p) :
    p = d ∨ ∃ rest, p = d ++ sep :: rest := by
  induction d generalizing p with
  | nil =>
    cases p with
    | nil => exact Or.inl rfl
    | cons c cs =>
      by_cases hc : c = sep
      · exact Or.inr ⟨cs, by simp [hc]⟩
      · obtain ⟨hd, tl, _, h2⟩ := splitOnChar_cons_of_ne sep c cs hc
        rw [h2] at h
        simp [splitOnChar, List.cons_prefix_cons] at h
  | cons x xs ih =>
    by_cases hx : x = sep
    · subst hx
      cases p with
      | nil =>
        simp only [splitOnChar, if_true, List.cons_prefix_cons, List.prefix_nil] at h
        exact absurd h.2 (splitOnChar_ne_nil _ xs)
      | cons c cs =>
        by_cases hc : c = x
        · subst hc
          simp only [splitOnChar, if_true, List.cons_prefix_cons, true_and] at h
          rcases ih cs h with h' | ⟨rest, h'⟩
          · exact Or.inl (by rw [h'])
          · exact Or.inr ⟨rest, by rw [h']; simp⟩
        · obtain ⟨hd, tl, _, h2⟩ := splitOnChar_cons_of_ne x c cs hc
          rw [h2] at h
          simp [splitOnChar, List.cons_prefix_cons] at h
    · obtain ⟨hd, tl, h1, h2⟩ := splitOnChar_cons_of_ne sep x xs hx
      rw [h2] at h
      cases p with
      | nil => simp [splitOnChar, List.cons_prefix_cons] at h
      | cons c cs =>
        by_cases hc : c = sep
        · simp [splitOnChar, hc, List.cons_prefix_cons] at h
        · obtain ⟨hd', tl', h1', h2'⟩ := splitOnChar_cons_of_ne sep c cs hc
          rw [h2', List.cons_prefix_cons] at h
          obtain ⟨hh, ht⟩ := h
          simp only [List.cons.injEq] at hh
          obtain ⟨hcx, hhd⟩ := hh
          have hpre : splitOnChar sep xs <+: splitOnChar sep cs := by
            rw [h1, h1', List.cons_prefix_cons]
            exact ⟨hhd, ht⟩
          rcases ih cs hpre with h' | ⟨rest, h'⟩
          · exact Or.inl (by rw [h', hcx])
          · exact Or.inr ⟨rest, by rw [h', hcx]; simp⟩

/-- The separator-aware prefix test of the source, on the pieces of the two
strings between separators: the pieces of `dir` are an initial segment of the
pieces of `cwd`. -/
theorem splitOnChar_prefix_iff (dir cwd : GoString) :
    splitOnChar filepathSeparator dir <+: splitOnChar filepathSeparator cwd ↔
      (cwd = dir ∨ IsDescendantPath cwd dir) := by
  constructor
  · intro h
    exact prefix_of_splitOnChar_prefix filepathSeparator dir cwd h
  · rintro (rfl | ⟨rest, rfl⟩)
    · exact List.prefix_refl _
    · rw [splitOnChar_append_sep]
      exact List.prefix_append _ _

theorem splitOnChar_injective (sep : Char) (s t : GoString)
    (h : splitOnChar sep s = splitOnChar sep t) : s = t := by
  have hp : splitOnChar sep s <+: splitOnChar sep t := by rw [h]
  rcases prefix_of_splitOnChar_prefix sep s t hp with h' | ⟨rest, h'⟩
  · exact h'.symm
  · exfalso
    rw [h', splitOnChar_append_sep] at h
    have hl := congrArg List.length h
    rw [List.length_append] at hl
    have hpos : 0 < (splitOnChar sep rest).length :=
      List.length_pos.2 (splitOnChar_ne_nil sep rest)
    omega

/-- The shape of a cleaned absolute path other than the root: an empty piece
in front of the first separator, then at least one name, none empty. -/
theorem isCleanAbs_pieces (p : GoString) (h : isCleanAbs p = true)
    (hroot : p ≠ [filepathSeparator]) :
    ∃ names, splitOnChar filepathSeparator p = [] :: names ∧ names ≠ [] ∧
      ∀ n ∈ names, n ≠ [] := by
  unfold isCleanAbs at h
  simp only [Bool.or_eq_true, decide_eq_true_eq, hroot, false_or] at h
  split at h
  · rename_i names hs
    simp only [Bool.and_eq_true, Bool.not_eq_true', List.isEmpty_eq_false,
      List.all_eq_true] at h
    refine ⟨names, hs, ?_, ?_⟩
    · intro hn
      rw [hn] at h
      simp at h
    · intro n hn hne
      have := (h.2 n hn).1.1
      rw [hne] at this
      simp at this
  · simp at h

theorem isAbs_of_pieces (p : GoString) (names : List GoString)
    (hs : splitOnChar filepathSeparator p = [] :: names) (hn : names ≠ []) :
    isAbs p = true := by
  cases p with
  | nil =>
    simp [splitOnChar] at hs
    exact absurd hs hn
  | cons c cs =>
    by_cases hc : c = filepathSeparator
    · simp [isAbs, hasPrefix, hc]
    · obtain ⟨hd, tl, _, h2⟩ := splitOnChar_cons_of_ne filepathSeparator c cs hc
      rw [h2] at hs
      simp at hs

theorem pathComponents_of_pieces (p : GoString) (names : List GoString)
    (hs : splitOnChar filepathSeparator p = [] :: names) (hn : ∀ n ∈ names, n ≠ []) :
    pathComponents p = names := by
  unfold pathComponents
  rw [hs]
  simp only [List.filter_cons, List.isEmpty_nil, Bool.not_true, Bool.false_eq_true, if_false]
  rw [List.filter_eq_self]
  intro n hm
  have := hn n hm
  cases n with
  | nil => exact absurd rfl this
  | cons x xs => rfl

/-- For cleaned absolute paths and a directory other than the root, the
prefix test of the source is the relation of the specification: the directory
equals `cwd` or is a strict ancestor directory of it by whole components. -/
theorem matches_iff_ancestor (dir cwd : GoString) (hd : isCleanAbs dir = true)
    (hroot : dir ≠ [filepathSeparator]) (hc : isCleanAbs cwd = true) :
    (cwd = dir ∨ IsDescendantPath cwd dir) ↔ (dir = cwd ∨ IsStrictAncestorDir dir cwd) := by
  obtain ⟨dn, hds, hdn, hdne⟩ := isCleanAbs_pieces dir hd hroot
  have hdc := pathComponents_of_pieces dir dn hds hdne
  have hdabs := isAbs_of_pieces dir dn hds hdn
  rw [← splitOnChar_prefix_iff, hds]
  by_cases hcr : cwd = [filepathSeparator]
  · subst hcr
    have hrc : pathComponents [filepathSeparator] = [] := by decide
    have hrs : splitOnChar filepathSeparator [filepathSeparator] = [[], []] := by decide
    rw [hrs]
    constructor
    · intro h
      exfalso
      rw [List.cons_prefix_cons] at h
      have h2 := h.2
      cases dn with
      | nil => exact hdn rfl
      | cons n ns =>
        rw [List.cons_prefix_cons] at h2
        exact hdne n (List.mem_cons_self _ _) h2.1
    · rintro (h | ⟨_, _, hp, _⟩)
      · exact absurd h hroot
      · exfalso
        rw [hdc, hrc] at hp
        exact hdn (List.prefix_nil.1 hp)
  · obtain ⟨cn, hcs, hcn, hcne⟩ := isCleanAbs_pieces cwd hc hcr
    have hcc := pathComponents_of_pieces cwd cn hcs hcne
    have hcabs := isAbs_of_pieces cwd cn hcs hcn
    rw [hcs, List.cons_prefix_cons]
    unfold IsStrictAncestorDir
    rw [hdc, hcc]
    constructor
    · rintro ⟨_, hp⟩
      by_cases he : dn = cn
      · left
        apply splitOnChar_injective filepathSeparator
        rw [hds, hcs, he]
      · exact Or.inr ⟨hdabs, hcabs, hp, he⟩
    · rintro (h | ⟨_, _, hp, _⟩)
      · subst h
        rw [hds] at hcs
        simp only [List.cons.injEq, true_and] at hcs
        exact ⟨rfl, by rw [hcs]⟩
      · exact ⟨rfl, hp⟩

theorem not_tilde_of_isCleanAbs (p : GoString) (h : isCleanAbs p = true) :
    hasPrefix p ['~', '/'] = false := by
  by_cases hroot : p = [filepathSeparator]
  · subst hroot
    decide
  · obtain ⟨names, hs, hn, _⟩ := isCleanAbs_pieces p h hroot
    have habs := isAbs_of_pieces p names hs hn
    cases p with
    | nil => simp [isAbs, hasPrefix] at habs
    | cons c cs =>
      simp only [isAbs, hasPrefix, List.isPrefixOf, Bool.and_true, beq_iff_eq] at habs
      rw [← habs]
      simp [hasPrefix, List.isPrefixOf, filepathSeparator]

/-- C2: `FindLocalForPath` finds no binding for a directory below a bound
directory whose path ends with a separator. With the root directory bound, as
`gs track` run in `/` binds it, `FindLocalForPath("/home")` returns nothing,
although `/` is a strict ancestor directory of `/home`. For cleaned absolute
paths and bindings other than the root, `FindLocalForPath(cwd)` returns a
binding whose path equals `cwd` or is a strict ancestor directory of `cwd` by
whole path components whenever the registry has such a binding, and returns
nothing when it has none. A binding at `/a/notes` is found for `/a/notes`,
`/a/notes/x` and `/a/notes/x/y`, and nothing is found for
`/a/notesbutnotreally` or `/a/other`. -/
theorem FindLocalForPath_misses_root_binding (env : Env) (host port remotePath : GoString) :
    runOps env [RegistryOp.add "/".toList "/".toList] (newConfig host port remotePath)
      = rootConfig host port remotePath ∧
    IsStrictAncestorDir "/".toList "/home".toList ∧
    (rootConfig host port remotePath).FindLocalForPath env "/home".toList = none ∧
    (∀ (c : Config) (cwd : GoString),
      (∀ b ∈ c.Locals, isCleanAbs b.Path = true ∧ b.Path ≠ [filepathSeparator]) →
      isCleanAbs cwd = true →
      ((∃ b ∈ c.Locals, b.Path = cwd ∨ IsStrictAncestorDir b.Path cwd) →
        ∃ b, c.FindLocalForPath env cwd = some b ∧ b ∈ c.Locals ∧
          (b.Path = cwd ∨ IsStrictAncestorDir b.Path cwd)) ∧
      ((¬ ∃ b ∈ c.Locals, b.Path = cwd ∨ IsStrictAncestorDir b.Path cwd) →
        c.FindLocalForPath env cwd = none)) ∧
    (∀ name : GoString,
      (aNotesConfig name).FindLocalForPath env "/a/notes".toList
        = some { Name := name, Path := "/a/notes".toList } ∧
      (aNotesConfig name).FindLocalForPath env "/a/notes/x".toList
        = some { Name := name, Path := "/a/notes".toList } ∧
      (aNotesConfig name).FindLocalForPath env "/a/notes/x/y".toList
        = some { Name := name, Path := "/a/notes".toList } ∧
      (aNotesConfig name).FindLocalForPath env "/a/notesbutnotreally".toList = none ∧
      (aNotesConfig name).FindLocalForPath env "/a/other".toList = none) ∧
    IsStrictAncestorDir "/a/notes".toList "/a/notes/x".toList ∧
    IsStrictAncestorDir "/a/notes".toList "/a/notes/x/y".toList ∧
    ¬ IsStrictAncestorDir "/a/notes".toList "/a/notesbutnotreally".toList ∧
    ¬ IsStrictAncestorDir "/a/notes".toList "/a/other".toList := by
  have e1 := expandPath_of_not_tilde env "/".toList (by decide)
  have e2 := expandPath_of_not_tilde env "/home".toList (by decide)
  simp only [String.toList] at e1 e2
  refine ⟨?_, by decide, ?_, ?_, ?_, by decide, by decide, by decide, by decide⟩
  · simp [runOps, applyOp, Config.AddLocal, Config.FindLocalByName, Config.FindLocalForPath,
      newConfig, rootConfig, findLocalByNameLoop, findLocalForPathLoop, e1, filepathSeparator]
  · simp [Config.FindLocalForPath, rootConfig, newConfig, findLocalForPathLoop, e2, hasPrefix,
      filepathSeparator]
  · intro c cwd hb hcwd
    have hexp := expandPath_of_not_tilde env cwd (not_tilde_of_isCleanAbs cwd hcwd)
    constructor
    · rintro ⟨b, hbm, hm⟩
      cases hf : c.FindLocalForPath env cwd with
      | none =>
        rw [Config.FindLocalForPath, hexp, findLocalForPathLoop_eq_none] at hf
        exact absurd ((matches_iff_ancestor b.Path cwd (hb b hbm).1 (hb b hbm).2 hcwd).2 hm)
          (hf b hbm)
      | some x =>
        rw [Config.FindLocalForPath, hexp] at hf
        obtain ⟨hx, hmx⟩ := findLocalForPathLoop_some cwd c.Locals x hf
        exact ⟨x, rfl, hx, (matches_iff_ancestor x.Path cwd (hb x hx).1 (hb x hx).2 hcwd).1 hmx⟩
    · intro h
      rw [Config.FindLocalForPath, hexp, findLocalForPathLoop_eq_none]
      intro b hbm hm
      exact h ⟨b, hbm, (matches_iff_ancestor b.Path cwd (hb b hbm).1 (hb b hbm).2 hcwd).1 hm⟩
  · intro name
    have e : ∀ p : GoString, hasPrefix p ['~', '/'] = false →
        (aNotesConfig name).FindLocalForPath env p
          = findLocalForPathLoop p [{ Name := name, Path := "/a/notes".toList }] := by
      intro p hp
      rw [Config.FindLocalForPath, expandPath_of_not_tilde env p hp]
      rfl
    refine ⟨?_, ?_, ?_, ?_, ?_⟩
    · rw [e _ (by decide)]; simp [findLocalForPathLoop]
    · rw [e _ (by decide)]; simp [findLocalForPathLoop, hasPrefix, filepathSeparator]
    · rw [e _ (by decide)]; simp [findLocalForPathLoop, hasPrefix, filepathSeparator]
    · rw [e _ (by decide)]; simp [findLocalForPathLoop, hasPrefix, filepathSeparator]
    · rw [e _ (by decide)]; simp [findLocalForPathLoop, hasPrefix, filepathSeparator]

/-- C3: the registry reached by tracking `/a/notes/sub` and then `/a/notes`
(both calls succeed) holds two distinct bindings of which the first is a
descendant of the second at a separator boundary: `AddLocal` compares the new
path against the existing ones in one direction only. -/
theorem nested_bindings_reachable (env : Env) (host port remotePath : GoString) :
    (runOps env
        [RegistryOp.add "sub".toList "/a/notes/sub".toList,
         RegistryOp.add "notes".toList "/a/notes".toList]
        (newConfig host port remotePath)).Locals
      = [{ Name := "sub".toList, Path := "/a/notes/sub".toList },
         { Name := "notes".toList, Path := "/a/notes".toList }] ∧
    IsDescendantPath "/a/notes/sub".toList "/a/notes".toList := by
  constructor
  · have e1 := expandPath_of_not_tilde env "/a/notes/sub".toList (by decide)
    have e2 := expandPath_of_not_tilde env "/a/notes".toList (by decide)
    simp only [String.toList] at e1 e2
    simp [runOps, applyOp, Config.AddLocal, Config.FindLocalByName, Config.FindLocalForPath,
      newConfig, findLocalByNameLoop, findLocalForPathLoop, e1, e2, hasPrefix,
      filepathSeparator]
  · exact ⟨"sub".toList, by decide⟩

theorem removeLocalLoop_of_absent (name : GoString) (ls : List Local)
    (h : ∀ b ∈ ls, b.Name ≠ name) : removeLocalLoop name ls = ls := by
  induction ls with
  | nil => rfl
  | cons l rest ih =>
    simp only [List.mem_cons, forall_eq_or_imp] at h
    simp [removeLocalLoop, h.1, ih h.2]

theorem removeLocalLoop_sublist (name : GoString) (ls : List Local) :
    (removeLocalLoop name ls).Sublist ls := by
  induction ls with
  | nil => exact List.Sublist.refl _
  | cons l rest ih =>
    simp only [removeLocalLoop]
    split
    · exact List.sublist_cons_self _ _
    · exact ih.cons₂ _

theorem removeLocalLoop_eq_filter (name : GoString) (ls : List Local)
    (hnd : (ls.map Local.Name).Nodup) :
    removeLocalLoop name ls = ls.filter (fun b => decide (b.Name ≠ name)) := by
  induction ls with
  | nil => rfl
  | cons l rest ih =>
    simp only [List.map_cons, List.nodup_cons, List.mem_map, not_exists, not_and] at hnd
    by_cases hl : l.Name = name
    · have hrest : ∀ b ∈ rest, decide (b.Name ≠ name) = true := by
        intro b hb
        have := hnd.1 b hb
        simp only [decide_eq_true_eq]
        rw [← hl]
        exact this
      have hf : rest.filter (fun b => decide (b.Name ≠ name)) = rest :=
        List.filter_eq_self.2 hrest
      rw [List.filter_cons_of_neg (by simp [hl]), hf]
      simp [removeLocalLoop, hl]
    · simp [removeLocalLoop, hl, ih hnd.2]

theorem applyOp_names_nodup (env : Env) (c : Config) (op : RegistryOp)
    (h : (c.Locals.map Local.Name).Nodup) :
    ((applyOp env c op).Locals.map Local.Name).Nodup := by
  cases op with
  | add name path =>
    simp only [applyOp, Config.AddLocal]
    cases hn : c.FindLocalByName name with
    | some x => exact h
    | none =>
      cases hp : c.FindLocalForPath env path with
      | some x => exact h
      | none =>
        rw [Config.FindLocalByName, findLocalByNameLoop_eq_none] at hn
        simp only [List.map_append, List.map_cons, List.map_nil]
        rw [List.nodup_append]
        refine ⟨h, List.nodup_singleton _, ?_⟩
        intro a ha hb
        simp only [List.mem_singleton] at hb
        subst hb
        obtain ⟨b, hb, hba⟩ := List.mem_map.1 ha
        exact hn b hb hba
  | remove name =>
    exact ((removeLocalLoop_sublist name c.Locals).map Local.Name).nodup h

theorem runOps_names_nodup (env : Env) (ops : List RegistryOp) (c : Config)
    (h : (c.Locals.map Local.Name).Nodup) :
    ((runOps env ops c).Locals.map Local.Name).Nodup := by
  induction ops generalizing c with
  | nil => exact h
  | cons op rest ih => exact ih (applyOp env c op) (applyOp_names_nodup env c op h)

theorem reachable_names_nodup (env : Env) (c : Config) (h : Reachable env c) :
    (c.Locals.map Local.Name).Nodup := by
  obtain ⟨host, port, rp, ops, rfl⟩ := h
  exact runOps_names_nodup env ops _ (by simp [newConfig])

/-- C4: on a registry reached from a freshly initialised one by `AddLocal` and
`RemoveLocal` calls, `RemoveLocal(name)` changes nothing when no binding has
the name; otherwise `FindLocalByName(name)` finds nothing afterwards and the
remaining bindings are exactly the bindings with the other names, in their
original order and with their paths unchanged. -/
theorem RemoveLocal_contract (env : Env) (c : Config) (name : GoString)
    (hc : Reachable env c) :
    ((∀ b ∈ c.Locals, b.Name ≠ name) → c.RemoveLocal name = c) ∧
    ((∃ b ∈ c.Locals, b.Name = name) →
      (c.RemoveLocal name).FindLocalByName name = none ∧
      (c.RemoveLocal name).Locals = c.Locals.filter (fun b => decide (b.Name ≠ name)) ∧
      (c.RemoveLocal name).Locals.filter (fun b => decide (b.Name ≠ name))
        = c.Locals.filter (fun b => decide (b.Name ≠ name))) := by
  have hnd := reachable_names_nodup env c hc
  have hf := removeLocalLoop_eq_filter name c.Locals hnd
  constructor
  · intro h
    simp [Config.RemoveLocal, removeLocalLoop_of_absent name c.Locals h]
  · intro _
    refine ⟨?_, hf, ?_⟩
    · rw [Config.FindLocalByName, findLocalByNameLoop_eq_none]
      intro b hb
      simp only [Config.RemoveLocal, hf, List.mem_filter, decide_eq_true_eq] at hb
      exact hb.2
    · simp only [Config.RemoveLocal, hf, List.filter_filter, Bool.and_self]

/-- Witness for C4: removing `notes` from the two-binding registry of the test
suite leaves exactly `projects`. -/
theorem RemoveLocal_contract_witness :
    Reachable noHomeEnv
      (runOps noHomeEnv
        [RegistryOp.add "notes".toList "/home/user/notes".toList,
         RegistryOp.add "projects".toList "/home/user/projects".toList]
        (newConfig "user@host".toList "22".toList "/srv/sync".toList)) ∧
    ((runOps noHomeEnv
        [RegistryOp.add "notes".toList "/home/user/notes".toList,
         RegistryOp.add "projects".toList "/home/user/projects".toList]
        (newConfig "user@host".toList "22".toList "/srv/sync".toList)).RemoveLocal
        "notes".toList).FindLocalByName "notes".toList = none :=
  ⟨⟨_, _, _, _, rfl⟩,
   ((RemoveLocal_contract noHomeEnv _ "notes".toList ⟨_, _, _, _, rfl⟩).2
      ⟨{ Name := "notes".toList, Path := "/home/user/notes".toList }, by decide, rfl⟩).1⟩

/-! ## Theorems: the change-set interpreter -/

theorem parseItemizedLoop_eq (lines changes : List GoString) :
    parseItemizedLoop lines changes
      = changes ++ (lines.map trimSpace).filter isChangeLine := by
  induction lines generalizing changes with
  | nil => simp [parseItemizedLoop]
  | cons line rest ih =>
    simp only [parseItemizedLoop, List.map_cons, firstByteIs]
    by_cases hlen : goLen (trimSpace line) < 12
    · have hk : isChangeLine (trimSpace line) = false := by
        simp [isChangeLine, hlen]
      rw [if_pos hlen, ih, List.filter_cons_of_neg (by simp [hk])]
    · rw [if_neg hlen]
      split
      · rename_i hm
        have hk : isChangeLine (trimSpace line) = true := by
          simp only [isChangeLine, Bool.and_eq_true, decide_eq_true_eq]
          exact ⟨Nat.le_of_not_lt hlen, hm⟩
        rw [ih, List.filter_cons_of_pos hk, List.append_assoc]
        rfl
      · rename_i hm
        have hk : isChangeLine (trimSpace line) = false := by
          simp only [isChangeLine, Bool.and_eq_false_imp, decide_eq_true_eq]
          intro _
          simpa using hm
        rw [ih, List.filter_cons_of_neg (by simp [hk])]

/-- C6: `parseItemizedChanges` returns, in original order and with duplicates
kept, exactly the whitespace-trimmed lines of the output that are at least 12
bytes long and whose first byte is `<`, `>`, `*` or `c`; every other line is
dropped, so an output that holds only the summary footer yields no entry, and
the sample output yields its five change lines. -/
theorem parseItemizedChanges_spec :
    (∀ output : GoString, parseItemizedChanges output = changeAnnotationLines output) ∧
    parseItemizedChanges footerOnlyOutput = [] ∧
    parseItemizedChanges sampleDryRunOutput
      = ["<f+++++++++ notes/a.txt".toList, "*deleting   notes/old.txt".toList,
         ">f.st...... notes/b.txt".toList, "<f+++++++++ notes/a.txt".toList,
         "cd+++++++++ notes/sub/".toList] := by
  refine ⟨?_, ?_, ?_⟩
  · intro output
    simp [parseItemizedChanges, changeAnnotationLines, parseItemizedLoop_eq]
  · decide
  · decide

/-! ## Theorems: the synchronisation state store -/

theorem digitChar_cases (d : Nat) :
    digitChar d = '0' ∨ digitChar d = '1' ∨ digitChar d = '2' ∨ digitChar d = '3' ∨
    digitChar d = '4' ∨ digitChar d = '5' ∨ digitChar d = '6' ∨ digitChar d = '7' ∨
    digitChar d = '8' ∨ digitChar d = '9' := by
  unfold digitChar
  have h : d % 10 < 10 := Nat.mod_lt d (by decide)
  generalize d % 10 = k at h
  interval_cases k <;> decide

theorem digitChar_toNat (d : Nat) : (digitChar d).toNat = 48 + d % 10 := by
  unfold digitChar
  have h : d % 10 < 10 := Nat.mod_lt d (by decide)
  generalize d % 10 = k at h
  interval_cases k <;> rfl

theorem isDigit_digitChar (d : Nat) : isDigit (digitChar d) = true := by
  have h : d % 10 < 10 := Nat.mod_lt d (by decide)
  simp only [isDigit, digitChar_toNat, Bool.and_eq_true, decide_eq_true_eq]
  omega

theorem digitVal_digitChar (d : Nat) : digitVal (digitChar d) = d % 10 := by
  simp [digitVal, digitChar_toNat]

theorem isSpace_digitChar (d : Nat) : isSpace (digitChar d) = false := by
  rcases digitChar_cases d with h | h | h | h | h | h | h | h | h | h <;> rw [h] <;> decide

theorem utf8Size_digitChar (d : Nat) : utf8Size (digitChar d) = 1 := by
  rcases digitChar_cases d with h | h | h | h | h | h | h | h | h | h <;> rw [h] <;> decide

theorem natDigits_two (n : Nat) (h : n < 100) :
    List.replicate (2 - (natDigits n).length) '0' ++ natDigits n
      = [digitChar (n / 10), digitChar n] := by
  have e0 : digitChar 0 = '0' := by decide
  by_cases h1 : n < 10
  · have a : n / 10 = 0 := by omega
    have e : natDigits n = [digitChar n] := by
      simp only [natDigits, natDigitsAux, if_pos h1]
    rw [e, a, e0]
    rfl
  · have a : n / 10 < 10 := by omega
    have e : natDigits n = [digitChar (n / 10), digitChar n] := by
      simp only [natDigits, natDigitsAux, if_neg h1, if_pos a]
    rw [e]
    rfl

theorem natDigits_four (n : Nat) (h : n < 10000) :
    List.replicate (4 - (natDigits n).length) '0' ++ natDigits n
      = [digitChar (n / 1000), digitChar (n / 100), digitChar (n / 10), digitChar n] := by
  have e0 : digitChar 0 = '0' := by decide
  by_cases h1 : n < 10
  · have a : n / 10 = 0 := by omega
    have b : n / 100 = 0 := by omega
    have c : n / 1000 = 0 := by omega
    have e : natDigits n = [digitChar n] := by
      simp only [natDigits, natDigitsAux, if_pos h1]
    rw [e, a, b, c, e0]
    rfl
  · by_cases h2 : n < 100
    · have a : n / 10 < 10 := by omega
      have b : n / 100 = 0 := by omega
      have c : n / 1000 = 0 := by omega
      have e : natDigits n = [digitChar (n / 10), digitChar n] := by
        simp only [natDigits, natDigitsAux, if_neg h1, if_pos a]
      rw [e, b, c, e0]
      rfl
    · by_cases h3 : n < 1000
      · have a : ¬ n / 10 < 10 := by omega
        have b : n / 10 / 10 < 10 := by omega
        have b' : n / 10 / 10 = n / 100 := by omega
        have c : n / 1000 = 0 := by omega
        have e : natDigits n = [digitChar (n / 10 / 10), digitChar (n / 10), digitChar n] := by
          simp only [natDigits, natDigitsAux, if_neg h1, if_neg a, if_pos b]
        rw [e, b', c, e0]
        rfl
      · have a : ¬ n / 10 < 10 := by omega
        have b : ¬ n / 10 / 10 < 10 := by omega
        have b' : n / 10 / 10 = n / 100 := by omega
        have c : n / 10 / 10 / 10 < 10 := by omega
        have c' : n / 10 / 10 / 10 = n / 1000 := by omega
        have e : natDigits n = [digitChar (n / 10 / 10 / 10), digitChar (n / 10 / 10),
            digitChar (n / 10), digitChar n] := by
          simp only [natDigits, natDigitsAux, if_neg h1, if_neg a, if_neg b, if_pos c]
        rw [e, c', b']
        rfl

theorem appendInt_two (n : Nat) (h : n < 100) :
    appendInt (n : Int) 2 = [digitChar (n / 10), digitChar n] := by
  have hn : ¬ ((n : Int) < 0) := by omega
  simp only [appendInt, Int.natAbs_ofNat, if_neg hn, List.nil_append]
  exact natDigits_two n h

theorem appendInt_four (y : Int) (h0 : 0 ≤ y) (h1 : y ≤ 9999) :
    appendInt y 4 = [digitChar (y.toNat / 1000), digitChar (y.toNat / 100),
      digitChar (y.toNat / 10), digitChar y.toNat] := by
  obtain ⟨n, rfl⟩ := Int.eq_ofNat_of_zero_le h0
  have hn : ¬ ((n : Int) < 0) := by omega
  simp only [appendInt, Int.natAbs_ofNat, if_neg hn, List.nil_append, Int.toNat_ofNat]
  exact natDigits_four n (by omega)

theorem addSec_zero (t : Time) (hv : t.Valid) : t.addSec 0 = t := by
  obtain ⟨_, _, _, _, hh, hm, hs, _⟩ := hv
  cases t with
  | mk year month day hour minute second nsec offset =>
    simp only at hh hm hs
    have e1 : (((hour * 3600 + minute * 60 + second : Nat) : Int) + 0) / 86400 = 0 := by omega
    have e2 : ((((hour * 3600 + minute * 60 + second : Nat) : Int) + 0) % 86400).toNat
        = hour * 3600 + minute * 60 + second := by omega
    simp only [Time.addSec, e1, e2, shiftDays, le_refl, if_true, Int.toNat_zero,
      Function.iterate_zero, id_eq, Time.mk.injEq, true_and, and_true]
    refine ⟨?_, ?_, ?_⟩ <;> omega

/-- The `time.RFC3339` text of a UTC time with a four-digit year. -/
theorem formatRFC3339_utc (t : Time) (hv : t.Valid) (hoff : t.offset = 0)
    (hy0 : 0 ≤ t.year) (hy1 : t.year ≤ 9999) :
    t.formatRFC3339 =
      [digitChar (t.year.toNat / 1000), digitChar (t.year.toNat / 100),
       digitChar (t.year.toNat / 10), digitChar t.year.toNat, '-',
       digitChar (t.month / 10), digitChar t.month, '-',
       digitChar (t.day / 10), digitChar t.day, 'T',
       digitChar (t.hour / 10), digitChar t.hour, ':',
       digitChar (t.minute / 10), digitChar t.minute, ':',
       digitChar (t.second / 10), digitChar t.second, 'Z'] := by
  have hd : t.day ≤ 31 := by
    have := hv.2.2.2.1
    have h31 : daysIn t.month t.year ≤ 31 := by
      unfold daysIn
      split
      · split <;> decide
      · split <;> decide
    omega
  obtain ⟨_, hmo, _, _, hh, hm, hs, _⟩ := hv
  simp only [Time.formatRFC3339, hoff, addSec_zero t ⟨‹_›, hmo, ‹_›, ‹_›, hh, hm, hs, ‹_›⟩,
    if_true, appendInt_four t.year hy0 hy1, appendInt_two t.month (by omega),
    appendInt_two t.day (by omega), appendInt_two t.hour (by omega),
    appendInt_two t.minute (by omega), appendInt_two t.second (by omega)]
  rfl

theorem daysIn_le (month : Nat) (year : Int) : daysIn month year ≤ 31 := by
  unfold daysIn
  split
  · split <;> decide
  · split <;> decide

theorem timeParse_format_utc (t : Time) (hv : t.Valid) (hoff : t.offset = 0)
    (hy0 : 0 ≤ t.year) (hy1 : t.year ≤ 9999) :
    timeParseRFC3339 t.formatRFC3339 = some t.truncSecond := by
  rw [formatRFC3339_utc t hv hoff hy0 hy1]
  have hv' := hv
  obtain ⟨hmo0, hmo1, hd0, hd1, hh, hm, hs, hn⟩ := hv'
  have hd31 := daysIn_le t.month t.year
  have ey : ((t.year.toNat / 1000 % 10 * 1000 + t.year.toNat / 100 % 10 * 100 +
      t.year.toNat / 10 % 10 * 10 + t.year.toNat % 10 : Nat) : Int) = t.year := by omega
  have emo : t.month / 10 % 10 * 10 + t.month % 10 = t.month := by omega
  have ed : t.day / 10 % 10 * 10 + t.day % 10 = t.day := by omega
  have eh : t.hour / 10 % 10 * 10 + t.hour % 10 = t.hour := by omega
  have emi : t.minute / 10 % 10 * 10 + t.minute % 10 = t.minute := by omega
  have es : t.second / 10 % 10 * 10 + t.second % 10 = t.second := by omega
  have hcond : ¬ (t.month < 1 ∨ 12 < t.month ∨ 24 ≤ t.hour ∨ 60 ≤ t.minute ∨ 60 ≤ t.second ∨
      t.day < 1 ∨ daysIn t.month t.year < t.day) := by omega
  have hvalid : (Time.mk t.year t.month t.day t.hour t.minute t.second 0 0).Valid :=
    ⟨hmo0, hmo1, hd0, hd1, hh, hm, hs, Nat.zero_lt_succ _⟩
  simp only [timeParseRFC3339, getYear, getnum, expectChar, getFraction, getZone,
    isDigit_digitChar, digitVal_digitChar, Bool.and_self, if_true, ey, emo, ed, eh, emi, es,
    if_neg hcond, neg_zero, addSec_zero _ hvalid, Time.truncSecond]
  cases t
  simp only at hoff
  simp [hoff]

theorem splitOnChar_of_not_mem (sep : Char) (w : GoString) (h : sep ∉ w) :
    splitOnChar sep w = [w] := by
  induction w with
  | nil => rfl
  | cons c cs ih =>
    simp only [List.mem_cons, not_or] at h
    have hc : ¬ c = sep := fun e => h.1 e.symm
    simp [splitOnChar, hc, ih h.2]

theorem splitOnChar_line (sep : Char) (w rest : GoString) (h : sep ∉ w) :
    splitOnChar sep (w ++ sep :: rest) = w :: splitOnChar sep rest := by
  rw [splitOnChar_append_sep, splitOnChar_of_not_mem sep w h]
  rfl

theorem scanPieces_joinLines (ls : List GoString) (h : ∀ l ∈ ls, GoodLine l) :
    scanPieces (splitOnChar '\n' (joinLines ls)) = (ls, false) := by
  induction ls with
  | nil => rfl
  | cons l rest ih =>
    obtain ⟨hn, hcr, hlen⟩ := h l (List.mem_cons_self _ _)
    have ih' := ih (fun x hx => h x (List.mem_cons_of_mem _ hx))
    rw [joinLines, splitOnChar_line '\n' l _ hn]
    cases hs : splitOnChar '\n' (joinLines rest) with
    | nil => exact absurd hs (splitOnChar_ne_nil _ _)
    | cons p ps =>
      rw [hs] at ih'
      simp only [scanPieces, if_neg (Nat.not_le.2 hlen), ih', hcr]

theorem fieldsAux_append (w rest cur : GoString) (h : ∀ c ∈ w, isSpace c = false) :
    fieldsAux (w ++ rest) cur = fieldsAux rest (cur ++ w) := by
  induction w generalizing cur with
  | nil => simp
  | cons c cs ih =>
    simp only [List.mem_cons, forall_eq_or_imp] at h
    rw [List.cons_append]
    simp only [fieldsAux, h.1, Bool.false_eq_true, if_false]
    rw [ih _ h.2]
    simp

theorem fields_key_value (key value : GoString) (hk : IsField key) (hv : IsField value) :
    fields (key ++ ' ' :: value) = [key, value] := by
  have hsp : isSpace ' ' = true := by decide
  unfold fields
  rw [fieldsAux_append key _ [] hk.2]
  simp only [List.nil_append, fieldsAux, hsp, if_true, if_neg hk.1]
  have := fieldsAux_append value [] [] hv.2
  simp only [List.append_nil, List.nil_append] at this
  rw [this]
  simp [fieldsAux, hv.1]

theorem goLen_append (a b : GoString) : goLen (a ++ b) = goLen a + goLen b := by
  simp [goLen]

theorem not_mem_newline_of_isField (s : GoString) (h : IsField s) : '\n' ∉ s := by
  intro hm
  have := h.2 _ hm
  revert this
  decide

theorem getLast_ne_cr_of_isField (s : GoString) (h : IsField s) : s.getLast? ≠ some '\r' := by
  intro hl
  have hm : '\r' ∈ s := List.mem_of_getLast?_eq_some hl
  have := h.2 _ hm
  revert this
  decide

theorem goodLine_key_value (key value : GoString) (hk : IsField key) (hv : IsField value)
    (hlen : goLen key + 1 + goLen value < maxScanTokenSize) :
    GoodLine (key ++ ' ' :: value) := by
  refine ⟨?_, ?_, ?_⟩
  · simp only [List.mem_append, List.mem_cons, not_or]
    exact ⟨not_mem_newline_of_isField key hk, by decide, not_mem_newline_of_isField value hv⟩
  · unfold dropCR
    have hne : value ≠ [] := hv.1
    have : (key ++ ' ' :: value).getLast? = value.getLast? := by
      rw [List.getLast?_append]
      cases value with
      | nil => exact absurd rfl hne
      | cons c cs =>
        rw [List.getLast?_cons_cons]
        cases hl : (c :: cs).getLast? with
        | none => simp at hl
        | some x => rfl
    rw [this, if_neg (getLast_ne_cr_of_isField value hv)]
  · rw [goLen_append]
    have : goLen (' ' :: value) = 1 + goLen value := by
      simp [goLen, utf8Size]
    omega

theorem isField_formatRFC3339 (t : Time) (hs : t.Storable) :
    IsField t.formatRFC3339 ∧ goLen t.formatRFC3339 = 20 := by
  obtain ⟨hv, hoff, hy0, hy1⟩ := hs
  rw [formatRFC3339_utc t hv hoff hy0 hy1]
  have h1 : isSpace '-' = false := by decide
  have h2 : isSpace 'T' = false := by decide
  have h3 : isSpace ':' = false := by decide
  have h4 : isSpace 'Z' = false := by decide
  have u1 : utf8Size '-' = 1 := by decide
  have u2 : utf8Size 'T' = 1 := by decide
  have u3 : utf8Size ':' = 1 := by decide
  have u4 : utf8Size 'Z' = 1 := by decide
  refine ⟨⟨List.cons_ne_nil _ _, ?_⟩, ?_⟩
  · simp only [List.mem_cons, forall_eq_or_imp, List.not_mem_nil, isSpace_digitChar, h1, h2,
      h3, h4, and_self, false_imp_iff, implies_true]
  · simp only [goLen, List.map_cons, List.map_nil, List.sum_cons, List.sum_nil,
      utf8Size_digitChar, u1, u2, u3, u4]
    rfl

theorem isField_last_push : IsField "last_push".toList := by
  unfold IsField
  decide

theorem isField_last_pull : IsField "last_pull".toList := by
  unfold IsField
  decide

theorem loadStateLine_push (st : State) (t : Time) (hs : t.Storable) :
    loadStateLine st ("last_push".toList ++ ' ' :: t.formatRFC3339)
      = { st with LastPush := t.truncSecond } := by
  unfold loadStateLine
  rw [fields_key_value _ _ isField_last_push (isField_formatRFC3339 t hs).1]
  simp only [timeParse_format_utc t hs.1 hs.2.1 hs.2.2.1 hs.2.2.2, if_true]

theorem loadStateLine_pull (st : State) (t : Time) (hs : t.Storable) :
    loadStateLine st ("last_pull".toList ++ ' ' :: t.formatRFC3339)
      = { st with LastPull := t.truncSecond } := by
  have hne : ¬ ("last_pull".toList = "last_push".toList) := by decide
  unfold loadStateLine
  rw [fields_key_value _ _ isField_last_pull (isField_formatRFC3339 t hs).1]
  simp only [timeParse_format_utc t hs.1 hs.2.1 hs.2.2.1 hs.2.2.2, if_neg hne, if_true]

theorem goodLine_push (t : Time) (hs : t.Storable) :
    GoodLine ("last_push".toList ++ ' ' :: t.formatRFC3339) := by
  apply goodLine_key_value _ _ isField_last_push (isField_formatRFC3339 t hs).1
  rw [(isField_formatRFC3339 t hs).2]
  decide

theorem goodLine_pull (t : Time) (hs : t.Storable) :
    GoodLine ("last_pull".toList ++ ' ' :: t.formatRFC3339) := by
  apply goodLine_key_value _ _ isField_last_pull (isField_formatRFC3339 t hs).1
  rw [(isField_formatRFC3339 t hs).2]
  decide

theorem truncSecond_of_isZero (t : Time) (hoff : t.offset = 0) (hz : t.IsZero = true) :
    t.truncSecond = Time.zero := by
  cases t
  simp only [Time.IsZero, Bool.and_eq_true, beq_iff_eq] at hz
  simp only at hoff
  obtain ⟨⟨⟨⟨⟨⟨h1, h2⟩, h3⟩, h4⟩, h5⟩, h6⟩, h7⟩ := hz
  simp [Time.truncSecond, Time.zero, h1, h2, h3, h4, h5, h6, hoff]

theorem loadStateContent_joinLines (ls : List GoString) (h : ∀ l ∈ ls, GoodLine l) :
    loadStateContent (joinLines ls) = (loadStateLoop ls State.empty, none) := by
  simp [loadStateContent, scanLines, scanPieces_joinLines ls h]

/-- What is read back from the text `saveState` writes: the state with each
timestamp cut to the whole second. -/
theorem loadStateContent_saveStateContent (s : State)
    (hp : s.LastPush.Storable) (hq : s.LastPull.Storable) :
    loadStateContent (saveStateContent s)
      = ({ LastPush := s.LastPush.truncSecond, LastPull := s.LastPull.truncSecond }, none) := by
  have gp := goodLine_push s.LastPush hp
  have gq := goodLine_pull s.LastPull hq
  have lp := fun st => loadStateLine_push st s.LastPush hp
  have lq := fun st => loadStateLine_pull st s.LastPull hq
  by_cases hzp : s.LastPush.IsZero = true <;> by_cases hzq : s.LastPull.IsZero = true
  · have e : saveStateContent s = joinLines [] := by
      simp [saveStateContent, hzp, hzq, joinLines]
    rw [e, loadStateContent_joinLines _ (by simp),
      truncSecond_of_isZero _ hp.2.1 hzp, truncSecond_of_isZero _ hq.2.1 hzq]
    rfl
  · have e : saveStateContent s
        = joinLines ["last_pull".toList ++ ' ' :: s.LastPull.formatRFC3339] := by
      simp [saveStateContent, hzp, hzq, joinLines]
    rw [e, loadStateContent_joinLines _ (by simpa using gq),
      truncSecond_of_isZero _ hp.2.1 hzp]
    simp only [loadStateLoop, List.foldl_cons, List.foldl_nil]
    rw [lq]
    rfl
  · have e : saveStateContent s
        = joinLines ["last_push".toList ++ ' ' :: s.LastPush.formatRFC3339] := by
      simp [saveStateContent, hzp, hzq, joinLines]
    rw [e, loadStateContent_joinLines _ (by simpa using gp),
      truncSecond_of_isZero _ hq.2.1 hzq]
    simp only [loadStateLoop, List.foldl_cons, List.foldl_nil]
    rw [lp]
    rfl
  · have e : saveStateContent s
        = joinLines ["last_push".toList ++ ' ' :: s.LastPush.formatRFC3339,
                     "last_pull".toList ++ ' ' :: s.LastPull.formatRFC3339] := by
      simp [saveStateContent, hzp, hzq, joinLines]
    rw [e, loadStateContent_joinLines _ (by
      intro l hl
      simp only [List.mem_cons, List.mem_singleton, List.not_mem_nil, or_false] at hl
      rcases hl with rfl | rfl
      · exact gp
      · exact gq)]
    simp only [loadStateLoop, List.foldl_cons, List.foldl_nil]
    rw [lp, lq]

theorem loadState_saveState (w : World) (dir : GoString) (s : State)
    (hsave : (saveState w dir s).1 = none) :
    loadState (saveState w dir s).2 dir = loadStateContent (saveStateContent s) := by
  unfold saveState at hsave ⊢
  cases hslot : w.files (statePath w.env dir) with
  | blocked => simp [hslot] at hsave
  | missing => simp [loadState]
  | file content => simp [loadState]

/-- C5, as the state store has it: for a state whose timestamps are UTC times
with a four-digit year (the absent, zero timestamp is one), a successful
`saveState` followed by `loadState` of the same directory yields the state with
each timestamp cut to the whole second and no error; it yields the state itself
when no timestamp has a sub-second part. -/
theorem saveState_loadState_roundtrip (w : World) (dir : GoString) (s : State)
    (hp : s.LastPush.Storable) (hq : s.LastPull.Storable)
    (hsave : (saveState w dir s).1 = none) :
    loadState (saveState w dir s).2 dir
      = ({ LastPush := s.LastPush.truncSecond, LastPull := s.LastPull.truncSecond }, none) ∧
    (s.LastPush.nsec = 0 → s.LastPull.nsec = 0 →
      loadState (saveState w dir s).2 dir = (s, none)) := by
  have h := loadState_saveState w dir s hsave
  rw [loadStateContent_saveStateContent s hp hq] at h
  refine ⟨h, ?_⟩
  intro h1 h2
  rw [h]
  cases s with
  | mk p q =>
    cases p
    cases q
    simp only at h1 h2
    simp [Time.truncSecond, h1, h2]

/-- Witness for C5: the state pushed at `sampleNow` is read back with the half
second of `sampleNow` cut off. -/
theorem saveState_loadState_roundtrip_witness :
    samplePushedState.LastPush.Storable ∧ samplePushedState.LastPull.Storable ∧
    (saveState sampleWorld "/home/user/notes".toList samplePushedState).1 = none ∧
    loadState (saveState sampleWorld "/home/user/notes".toList samplePushedState).2
        "/home/user/notes".toList
      = ({ LastPush := samplePushedState.LastPush.truncSecond,
           LastPull := samplePushedState.LastPull.truncSecond }, none) :=
  ⟨by decide, by decide, by decide,
   (saveState_loadState_roundtrip sampleWorld "/home/user/notes".toList samplePushedState
      (by decide) (by decide) (by decide)).1⟩

/-- C5 as stated fails: `sampleNow` is a UTC instant with half a second past
the whole second; the state pushed at it is saved without error and read back
without error, but the state read back is not the state saved. -/
theorem roundtrip_loses_subsecond :
    (saveState sampleWorld "/home/user/notes".toList samplePushedState).1 = none ∧
    (loadState (saveState sampleWorld "/home/user/notes".toList samplePushedState).2
        "/home/user/notes".toList).2 = none ∧
    (loadState (saveState sampleWorld "/home/user/notes".toList samplePushedState).2
        "/home/user/notes".toList).1
      = { LastPush := { sampleNow with nsec := 0 }, LastPull := Time.zero } ∧
    (loadState (saveState sampleWorld "/home/user/notes".toList samplePushedState).2
        "/home/user/notes".toList).1 ≠ samplePushedState := by
  decide

/-! ## Theorems: the orchestrator -/

theorem significant_append (a b : List Event) :
    significant (a ++ b) = significant a ++ significant b := by
  simp [significant]

theorem sameSetup_refl (w : World) : SameSetup w w := ⟨rfl, rfl, rfl⟩

theorem sameSetup_trans {a b c : World} (h1 : SameSetup a b) (h2 : SameSetup b c) :
    SameSetup a c :=
  ⟨h2.1.trans h1.1, h2.2.1.trans h1.2.1, h2.2.2.trans h1.2.2⟩

theorem print_significant (w : World) (t : GoString) :
    significant (w.print t).trace = significant w.trace := by
  simp [World.print, World.emit, significant_append, significant, Event.isSignificant]

theorem sleep_significant (w : World) (d : Int) :
    significant (w.sleep d).trace = significant w.trace ++ [Event.sleep d] := by
  simp [World.sleep, significant_append, significant, Event.isSignificant]

theorem printChanges_significant (w : World) (changes : List GoString) :
    significant (printChanges w changes).trace = significant w.trace := by
  induction changes generalizing w with
  | nil => rfl
  | cons c cs ih =>
    simp only [printChanges, List.foldl_cons] at ih ⊢
    rw [ih, print_significant]

theorem printChanges_frame (w : World) (changes : List GoString) :
    SameSetup w (printChanges w changes) ∧ (printChanges w changes).files = w.files ∧
    (printChanges w changes).clock = w.clock ∧ (printChanges w changes).ticks = w.ticks := by
  induction changes generalizing w with
  | nil => exact ⟨sameSetup_refl w, rfl, rfl, rfl⟩
  | cons c cs ih =>
    simp only [printChanges, List.foldl_cons] at ih ⊢
    obtain ⟨h1, h2, h3, h4⟩ := ih (w.print ("  ".toList ++ c ++ "\n".toList))
    exact ⟨sameSetup_trans (sameSetup_refl _) h1, h2, h3, h4⟩

/-- What `runRsync` leaves as it was. -/
theorem runRsync_frame (w : World) (src dst port : GoString) (excludes : List GoString)
    (dryRun del : Bool) :
    SameSetup w (runRsync w src dst port excludes dryRun del).2 ∧
    (runRsync w src dst port excludes dryRun del).2.files = w.files ∧
    (runRsync w src dst port excludes dryRun del).2.clock = w.clock ∧
    (runRsync w src dst port excludes dryRun del).2.ticks = w.ticks := by
  unfold runRsync
  simp only
  split
  · unfold writeExcludeFile
    cases w.tempFile w.temps with
    | none => exact ⟨⟨rfl, rfl, rfl⟩, rfl, rfl, rfl⟩
    | some name =>
      simp only [runRsyncExec]
      split <;> exact ⟨⟨rfl, rfl, rfl⟩, rfl, rfl, rfl⟩
  · simp only [runRsyncExec]
    split <;> exact ⟨⟨rfl, rfl, rfl⟩, rfl, rfl, rfl⟩

/-- The engine runs of `runRsync`: none when the exclude file cannot be
created (the call then fails), else one, on the base arguments, possibly the
exclude option, and the two normalised paths. -/
theorem runRsync_significant (w : World) (src dst port : GoString) (excludes : List GoString)
    (dryRun del : Bool) :
    (significant (runRsync w src dst port excludes dryRun del).2.trace = significant w.trace ∧
      (runRsync w src dst port excludes dryRun del).1 = Except.error GsError.createTemp) ∨
    (∃ extra : List GoString, extra.length ≤ 1 ∧
      (∀ x ∈ extra, hasPrefix x "--exclude-from=".toList = true) ∧
      significant (runRsync w src dst port excludes dryRun del).2.trace
        = significant w.trace ++
          [Event.exec (rsyncBaseArgs port dryRun del ++ extra ++ [normDir src, normDir dst])]) := by
  unfold runRsync
  simp only
  split
  · unfold writeExcludeFile
    cases w.tempFile w.temps with
    | none => exact Or.inl ⟨rfl, rfl⟩
    | some name =>
      refine Or.inr ⟨["--exclude-from=".toList ++ name], by simp, ?_, ?_⟩
      · intro x hx
        simp only [List.mem_singleton] at hx
        subst hx
        simp [hasPrefix]
      · simp only [runRsyncExec]
        split <;>
          simp [World.emit, significant_append, significant, Event.isSignificant]
  · refine Or.inr ⟨[], by simp, by simp, ?_⟩
    simp only [runRsyncExec]
    split <;> simp [significant_append, significant, Event.isSignificant]

theorem hasFlag_dryRun (port : GoString) (del : Bool) (rest : List GoString) :
    hasFlag (rsyncBaseArgs port true del ++ rest) "--dry-run" ∧
    hasFlag (rsyncBaseArgs port true del ++ rest) "--itemize-changes" := by
  cases del <;> simp [hasFlag, rsyncBaseArgs]

theorem hasFlag_delete (port : GoString) (dryRun : Bool) (rest : List GoString) :
    hasFlag (rsyncBaseArgs port dryRun true ++ rest) "--delete" := by
  cases dryRun <;> simp [hasFlag, rsyncBaseArgs]

theorem normDir_ne_flag (p : GoString) (flag : GoString) (h : hasSuffix flag ['/'] = false) :
    normDir p ≠ flag := by
  intro e
  have hs : hasSuffix (normDir p) ['/'] = true := by
    unfold normDir
    by_cases hp : hasSuffix p ['/'] = true
    · simp [hp]
    · simp only [Bool.not_eq_true] at hp
      simp only [hp, Bool.not_false, if_true]
      simp [hasSuffix]
  rw [e, h] at hs
  exact Bool.noConfusion hs

theorem not_hasFlag_dryRun (port : GoString) (del : Bool) (extra : List GoString)
    (src dst : GoString) (hextra : ∀ x ∈ extra, hasPrefix x "--exclude-from=".toList = true) :
    ¬ hasFlag (rsyncBaseArgs port false del ++ extra ++ [normDir src, normDir dst])
      "--dry-run" := by
  have h1 := normDir_ne_flag src "--dry-run".toList (by decide)
  have h2 := normDir_ne_flag dst "--dry-run".toList (by decide)
  have h3 : "--dry-run".toList ∉ extra := by
    intro hm
    have := hextra _ hm
    revert this
    decide
  unfold hasFlag
  cases del <;>
    simp only [rsyncBaseArgs, List.mem_append, List.mem_cons, List.mem_singleton,
      List.not_mem_nil, or_false, not_or, Bool.false_eq_true, if_false, if_true] <;>
    refine ⟨⟨?_, h3⟩, Ne.symm h1, Ne.symm h2⟩ <;> simp

theorem runRsync_result {w w2 : World} {src dst port : GoString} {excludes : List GoString}
    {dryRun del : Bool} {r : Except GsError RsyncResult}
    (h : runRsync w src dst port excludes dryRun del = (r, w2)) :
    SameSetup w w2 ∧ w2.files = w.files ∧ w2.clock = w.clock ∧ w2.ticks = w.ticks ∧
    ((significant w2.trace = significant w.trace ∧ r = Except.error GsError.createTemp) ∨
     (∃ extra : List GoString,
        (∀ x ∈ extra, hasPrefix x "--exclude-from=".toList = true) ∧
        significant w2.trace = significant w.trace ++
          [Event.exec (rsyncBaseArgs port dryRun del ++ extra ++ [normDir src, normDir dst])])) := by
  have hf := runRsync_frame w src dst port excludes dryRun del
  have hs := runRsync_significant w src dst port excludes dryRun del
  rw [h] at hf hs
  refine ⟨hf.1, hf.2.1, hf.2.2.1, hf.2.2.2, ?_⟩
  rcases hs with hs | ⟨extra, _, hx, hs⟩
  · exact Or.inl hs
  · exact Or.inr ⟨extra, hx, hs⟩

theorem dryRunWithDelete_args (port : GoString) (extra : List GoString) (src dst : GoString) :
    DryRunWithDelete (rsyncBaseArgs port true true ++ extra ++ [normDir src, normDir dst])
      src dst := by
  refine ⟨?_, ?_, ?_, ⟨rsyncBaseArgs port true true ++ extra, rfl⟩⟩
  · rw [List.append_assoc]; exact (hasFlag_dryRun port true _).1
  · rw [List.append_assoc]; exact (hasFlag_dryRun port true _).2
  · rw [List.append_assoc]; exact hasFlag_delete port true _

theorem realWithDelete_args (port : GoString) (extra : List GoString) (src dst : GoString)
    (hextra : ∀ x ∈ extra, hasPrefix x "--exclude-from=".toList = true) :
    RealWithDelete (rsyncBaseArgs port false true ++ extra ++ [normDir src, normDir dst])
      src dst := by
  refine ⟨not_hasFlag_dryRun port true extra src dst hextra, ?_,
    ⟨rsyncBaseArgs port false true ++ extra, rfl⟩⟩
  rw [List.append_assoc]
  exact hasFlag_delete port false _

/-- C7, as the code has it: the engine runs of the status operation are at most
two, the first from the remote to the local directory and the second from the
local directory to the remote; each carries the dry-run and itemize flags, so
nothing is transferred or deleted, and each also carries the `--delete` flag, so
the deletions a real transfer would make are listed. -/
theorem cmdStatus_invocations (w : World) :
    ∃ xs : List Event, significant (cmdStatus w).2.trace = significant w.trace ++ xs ∧
      (xs = [] ∨
       ∃ cfg l, loadConfig w = Except.ok cfg ∧ getCurrentLocal w cfg = Except.ok l ∧
        ((∃ a1, xs = [Event.exec a1] ∧ DryRunWithDelete a1 (cfg.RemoteForLocal l) l.Path) ∨
         (∃ a1 a2, xs = [Event.exec a1, Event.exec a2] ∧
            DryRunWithDelete a1 (cfg.RemoteForLocal l) l.Path ∧
            DryRunWithDelete a2 l.Path (cfg.RemoteForLocal l)))) := by
  unfold cmdStatus
  cases hc : loadConfig w with
  | error e => exact ⟨[], by simp, Or.inl rfl⟩
  | ok cfg =>
    dsimp only
    cases hl : getCurrentLocal w cfg with
    | error e => exact ⟨[], by simp, Or.inl rfl⟩
    | ok l =>
      dsimp only
      generalize hw1 : (w.print ("[~] checking status for '".toList ++ l.Name ++
        "'...\n".toList)).print "[~] checking remote...\n".toList = w1
      have hs1 : significant w1.trace = significant w.trace := by
        rw [← hw1, print_significant, print_significant]
      cases hr1 : runRsync w1 (cfg.RemoteForLocal l) l.Path cfg.Port cfg.Excludes true true with
      | mk r1 w2 =>
        obtain ⟨_, _, _, _, hsig1⟩ := runRsync_result hr1
        rcases hsig1 with ⟨hsig1, hre⟩ | ⟨extra1, _, hsig1⟩
        · subst hre
          refine ⟨[], ?_, Or.inl rfl⟩
          simp [hsig1, hs1]
        · have hd1 := dryRunWithDelete_args cfg.Port extra1 (cfg.RemoteForLocal l) l.Path
          cases r1 with
          | error e =>
            refine ⟨_, ?_, Or.inr ⟨cfg, l, rfl, hl, Or.inl ⟨_, rfl, hd1⟩⟩⟩
            simp only
            split <;> simp [print_significant, hsig1, hs1]
          | ok pullResult =>
            simp only
            generalize hw3 : w2.print "[~] checking local...\n".toList = w3
            have hs3 : significant w3.trace = significant w2.trace := by
              rw [← hw3, print_significant]
            cases hr2 : runRsync w3 l.Path (cfg.RemoteForLocal l) cfg.Port cfg.Excludes
                true true with
            | mk r2 w4 =>
              obtain ⟨_, _, _, _, hsig2⟩ := runRsync_result hr2
              rcases hsig2 with ⟨hsig2, hre⟩ | ⟨extra2, _, hsig2⟩
              · subst hre
                refine ⟨_, ?_, Or.inr ⟨cfg, l, rfl, hl, Or.inl ⟨_, rfl, hd1⟩⟩⟩
                simp [hsig2, hs3, hsig1, hs1]
              · have hd2 := dryRunWithDelete_args cfg.Port extra2 l.Path (cfg.RemoteForLocal l)
                refine ⟨_, ?_, Or.inr ⟨cfg, l, rfl, hl, Or.inr ⟨_, _, rfl, hd1, hd2⟩⟩⟩
                cases r2 with
                | error e => simp [hsig2, hs3, hsig1, hs1]
                | ok pushResult =>
                  simp only
                  split
                  · simp [print_significant, hsig2, hs3, hsig1, hs1]
                  · split <;> split <;>
                      simp [print_significant, printChanges_significant, hsig2, hs3, hsig1, hs1]

/-- C7 as stated fails: in the sample world the status operation runs the engine
twice, and both argument lists carry `--delete` next to `--dry-run`. -/
theorem cmdStatus_passes_delete :
    significant (cmdStatus sampleWorld).2.trace
      = [Event.exec sampleStatusPullArgs, Event.exec sampleStatusPushArgs] ∧
    hasFlag sampleStatusPullArgs "--delete" ∧ hasFlag sampleStatusPushArgs "--delete" := by
  decide

theorem stampAndSave_result (w : World) (l : Local) (stamp : Time → State)
    (output closing : GoString) :
    SameSetup w (stampAndSave w l stamp output closing).2 ∧
    significant (stampAndSave w l stamp output closing).2.trace = significant w.trace ∧
    ((stampAndSave w l stamp output closing).1 ≠ none →
      (stampAndSave w l stamp output closing).2.files = w.files) ∧
    ((stampAndSave w l stamp output closing).1 = none →
      (stampAndSave w l stamp output closing).2.files
        = filesAfterSave w l.Path (stamp (w.clock w.ticks))) := by
  unfold stampAndSave saveState
  simp only
  cases hslot : w.files (statePath w.env l.Path) with
  | blocked => exact ⟨⟨rfl, rfl, rfl⟩, rfl, fun _ => rfl, fun h => by simp at h⟩
  | missing =>
    exact ⟨⟨rfl, rfl, rfl⟩, by simp [print_significant], fun h => by simp at h, fun _ => rfl⟩
  | file content =>
    exact ⟨⟨rfl, rfl, rfl⟩, by simp [print_significant], fun h => by simp at h, fun _ => rfl⟩

/-- The shared transfer block: what it returns, what it records and what it
leaves in the state store. -/
theorem transferAndStamp_result (w : World) (cfg : Config) (l : Local) (src dst : GoString)
    (stamp : Time → State) (closing : GoString) :
    SameSetup w (transferAndStamp w cfg l src dst stamp closing).2 ∧
    ((transferAndStamp w cfg l src dst stamp closing).1 ≠ none →
      (transferAndStamp w cfg l src dst stamp closing).2.files = w.files) ∧
    ((transferAndStamp w cfg l src dst stamp closing).1 = none →
      (transferAndStamp w cfg l src dst stamp closing).2.files
        = filesAfterSave w l.Path (stamp (w.clock w.ticks))) ∧
    (∀ e, (runRsync w src dst cfg.Port cfg.Excludes false true).1 = Except.error e →
      (transferAndStamp w cfg l src dst stamp closing).1 = some e) ∧
    ((transferAndStamp w cfg l src dst stamp closing).1 = none →
      ∃ result, (runRsync w src dst cfg.Port cfg.Excludes false true).1 = Except.ok result) ∧
    ((significant (transferAndStamp w cfg l src dst stamp closing).2.trace = significant w.trace ∧
        (transferAndStamp w cfg l src dst stamp closing).1 = some GsError.createTemp) ∨
     (∃ args, RealWithDelete args src dst ∧
        significant (transferAndStamp w cfg l src dst stamp closing).2.trace
          = significant w.trace ++ [Event.exec args])) := by
  unfold transferAndStamp
  cases hr : runRsync w src dst cfg.Port cfg.Excludes false true with
  | mk r w2 =>
    obtain ⟨hset, hfiles, hclock, hticks, hsig⟩ := runRsync_result hr
    cases r with
    | error e =>
      dsimp only
      refine ⟨hset, fun _ => hfiles, fun h => by simp at h, ?_, fun h => by simp at h, ?_⟩
      · intro e' he'
        simp only [Except.error.injEq] at he'
        rw [he']
      · rcases hsig with ⟨hsig, he⟩ | ⟨extra, hx, hsig⟩
        · simp only [Except.error.injEq] at he
          exact Or.inl ⟨hsig, by rw [he]⟩
        · exact Or.inr ⟨_, realWithDelete_args cfg.Port extra src dst hx, hsig⟩
    | ok result =>
      dsimp only
      obtain ⟨h1, h2, h3, h4⟩ := stampAndSave_result w2 l stamp result.Output closing
      refine ⟨sameSetup_trans hset h1, ?_, ?_, ?_, fun _ => ⟨result, rfl⟩, ?_⟩
      · intro h
        rw [h3 h, hfiles]
      · intro h
        rw [h4 h, hclock, hticks]
        funext p
        simp only [filesAfterSave, hset.1, hfiles]
      · intro e he
        simp at he
      · rcases hsig with ⟨_, he⟩ | ⟨extra, hx, hsig⟩
        · simp at he
        · exact Or.inr ⟨_, realWithDelete_args cfg.Port extra src dst hx, by rw [h2, hsig]⟩

/-- The advisory check of `cmdPush`: it touches neither the setup nor the state
store nor the clock, it runs the engine at most once and then in dry-run mode,
and the only error it returns is the wrapped error of that dry run. -/
theorem pushAdvisory_result (w : World) (cfg : Config) (l : Local) (state : State) :
    SameSetup w (pushAdvisory w cfg l state).2 ∧
    (pushAdvisory w cfg l state).2.files = w.files ∧
    (pushAdvisory w cfg l state).2.clock = w.clock ∧
    (pushAdvisory w cfg l state).2.ticks = w.ticks ∧
    (∀ e, (pushAdvisory w cfg l state).1 = some e → ∃ inner, e = GsError.checkRemote inner) ∧
    ∃ adv : List Event,
      significant (pushAdvisory w cfg l state).2.trace = significant w.trace ++ adv ∧
      (adv = [] ∨ ∃ a, adv = [Event.exec a] ∧ hasFlag a "--dry-run") := by
  unfold pushAdvisory
  by_cases hz : state.LastPull.IsZero = true
  · have hcond : ¬ ((!state.LastPull.IsZero) = true) := by simp [hz]
    rw [if_neg hcond]
    exact ⟨sameSetup_refl w, rfl, rfl, rfl, fun e h => by simp at h, [], by simp, Or.inl rfl⟩
  · have hcond : (!state.LastPull.IsZero) = true := by simpa using hz
    rw [if_pos hcond]
    simp only [checkRemoteChanges]
    generalize hw1 : w.print "[~] checking for remote changes...\n".toList = w1
    have hs1 : significant w1.trace = significant w.trace := by
      rw [← hw1, print_significant]
    have hset1 : SameSetup w w1 := by rw [← hw1]; exact ⟨rfl, rfl, rfl⟩
    have hf1 : w1.files = w.files := by rw [← hw1]; rfl
    have hc1 : w1.clock = w.clock := by rw [← hw1]; rfl
    have ht1 : w1.ticks = w.ticks := by rw [← hw1]; rfl
    cases hr : runRsync w1 (cfg.RemoteForLocal l) l.Path cfg.Port cfg.Excludes true false with
    | mk r w2 =>
      obtain ⟨hset, hfiles, hclock, hticks, hsig⟩ := runRsync_result hr
      have hadv : ∃ adv : List Event, significant w2.trace = significant w.trace ++ adv ∧
          (adv = [] ∨ ∃ a, adv = [Event.exec a] ∧ hasFlag a "--dry-run") := by
        rcases hsig with ⟨hsig, _⟩ | ⟨extra, _, hsig⟩
        · exact ⟨[], by simp [hsig, hs1], Or.inl rfl⟩
        · refine ⟨_, by rw [hsig, hs1], Or.inr ⟨_, rfl, ?_⟩⟩
          rw [List.append_assoc]
          exact (hasFlag_dryRun cfg.Port false _).1
      cases r with
      | error e =>
        dsimp only
        exact ⟨sameSetup_trans hset1 hset, by rw [hfiles, hf1], by rw [hclock, hc1],
          by rw [hticks, ht1], fun e' h => ⟨e, by simpa using h.symm⟩, hadv⟩
      | ok result =>
        dsimp only
        split
        · obtain ⟨p1, p2, p3, p4⟩ := printChanges_frame
            (w2.print "[!] warning: remote has changes that haven't been pulled:\n".toList)
            result.Changes
          refine ⟨sameSetup_trans hset1 (sameSetup_trans hset (sameSetup_trans ⟨rfl, rfl, rfl⟩
            (sameSetup_trans p1 ⟨rfl, rfl, rfl⟩))), ?_, ?_, ?_, fun e h => by simp at h, ?_⟩
          · show (printChanges _ _).files = _
            rw [p2]
            show w2.files = _
            rw [hfiles, hf1]
          · show (printChanges _ _).clock = _
            rw [p3]
            show w2.clock = _
            rw [hclock, hc1]
          · show (printChanges _ _).ticks = _
            rw [p4]
            show w2.ticks = _
            rw [hticks, ht1]
          · simpa [print_significant, printChanges_significant] using hadv
        · exact ⟨sameSetup_trans hset1 hset, by rw [hfiles, hf1], by rw [hclock, hc1],
            by rw [hticks, ht1], fun e h => by simp at h, hadv⟩

theorem firstPushGuard_result (w : World) (state : State) :
    SameSetup w (firstPushGuard w state) ∧ (firstPushGuard w state).files = w.files ∧
    (firstPushGuard w state).clock = w.clock ∧ (firstPushGuard w state).ticks = w.ticks ∧
    significant (firstPushGuard w state).trace = significant w.trace ++ pushGuardEvents state := by
  unfold firstPushGuard pushGuardEvents
  split
  · exact ⟨⟨rfl, rfl, rfl⟩, rfl, rfl, rfl, by rw [sleep_significant, print_significant,
      print_significant]⟩
  · exact ⟨⟨rfl, rfl, rfl⟩, rfl, rfl, rfl, by simp⟩

theorem firstPullGuard_result (w : World) (state : State) :
    SameSetup w (firstPullGuard w state) ∧ (firstPullGuard w state).files = w.files ∧
    (firstPullGuard w state).clock = w.clock ∧ (firstPullGuard w state).ticks = w.ticks ∧
    significant (firstPullGuard w state).trace = significant w.trace ++ pullGuardEvents state := by
  unfold firstPullGuard pullGuardEvents
  split
  · exact ⟨⟨rfl, rfl, rfl⟩, rfl, rfl, rfl, by rw [sleep_significant, print_significant,
      print_significant]⟩
  · exact ⟨⟨rfl, rfl, rfl⟩, rfl, rfl, rfl, by simp⟩

theorem isPlainChar_digitChar (d : Nat) : IsPlainChar (digitChar d) :=
  ⟨isSpace_digitChar d, utf8Size_digitChar d⟩

theorem natDigitsAux_plain (fuel n : Nat) (acc : List Char) (h : ∀ c ∈ acc, IsPlainChar c) :
    ∀ c ∈ natDigitsAux fuel n acc, IsPlainChar c := by
  induction fuel generalizing n acc with
  | zero => simpa [natDigitsAux] using h
  | succ k ih =>
    have hcons : ∀ c ∈ digitChar n :: acc, IsPlainChar c := by
      intro c hc
      rcases List.mem_cons.1 hc with rfl | hc
      · exact isPlainChar_digitChar n
      · exact h c hc
    simp only [natDigitsAux]
    split
    · exact hcons
    · exact ih _ _ hcons

theorem natDigitsAux_length (fuel n : Nat) (acc : List Char) :
    (natDigitsAux fuel n acc).length ≤ fuel + acc.length := by
  induction fuel generalizing n acc with
  | zero => simp [natDigitsAux]
  | succ k ih =>
    simp only [natDigitsAux]
    split
    · simp only [List.length_cons]
      omega
    · have := ih (n / 10) (digitChar n :: acc)
      simp only [List.length_cons] at this
      omega

theorem natDigitsAux_ne_nil (fuel n : Nat) (acc : List Char) (h : acc ≠ [] ∨ 0 < fuel) :
    natDigitsAux fuel n acc ≠ [] := by
  induction fuel generalizing n acc with
  | zero =>
    rcases h with h | h
    · simpa [natDigitsAux] using h
    · exact absurd h (Nat.lt_irrefl 0)
  | succ k ih =>
    simp only [natDigitsAux]
    split
    · exact List.cons_ne_nil _ _
    · exact ih _ _ (Or.inl (List.cons_ne_nil _ _))

theorem appendInt_plain (x : Int) (width : Nat) : ∀ c ∈ appendInt x width, IsPlainChar c := by
  intro c hc
  simp only [appendInt, List.mem_append, List.mem_replicate] at hc
  rcases hc with (hc | hc) | hc
  · split at hc
    · simp only [List.mem_singleton] at hc
      subst hc
      decide
    · simp at hc
  · rw [hc.2]
    decide
  · exact natDigitsAux_plain 20 _ [] (by simp) c hc

theorem appendInt_length (x : Int) (width : Nat) : (appendInt x width).length ≤ width + 21 := by
  have h := natDigitsAux_length 20 x.natAbs []
  simp only [appendInt, natDigits, List.length_append, List.length_replicate]
  simp only [List.length_nil] at h
  split <;> simp only [List.length_cons, List.length_nil] <;> omega

theorem appendInt_ne_nil (x : Int) (width : Nat) : appendInt x width ≠ [] := by
  have h := natDigitsAux_ne_nil 20 x.natAbs [] (Or.inr (by decide))
  simp only [appendInt, natDigits]
  intro e
  simp only [List.append_eq_nil] at e
  exact h e.2

theorem goLen_of_plain (s : GoString) (h : ∀ c ∈ s, IsPlainChar c) : goLen s = s.length := by
  induction s with
  | nil => rfl
  | cons c cs ih =>
    simp only [List.mem_cons, forall_eq_or_imp] at h
    have := ih h.2
    simp only [goLen, List.map_cons, List.sum_cons, List.length_cons] at this ⊢
    rw [this, h.1.2]
    omega

/-- The `time.RFC3339` text of any time is a single field of at most 200 bytes. -/
theorem formatRFC3339_field (t : Time) :
    IsField t.formatRFC3339 ∧ goLen t.formatRFC3339 ≤ 200 := by
  have hplain : ∀ c ∈ t.formatRFC3339, IsPlainChar c := by
    intro c hc
    simp only [Time.formatRFC3339, List.mem_append, List.mem_singleton] at hc
    have p1 : IsPlainChar '-' := by decide
    have p2 : IsPlainChar 'T' := by decide
    have p3 : IsPlainChar ':' := by decide
    have p4 : IsPlainChar 'Z' := by decide
    have p5 : IsPlainChar '+' := by decide
    rcases hc with ((((((((((hc | hc) | hc) | hc) | hc) | hc) | hc) | hc) | hc) | hc) | hc) | hc
    all_goals first
      | exact appendInt_plain _ _ c hc
      | (subst hc; assumption)
      | skip
    split at hc
    · simp only [List.mem_singleton] at hc
      subst hc
      exact p4
    · simp only [List.mem_append, List.mem_singleton] at hc
      rcases hc with (((hc | hc) | hc) | hc)
      · split at hc <;> simp only [List.mem_singleton] at hc <;> subst hc <;> assumption
      · exact appendInt_plain _ _ c hc
      · subst hc; exact p3
      · exact appendInt_plain _ _ c hc
  refine ⟨⟨?_, fun c hc => (hplain c hc).1⟩, ?_⟩
  · simp only [Time.formatRFC3339]
    intro e
    simp only [List.append_eq_nil] at e
    exact appendInt_ne_nil _ _ e.1.1.1.1.1.1.1.1.1.1.1
  · rw [goLen_of_plain _ hplain]
    simp only [Time.formatRFC3339, List.length_append, List.length_singleton]
    have a1 := appendInt_length (t.addSec t.offset).year 4
    have a2 := appendInt_length (t.addSec t.offset).month 2
    have a3 := appendInt_length (t.addSec t.offset).day 2
    have a4 := appendInt_length (t.addSec t.offset).hour 2
    have a5 := appendInt_length (t.addSec t.offset).minute 2
    have a6 := appendInt_length (t.addSec t.offset).second 2
    split
    · simp only [List.length_singleton]
      omega
    · have a7 := appendInt_length (Int.tdiv (Int.natAbs (Int.tdiv t.offset 60)) 60) 2
      have a8 := appendInt_length (Int.tmod (Int.natAbs (Int.tdiv t.offset 60)) 60) 2
      simp only [List.length_append, List.length_singleton]
      split <;> simp only [List.length_singleton] <;> omega

theorem goodLine_pull_any (t : Time) :
    GoodLine ("last_pull".toList ++ ' ' :: t.formatRFC3339) := by
  apply goodLine_key_value _ _ isField_last_pull (formatRFC3339_field t).1
  have h := (formatRFC3339_field t).2
  have hk : goLen "last_pull".toList = 9 := by decide
  rw [hk]
  unfold maxScanTokenSize
  omega

theorem loadStateLine_pull_any (st : State) (t : Time) :
    (loadStateLine st ("last_pull".toList ++ ' ' :: t.formatRFC3339)).LastPush = st.LastPush := by
  have hne : ¬ ("last_pull".toList = "last_push".toList) := by decide
  unfold loadStateLine
  rw [fields_key_value _ _ isField_last_pull (formatRFC3339_field t).1]
  dsimp only
  cases timeParseRFC3339 t.formatRFC3339 with
  | none => rfl
  | some t' => simp only [if_neg hne, if_true]

/-- After `saveState`, `loadState` reads the push timestamp back, cut to the
whole second, whatever the pull timestamp is. -/
theorem loadStateContent_saveStateContent_push (s : State) (hp : s.LastPush.Storable) :
    (loadStateContent (saveStateContent s)).2 = none ∧
    (loadStateContent (saveStateContent s)).1.LastPush = s.LastPush.truncSecond := by
  have gp := goodLine_push s.LastPush hp
  have gq := goodLine_pull_any s.LastPull
  have lp := fun st => loadStateLine_push st s.LastPush hp
  have lq := fun st => loadStateLine_pull_any st s.LastPull
  by_cases hzp : s.LastPush.IsZero = true <;> by_cases hzq : s.LastPull.IsZero = true
  · have e : saveStateContent s = joinLines [] := by
      simp [saveStateContent, hzp, hzq, joinLines]
    rw [e, loadStateContent_joinLines _ (by simp), truncSecond_of_isZero _ hp.2.1 hzp]
    exact ⟨rfl, rfl⟩
  · have e : saveStateContent s
        = joinLines ["last_pull".toList ++ ' ' :: s.LastPull.formatRFC3339] := by
      simp [saveStateContent, hzp, hzq, joinLines]
    rw [e, loadStateContent_joinLines _ (by simpa using gq),
      truncSecond_of_isZero _ hp.2.1 hzp]
    simp only [loadStateLoop, List.foldl_cons, List.foldl_nil]
    rw [lq]
    exact ⟨trivial, rfl⟩
  · have e : saveStateContent s
        = joinLines ["last_push".toList ++ ' ' :: s.LastPush.formatRFC3339] := by
      simp [saveStateContent, hzp, hzq, joinLines]
    rw [e, loadStateContent_joinLines _ (by simpa using gp)]
    simp only [loadStateLoop, List.foldl_cons, List.foldl_nil]
    exact ⟨trivial, by rw [lp]⟩
  · have e : saveStateContent s
        = joinLines ["last_push".toList ++ ' ' :: s.LastPush.formatRFC3339,
                     "last_pull".toList ++ ' ' :: s.LastPull.formatRFC3339] := by
      simp [saveStateContent, hzp, hzq, joinLines]
    rw [e, loadStateContent_joinLines _ (by
      intro l hl
      simp only [List.mem_cons, List.mem_singleton, List.not_mem_nil, or_false] at hl
      rcases hl with rfl | rfl
      · exact gp
      · exact gq)]
    simp only [loadStateLoop, List.foldl_cons, List.foldl_nil]
    exact ⟨trivial, by rw [lq, lp]⟩

theorem loadConfig_sameSetup {w w' : World} (h : SameSetup w w') :
    loadConfig w' = loadConfig w := by
  unfold loadConfig
  rw [h.1, h.2.1]

theorem getCurrentLocal_sameSetup {w w' : World} (h : SameSetup w w') (cfg : Config) :
    getCurrentLocal w' cfg = getCurrentLocal w cfg := by
  unfold getCurrentLocal
  rw [h.1, h.2.2]

theorem loadState_filesAfterSave (w w' : World) (dir : GoString) (s : State)
    (henv : w'.env = w.env) (hfiles : w'.files = filesAfterSave w dir s) :
    loadState w' dir = loadStateContent (saveStateContent s) := by
  unfold loadState
  rw [hfiles, henv]
  simp [filesAfterSave]

theorem cmdPush_eq (w : World) (cfg : Config) (l : Local) (state : State)
    (hc : loadConfig w = Except.ok cfg) (hl : getCurrentLocal w cfg = Except.ok l)
    (hs : loadState w l.Path = (state, none)) :
    cmdPush w =
      match pushPrepare w cfg l state with
      | (some e, w1) => (some e, w1)
      | (none, w1) =>
        transferAndStamp w1 cfg l l.Path (cfg.RemoteForLocal l)
          (fun now => { state with LastPush := now }) "[+] push complete\n".toList := by
  unfold cmdPush
  rw [hc]
  dsimp only
  rw [hl]
  dsimp only
  rw [hs]

theorem cmdPull_eq (w : World) (cfg : Config) (l : Local) (state : State)
    (hc : loadConfig w = Except.ok cfg) (hl : getCurrentLocal w cfg = Except.ok l)
    (hs : loadState w l.Path = (state, none)) :
    cmdPull w =
      transferAndStamp (pullPrepare w l state) cfg l (cfg.RemoteForLocal l) l.Path
        (fun now => { state with LastPull := now }) "[+] pull complete\n".toList := by
  unfold cmdPull
  rw [hc]
  dsimp only
  rw [hl]
  dsimp only
  rw [hs]

theorem pullLocal_eq (w : World) (cfg : Config) (l : Local) (state : State)
    (hs : loadState w l.Path = (state, none)) :
    pullLocal w cfg l =
      transferAndStamp (pullLocalPrepare w l) cfg l (cfg.RemoteForLocal l) l.Path
        (fun now => { state with LastPull := now })
        ("[+] pull complete for '".toList ++ l.Name ++ "'\n".toList) := by
  unfold pullLocal
  rw [hs]

/-- The preparation of a push: frame, and the delays and engine runs it
records. -/
theorem pushPrepare_result (w : World) (cfg : Config) (l : Local) (state : State) :
    SameSetup w (pushPrepare w cfg l state).2 ∧
    (pushPrepare w cfg l state).2.files = w.files ∧
    (pushPrepare w cfg l state).2.clock = w.clock ∧
    (pushPrepare w cfg l state).2.ticks = w.ticks ∧
    ∃ adv : List Event, (adv = [] ∨ ∃ a, adv = [Event.exec a] ∧ hasFlag a "--dry-run") ∧
      (((pushPrepare w cfg l state).1 = none ∧
          significant (pushPrepare w cfg l state).2.trace
            = significant w.trace ++ adv ++ pushGuardEvents state) ∨
       ((∃ inner, (pushPrepare w cfg l state).1 = some (GsError.checkRemote inner)) ∧
          significant (pushPrepare w cfg l state).2.trace = significant w.trace ++ adv)) := by
  obtain ⟨hset, hfiles, hclock, hticks, herr, adv, hsig, hadv⟩ := pushAdvisory_result w cfg l state
  unfold pushPrepare
  cases ha : pushAdvisory w cfg l state with
  | mk r w1 =>
    rw [ha] at hset hfiles hclock hticks herr hsig
    cases r with
    | some e =>
      obtain ⟨inner, rfl⟩ := herr e rfl
      exact ⟨hset, hfiles, hclock, hticks, adv, hadv, Or.inr ⟨⟨inner, rfl⟩, hsig⟩⟩
    | none =>
      obtain ⟨g1, g2, g3, g4, g5⟩ := firstPushGuard_result w1 state
      refine ⟨sameSetup_trans hset (sameSetup_trans g1 ⟨rfl, rfl, rfl⟩), ?_, ?_, ?_, adv, hadv,
        Or.inl ⟨rfl, ?_⟩⟩
      · show (firstPushGuard w1 state).files = _
        rw [g2, hfiles]
      · show (firstPushGuard w1 state).clock = _
        rw [g3, hclock]
      · show (firstPushGuard w1 state).ticks = _
        rw [g4, hticks]
      · dsimp only
        rw [print_significant, g5, hsig]

/-- The shape of a push run on a resolved binding: what it records, and what
it leaves in the state store. -/
theorem cmdPush_shape (w : World) (cfg : Config) (l : Local) (state : State)
    (hc : loadConfig w = Except.ok cfg) (hl : getCurrentLocal w cfg = Except.ok l)
    (hs : loadState w l.Path = (state, none)) :
    SameSetup w (cmdPush w).2 ∧
    ((cmdPush w).1 ≠ none → (cmdPush w).2.files = w.files) ∧
    ((cmdPush w).1 = none →
      (cmdPush w).2.files
        = filesAfterSave w l.Path { state with LastPush := w.clock w.ticks }) ∧
    ∃ adv : List Event, (adv = [] ∨ ∃ a, adv = [Event.exec a] ∧ hasFlag a "--dry-run") ∧
      ((∃ args, RealWithDelete args l.Path (cfg.RemoteForLocal l) ∧
          significant (cmdPush w).2.trace
            = significant w.trace ++ adv ++ pushGuardEvents state ++ [Event.exec args]) ∨
       ((∃ inner, (cmdPush w).1 = some (GsError.checkRemote inner)) ∧
          significant (cmdPush w).2.trace = significant w.trace ++ adv) ∨
       ((cmdPush w).1 = some GsError.createTemp ∧
          significant (cmdPush w).2.trace
            = significant w.trace ++ adv ++ pushGuardEvents state)) := by
  rw [cmdPush_eq w cfg l state hc hl hs]
  obtain ⟨hset, hfiles, hclock, hticks, adv, hadv, hprep⟩ := pushPrepare_result w cfg l state
  cases hp : pushPrepare w cfg l state with
  | mk r w1 =>
    rw [hp] at hset hfiles hclock hticks hprep
    dsimp only at hset hfiles hclock hticks
    have henv : w1.env = w.env := hset.1
    rcases hprep with ⟨hr, hsig⟩ | ⟨⟨inner, hr⟩, hsig⟩
    · dsimp only at hr hsig
      subst hr
      dsimp only
      obtain ⟨t1, t2, t3, _, _, t6⟩ := transferAndStamp_result w1 cfg l l.Path
        (cfg.RemoteForLocal l) (fun now => { state with LastPush := now })
        "[+] push complete\n".toList
      refine ⟨sameSetup_trans hset t1, fun h => by rw [t2 h, hfiles], ?_, adv, hadv, ?_⟩
      · intro h
        rw [t3 h, hclock, hticks]
        funext p
        simp only [filesAfterSave, henv, hfiles]
      · rcases t6 with ⟨t6, te⟩ | ⟨args, hargs, t6⟩
        · exact Or.inr (Or.inr ⟨te, by rw [t6, hsig]⟩)
        · exact Or.inl ⟨args, hargs, by rw [t6, hsig]⟩
    · dsimp only at hr hsig
      subst hr
      dsimp only
      exact ⟨hset, fun _ => hfiles, fun h => by simp at h, adv, hadv,
        Or.inr (Or.inl ⟨⟨inner, rfl⟩, hsig⟩)⟩

theorem pullLocal_no_delay (w : World) (cfg : Config) (l : Local) :
    ∃ xs : List Event,
      significant (pullLocal w cfg l).2.trace = significant w.trace ++ xs ∧
      ∀ d, Event.sleep d ∉ xs := by
  cases hs : loadState w l.Path with
  | mk state err =>
    cases err with
    | some e => exact ⟨[], by simp [pullLocal, hs], by simp⟩
    | none =>
      rw [pullLocal_eq w cfg l state hs]
      obtain ⟨_, _, _, _, _, t6⟩ := transferAndStamp_result (pullLocalPrepare w l) cfg l
        (cfg.RemoteForLocal l) l.Path (fun now => { state with LastPull := now })
        ("[+] pull complete for '".toList ++ l.Name ++ "'\n".toList)
      have hp : significant (pullLocalPrepare w l).trace = significant w.trace :=
        print_significant w _
      rcases t6 with ⟨t6, _⟩ | ⟨args, _, t6⟩
      · exact ⟨[], by rw [t6, hp]; simp, by simp⟩
      · exact ⟨[Event.exec args], by rw [t6, hp], by simp⟩

/-- C9: in the sample world the binding `notes` has never been pulled, and
`gs auto` pulls it with `--delete` and without `--dry-run` while recording no
delay at all: `pullLocal` goes from `loadState` straight to the transfer, and
in no world does it record a delay. The `pull` command in the same world
records the first-pull delay before the same transfer. -/
theorem auto_pull_skips_first_transfer_guard :
    (loadState sampleWorld notesLocal.Path).1.LastPull.IsZero = true ∧
    (cmdAuto 1 sampleWorld (30 * second) 0).map (fun r => (r.1, significant r.2.trace))
      = some (none, [Event.exec samplePullArgs]) ∧
    hasFlag samplePullArgs "--delete" ∧ ¬ hasFlag samplePullArgs "--dry-run" ∧
    significant (pullLocal sampleWorld notesConfig notesLocal).2.trace
      = [Event.exec samplePullArgs] ∧
    significant (cmdPull sampleWorld).2.trace
      = [Event.sleep firstPullDelay, Event.exec samplePullArgs] ∧
    (∀ (w : World) (cfg : Config) (l : Local), ∃ xs : List Event,
      significant (pullLocal w cfg l).2.trace = significant w.trace ++ xs ∧
      ∀ d, Event.sleep d ∉ xs) :=
  ⟨by decide, by decide, by decide, by decide, by decide, by decide, pullLocal_no_delay⟩

theorem failsSafely_transferAndStamp (w w1 : World) (cfg : Config) (l : Local)
    (src dst : GoString) (stamp : Time → State) (closing : GoString)
    (hfiles : w1.files = w.files) :
    FailsSafely (transferAndStamp w1 cfg l src dst stamp closing) w
      (runRsync w1 src dst cfg.Port cfg.Excludes false true) := by
  obtain ⟨_, t2, _, t4, t5, _⟩ := transferAndStamp_result w1 cfg l src dst stamp closing
  refine ⟨?_, ?_, ?_⟩
  · intro e he
    have h := t4 e he
    exact ⟨h, by rw [t2 (by rw [h]; simp), hfiles]⟩
  · intro h
    rw [t2 h, hfiles]
  · intro h
    apply t5
    by_contra hne
    exact h (by rw [t2 hne, hfiles])

theorem cmdPush_error_files (w : World) (h : (cmdPush w).1 ≠ none) :
    (cmdPush w).2.files = w.files := by
  cases hc : loadConfig w with
  | error e => simp [cmdPush, hc]
  | ok cfg =>
    cases hl : getCurrentLocal w cfg with
    | error e => simp [cmdPush, hc, hl]
    | ok l =>
      cases hs : loadState w l.Path with
      | mk state err =>
        cases err with
        | some e => simp [cmdPush, hc, hl, hs]
        | none => exact (cmdPush_shape w cfg l state hc hl hs).2.1 h

theorem cmdPull_error_files (w : World) (h : (cmdPull w).1 ≠ none) :
    (cmdPull w).2.files = w.files := by
  cases hc : loadConfig w with
  | error e => simp [cmdPull, hc]
  | ok cfg =>
    cases hl : getCurrentLocal w cfg with
    | error e => simp [cmdPull, hc, hl]
    | ok l =>
      cases hs : loadState w l.Path with
      | mk state err =>
        cases err with
        | some e => simp [cmdPull, hc, hl, hs]
        | none =>
          rw [cmdPull_eq w cfg l state hc hl hs] at h ⊢
          have hf : (pullPrepare w l state).files = w.files := (firstPullGuard_result w state).2.1
          exact (failsSafely_transferAndStamp w _ cfg l _ _ _ _ hf).2.1 h

theorem pullLocal_error_files (w : World) (cfg : Config) (l : Local)
    (h : (pullLocal w cfg l).1 ≠ none) : (pullLocal w cfg l).2.files = w.files := by
  cases hs : loadState w l.Path with
  | mk state err =>
    cases err with
    | some e => simp [pullLocal, hs]
    | none =>
      rw [pullLocal_eq w cfg l state hs] at h ⊢
      have hf : (pullLocalPrepare w l).files = w.files := rfl
      exact (failsSafely_transferAndStamp w (pullLocalPrepare w l) cfg l _ _ _ _ hf).2.1 h

theorem cmdPush_advisory_failure (w : World) (cfg : Config) (l : Local) (state : State)
    (hc : loadConfig w = Except.ok cfg) (hl : getCurrentLocal w cfg = Except.ok l)
    (hs : loadState w l.Path = (state, none)) (hz : state.LastPull.IsZero = false)
    (e : GsError)
    (he : (runRsync (w.print "[~] checking for remote changes...\n".toList)
      (cfg.RemoteForLocal l) l.Path cfg.Port cfg.Excludes true false).1 = Except.error e) :
    (cmdPush w).1 = some (GsError.checkRemote e) ∧ (cmdPush w).2.files = w.files := by
  have hcond : (!state.LastPull.IsZero) = true := by simp [hz]
  rw [cmdPush_eq w cfg l state hc hl hs]
  unfold pushPrepare pushAdvisory
  rw [if_pos hcond]
  unfold checkRemoteChanges
  cases hr : runRsync (w.print "[~] checking for remote changes...\n".toList)
      (cfg.RemoteForLocal l) l.Path cfg.Port cfg.Excludes true false with
  | mk r w2 =>
    obtain ⟨_, hfiles, _, _, _⟩ := runRsync_result hr
    rw [hr] at he
    dsimp only at he
    subst he
    exact ⟨rfl, hfiles⟩

/-- C10: for push, pull and the per-binding pull of auto-pull-all on a binding
whose state has been loaded: when the `runRsync` call of the transfer returns
an error, the operation returns that error and every state file is as it was
before the operation; no failing run changes a state file; and a state file is
changed only when the transfer has returned success. When the dry run of the
advisory check of push fails, push returns that error, wrapped, and the state
files are as they were. -/
theorem transfer_failure_keeps_state (w : World) (cfg : Config) (l : Local) (state : State)
    (hs : loadState w l.Path = (state, none)) :
    (loadConfig w = Except.ok cfg → getCurrentLocal w cfg = Except.ok l →
      (∀ w1, pushPrepare w cfg l state = (none, w1) →
        FailsSafely (cmdPush w) w
          (runRsync w1 l.Path (cfg.RemoteForLocal l) cfg.Port cfg.Excludes false true)) ∧
      (∀ e, state.LastPull.IsZero = false →
        (runRsync (w.print "[~] checking for remote changes...\n".toList)
          (cfg.RemoteForLocal l) l.Path cfg.Port cfg.Excludes true false).1 = Except.error e →
        (cmdPush w).1 = some (GsError.checkRemote e) ∧ (cmdPush w).2.files = w.files)) ∧
    (loadConfig w = Except.ok cfg → getCurrentLocal w cfg = Except.ok l →
      FailsSafely (cmdPull w) w
        (runRsync (pullPrepare w l state) (cfg.RemoteForLocal l) l.Path cfg.Port cfg.Excludes
          false true)) ∧
    FailsSafely (pullLocal w cfg l) w
      (runRsync (pullLocalPrepare w l) (cfg.RemoteForLocal l) l.Path cfg.Port cfg.Excludes
        false true) ∧
    ((cmdPush w).1 ≠ none → (cmdPush w).2.files = w.files) ∧
    ((cmdPull w).1 ≠ none → (cmdPull w).2.files = w.files) := by
  refine ⟨?_, ?_, ?_, cmdPush_error_files w, cmdPull_error_files w⟩
  · intro hc hl
    refine ⟨?_, ?_⟩
    · intro w1 hp
      have hfiles : w1.files = w.files := by
        have := (pushPrepare_result w cfg l state).2.1
        rw [hp] at this
        exact this
      have h := failsSafely_transferAndStamp w w1 cfg l l.Path (cfg.RemoteForLocal l)
        (fun now => { state with LastPush := now }) "[+] push complete\n".toList hfiles
      rw [cmdPush_eq w cfg l state hc hl hs, hp]
      exact h
    · intro e hz he
      exact cmdPush_advisory_failure w cfg l state hc hl hs hz e he
  · intro hc hl
    rw [cmdPull_eq w cfg l state hc hl hs]
    exact failsSafely_transferAndStamp w _ cfg l _ _ _ _ (firstPullGuard_result w state).2.1
  · rw [pullLocal_eq w cfg l state hs]
    have hf : (pullLocalPrepare w l).files = w.files := rfl
    exact failsSafely_transferAndStamp w (pullLocalPrepare w l) cfg l _ _ _ _ hf

/-- Witness for C10: with an engine that exits with code 12, the pull of
`notes` returns the engine's failure and leaves the state files as they were. -/
theorem transfer_failure_keeps_state_witness :
    loadState failingWorld notesLocal.Path = (State.empty, none) ∧
    loadConfig failingWorld = Except.ok notesConfig ∧
    getCurrentLocal failingWorld notesConfig = Except.ok notesLocal ∧
    (cmdPull failingWorld).1 = some (GsError.rsyncFailed "rsync error".toList) ∧
    (cmdPull failingWorld).2.files = failingWorld.files :=
  ⟨rfl, rfl, rfl,
   ((transfer_failure_keeps_state failingWorld notesConfig notesLocal State.empty rfl).2.1
      rfl rfl).1 (GsError.rsyncFailed "rsync error".toList) rfl⟩

/-! ## Theorems: `parseRemote` -/

theorem cutAtChar_eq_none (sep : Char) (s : GoString) (h : sep ∉ s) :
    cutAtChar sep s = none := by
  induction s with
  | nil => rfl
  | cons c cs ih =>
    simp only [List.mem_cons, not_or] at h
    have hc : ¬ c = sep := fun e => h.1 e.symm
    simp [cutAtChar, hc, ih h.2]

theorem cutAtChar_append (sep : Char) (a b : GoString) (h : sep ∉ a) :
    cutAtChar sep (a ++ sep :: b) = some (a, b) := by
  induction a with
  | nil => simp [cutAtChar]
  | cons c cs ih =>
    simp only [List.mem_cons, not_or] at h
    have hc : ¬ c = sep := fun e => h.1 e.symm
    rw [List.cons_append]
    simp [cutAtChar, hc, ih h.2]

theorem exists_cut_of_mem (sep : Char) (s : GoString) (h : sep ∈ s) :
    ∃ a b, s = a ++ sep :: b ∧ sep ∉ a := by
  induction s with
  | nil => simp at h
  | cons c cs ih =>
    by_cases hc : c = sep
    · exact ⟨[], cs, by simp [hc], by simp⟩
    · have hm : sep ∈ cs := by
        rcases List.mem_cons.1 h with e | e
        · exact absurd e.symm hc
        · exact e
      obtain ⟨a, b, hs, ha⟩ := ih hm
      refine ⟨c :: a, b, by rw [hs]; rfl, ?_⟩
      simp only [List.mem_cons, not_or]
      exact ⟨fun e => hc e.symm, ha⟩

theorem count_eq_zero_of_not_mem (sep : Char) (s : GoString) (h : sep ∉ s) :
    s.count sep = 0 := List.count_eq_zero.2 h

theorem count_cut (sep : Char) (a b : GoString) (h : sep ∉ a) :
    (a ++ sep :: b).count sep = b.count sep + 1 := by
  rw [List.count_append, count_eq_zero_of_not_mem sep a h, List.count_cons_self]
  omega

theorem utf8Size_pos (c : Char) : 1 ≤ utf8Size c := by
  unfold utf8Size
  split
  · exact Nat.le_refl 1
  · split
    · decide
    · split <;> decide

theorem length_le_goLen (s : GoString) : s.length ≤ goLen s := by
  induction s with
  | nil => simp [goLen]
  | cons c cs ih =>
    have := utf8Size_pos c
    simp only [goLen, List.map_cons, List.sum_cons, List.length_cons] at ih ⊢
    omega

theorem count_le_goLen (sep : Char) (s : GoString) : s.count sep ≤ goLen s :=
  Nat.le_trans (List.count_le_length sep s) (length_le_goLen s)

/-- The number of pieces of the split loop: one more than the number of cuts,
which is the number of separators unless the allowance runs out first. -/
theorem genSplitLoop_length (sep : Char) (k : Nat) (s : GoString) :
    (genSplitLoop sep k s).length = min k (s.count sep) + 1 := by
  induction k generalizing s with
  | zero => simp [genSplitLoop]
  | succ k ih =>
    by_cases hm : sep ∈ s
    · obtain ⟨a, b, rfl, ha⟩ := exists_cut_of_mem sep s hm
      simp only [genSplitLoop, cutAtChar_append sep a b ha, List.length_cons, ih,
        count_cut sep a b ha]
      omega
    · simp [genSplitLoop, cutAtChar_eq_none sep s hm, count_eq_zero_of_not_mem sep s hm]

theorem splitN_three_length (s : GoString) :
    (splitN s ':' 3).length = min 2 (s.count ':') + 1 := by
  have h := count_le_goLen ':' s
  unfold splitN
  rw [if_neg (by decide), genSplitLoop_length]
  split <;> omega

theorem splitN_three_cut (host port path : GoString) (hh : ':' ∉ host) (hp : ':' ∉ port) :
    splitN (host ++ ':' :: (port ++ ':' :: path)) ':' 3 = [host, port, path] := by
  have hlen : 2 ≤ goLen (host ++ ':' :: (port ++ ':' :: path)) := by
    have := length_le_goLen (host ++ ':' :: (port ++ ':' :: path))
    simp only [List.length_append, List.length_cons] at this
    omega
  have hk : (if goLen (host ++ ':' :: (port ++ ':' :: path)) + 1 < 3
      then goLen (host ++ ':' :: (port ++ ':' :: path)) + 1 else 3) - 1 = 2 := by
    split <;> omega
  unfold splitN
  rw [if_neg (by decide), hk]
  simp only [genSplitLoop, cutAtChar_append ':' host _ hh, cutAtChar_append ':' port _ hp]

theorem trimSuffix_slash (path : GoString) :
    trimSuffix path ['/'] = dropOneTrailingSlash path := by
  unfold trimSuffix dropOneTrailingSlash hasSuffix
  have hiff : (['/'].isSuffixOf path = true) ↔ path.getLast? = some '/' := by
    rw [List.isSuffixOf_iff_suffix]
    constructor
    · rintro ⟨t, rfl⟩
      simp
    · intro h
      obtain ⟨t, rfl⟩ : ∃ t, path = t ++ ['/'] := by
        rcases List.eq_nil_or_concat path with rfl | ⟨t, b, rfl⟩
        · simp at h
        · simp only [List.concat_eq_append, List.getLast?_concat, Option.some.injEq] at h
          exact ⟨t, by rw [h]; simp⟩
      exact ⟨t, rfl⟩
  by_cases h : path.getLast? = some '/'
  · rw [if_pos (hiff.2 h), if_pos h, List.dropLast_eq_take]
    rfl
  · rw [if_neg (fun e => h (hiff.1 e)), if_neg h]

theorem parseRemote_cut (host port path : GoString) (hh : ':' ∉ host) (hp : ':' ∉ port) :
    parseRemote (host ++ ':' :: (port ++ ':' :: path))
      = Except.ok (host, port, dropOneTrailingSlash path) := by
  unfold parseRemote
  rw [splitN_three_cut host port path hh hp]
  show Except.ok (host, port, trimSuffix path ['/']) = _
  rw [trimSuffix_slash]

/-- C13: `parseRemote` returns an error exactly for the strings with fewer
than two `:`; a string with at least two is the host (no `:`), a `:`, the
port (no `:`), a `:` and the rest, and the result is the host, the port and
the rest without one trailing `/`. Hence `host:port:path` with no `:` in the
host and port parses to the host, the port and the path without one trailing
`/`; the inputs of the test suite are evaluated. -/
theorem parseRemote_spec :
    (∀ s : GoString, (∃ e, parseRemote s = Except.error e) ↔ s.count ':' < 2) ∧
    (∀ s : GoString, 2 ≤ s.count ':' →
      ∃ host port rest, s = host ++ ':' :: (port ++ ':' :: rest) ∧ ':' ∉ host ∧ ':' ∉ port ∧
        parseRemote s = Except.ok (host, port, dropOneTrailingSlash rest)) ∧
    (∀ host port path : GoString, ':' ∉ host → ':' ∉ port →
      parseRemote (host ++ ":".toList ++ port ++ ":".toList ++ path)
        = Except.ok (host, port, dropOneTrailingSlash path)) ∧
    parseRemote "user@host:22:/path/to/sync".toList
      = Except.ok ("user@host".toList, "22".toList, "/path/to/sync".toList) ∧
    parseRemote "sync@s.example.org:45454:/gs/".toList
      = Except.ok ("sync@s.example.org".toList, "45454".toList, "/gs".toList) ∧
    parseRemote "user@host:/path".toList = Except.error GsError.invalidRemote ∧
    parseRemote "user@host".toList = Except.error GsError.invalidRemote ∧
    parseRemote "".toList = Except.error GsError.invalidRemote := by
  have hdecomp : ∀ s : GoString, 2 ≤ s.count ':' →
      ∃ host port rest, s = host ++ ':' :: (port ++ ':' :: rest) ∧ ':' ∉ host ∧ ':' ∉ port := by
    intro s hs
    have hm : ':' ∈ s := List.count_pos_iff.1 (by omega)
    obtain ⟨host, s1, rfl, hh⟩ := exists_cut_of_mem ':' s hm
    rw [count_cut ':' host s1 hh] at hs
    have hm1 : ':' ∈ s1 := List.count_pos_iff.1 (by omega)
    obtain ⟨port, rest, rfl, hp⟩ := exists_cut_of_mem ':' s1 hm1
    exact ⟨host, port, rest, rfl, hh, hp⟩
  refine ⟨?_, ?_, ?_, rfl, rfl, rfl, rfl, rfl⟩
  · intro s
    have hlen := splitN_three_length s
    constructor
    · rintro ⟨e, he⟩
      by_contra hc
      obtain ⟨host, port, rest, rfl, hh, hp⟩ := hdecomp s (by omega)
      rw [parseRemote_cut host port rest hh hp] at he
      cases he
    · intro hs
      unfold parseRemote
      have h3 : (splitN s ':' 3).length ≠ 3 := by omega
      match hsp : splitN s ':' 3 with
      | [] => exact ⟨_, rfl⟩
      | [_] => exact ⟨_, rfl⟩
      | [_, _] => exact ⟨_, rfl⟩
      | [_, _, _] => rw [hsp] at h3; exact absurd rfl h3
      | _ :: _ :: _ :: _ :: _ => exact ⟨_, rfl⟩
  · intro s hs
    obtain ⟨host, port, rest, rfl, hh, hp⟩ := hdecomp s hs
    exact ⟨host, port, rest, rfl, hh, hp, parseRemote_cut host port rest hh hp⟩
  · intro host port path hh hp
    have e : host ++ ":".toList ++ port ++ ":".toList ++ path
        = host ++ ':' :: (port ++ ':' :: path) := by simp
    rw [e]
    exact parseRemote_cut host port path hh hp

/-! ## Theorems: the tolerance of `loadState` -/

theorem splitOnChar_pieces (sep : Char) (s : GoString) :
    ∀ p ∈ splitOnChar sep s, sep ∉ p := by
  induction s with
  | nil => simp [splitOnChar]
  | cons c cs ih =>
    by_cases hc : c = sep
    · simp only [splitOnChar, if_pos hc, List.mem_cons, forall_eq_or_imp]
      exact ⟨by simp, ih⟩
    · obtain ⟨hd, tl, h1, h2⟩ := splitOnChar_cons_of_ne sep c cs hc
      rw [h1] at ih
      rw [h2]
      simp only [List.mem_cons, forall_eq_or_imp] at ih ⊢
      refine ⟨?_, ih.2⟩
      simp only [List.mem_cons, not_or]
      exact ⟨fun e => hc e.symm, ih.1⟩

theorem splitOnChar_joinWithNewlines (ls : List GoString) (hne : ls ≠ [])
    (h : ∀ l ∈ ls, '\n' ∉ l) : splitOnChar '\n' (joinWithNewlines ls) = ls := by
  induction ls with
  | nil => exact absurd rfl hne
  | cons l rest ih =>
    simp only [List.mem_cons, forall_eq_or_imp] at h
    cases rest with
    | nil => simp [joinWithNewlines, splitOnChar_of_not_mem '\n' l h.1]
    | cons m ms =>
      rw [joinWithNewlines, splitOnChar_line '\n' l _ h.1, ih (List.cons_ne_nil _ _) h.2]

theorem fieldsAux_trailing_space (s cur : GoString) (w : Char) (hw : isSpace w = true) :
    fieldsAux (s ++ [w]) cur = fieldsAux s cur := by
  induction s generalizing cur with
  | nil =>
    simp only [List.nil_append, fieldsAux, hw, if_true]
  | cons c cs ih =>
    rw [List.cons_append]
    simp only [fieldsAux]
    split
    · split
      · rw [ih]
      · rw [ih]
    · rw [ih]

theorem fields_dropCR (p : GoString) : fields (dropCR p) = fields p := by
  unfold dropCR
  split
  · rename_i h
    have hcr : isSpace '\r' = true := by decide
    have hp : p = p.dropLast ++ ['\r'] := by
      rcases List.eq_nil_or_concat p with rfl | ⟨t, b, rfl⟩
      · simp at h
      · simp only [List.concat_eq_append, List.getLast?_concat, Option.some.injEq] at h
        simp [h]
    unfold fields
    conv_rhs => rw [hp]
    rw [fieldsAux_trailing_space _ _ _ hcr]
  · rfl

theorem loadStateLine_dropCR (st : State) (p : GoString) :
    loadStateLine st (dropCR p) = loadStateLine st p := by
  unfold loadStateLine
  rw [fields_dropCR]

theorem loadStateLine_of_not_read (st : State) (p : GoString) (h : lineRead p = false) :
    loadStateLine st p = st := by
  unfold lineRead at h
  unfold loadStateLine
  split
  · rename_i key value hf
    rw [hf] at h
    simp only [Bool.and_eq_false_imp, Bool.or_eq_false_iff, decide_eq_false_iff_not] at h
    cases hp : timeParseRFC3339 value with
    | none => rfl
    | some t =>
      have := h (by rw [hp]; rfl)
      simp only [if_neg this.1, if_neg this.2]
  · rfl

/-- Removing lines that the loop does not read leaves the state of the loop as
it is. -/
theorem loadStateLoop_filter (ps : List GoString) (st : State)
    (h : ∀ p ∈ ps, lineRead p = true → lineValid p = true) :
    loadStateLoop (ps.filter lineValid) st = loadStateLoop ps st := by
  induction ps generalizing st with
  | nil => rfl
  | cons p rest ih =>
    simp only [List.mem_cons, forall_eq_or_imp] at h
    by_cases hv : lineValid p = true
    · rw [List.filter_cons_of_pos hv]
      simp only [loadStateLoop, List.foldl_cons] at ih ⊢
      exact ih _ h.2
    · rw [List.filter_cons_of_neg hv]
      have hr : lineRead p = false := by
        cases hr : lineRead p with
        | false => rfl
        | true => exact absurd (h.1 hr) hv
      simp only [loadStateLoop, List.foldl_cons] at ih ⊢
      rw [loadStateLine_of_not_read st p hr]
      exact ih st h.2

/-- When every piece fits the buffer the scanner reports no error, and the
lines it yields load to the same state as the pieces themselves. -/
theorem scanPieces_fit (ps : List GoString) (h : ∀ p ∈ ps, goLen p < maxScanTokenSize)
    (st : State) :
    (scanPieces ps).2 = false ∧ loadStateLoop (scanPieces ps).1 st = loadStateLoop ps st := by
  induction ps generalizing st with
  | nil => exact ⟨rfl, rfl⟩
  | cons p rest ih =>
    simp only [List.mem_cons, forall_eq_or_imp] at h
    have hp : ¬ maxScanTokenSize ≤ goLen p := Nat.not_le.2 h.1
    cases rest with
    | nil =>
      simp only [scanPieces]
      by_cases he : p = []
      · subst he
        exact ⟨rfl, rfl⟩
      · rw [if_neg he, if_neg hp]
        refine ⟨rfl, ?_⟩
        simp only [loadStateLoop, List.foldl_cons, List.foldl_nil]
        exact loadStateLine_dropCR st p
    | cons q qs =>
      simp only [scanPieces, if_neg hp]
      obtain ⟨h1, h2⟩ := ih h.2 (loadStateLine st p)
      refine ⟨h1, ?_⟩
      simp only [loadStateLoop, List.foldl_cons] at h2 ⊢
      rw [loadStateLine_dropCR]
      exact h2

theorem loadStateContent_fit (content : GoString) (h : AllLinesFit content) :
    loadStateContent content
      = (loadStateLoop (splitOnChar '\n' content) State.empty, none) := by
  obtain ⟨h1, h2⟩ := scanPieces_fit (splitOnChar '\n' content) h State.empty
  simp only [loadStateContent, scanLines, h1, h2]
  rfl

theorem allLinesFit_removeInvalidLines (content : GoString) (h : AllLinesFit content)
    (hs : ReadLinesValid content) :
    AllLinesFit (removeInvalidLines content) ∧
    loadStateLoop (splitOnChar '\n' (removeInvalidLines content)) State.empty
      = loadStateLoop (splitOnChar '\n' content) State.empty := by
  unfold removeInvalidLines
  by_cases hne : (splitOnChar '\n' content).filter lineValid = []
  · rw [hne]
    refine ⟨?_, ?_⟩
    · intro p hp
      simp only [joinWithNewlines, splitOnChar, List.mem_singleton] at hp
      subst hp
      decide
    · rw [← loadStateLoop_filter (splitOnChar '\n' content) State.empty hs, hne]
      rfl
  · have hsplit := splitOnChar_joinWithNewlines _ hne (fun l hl =>
      splitOnChar_pieces '\n' content l (List.mem_of_mem_filter hl))
    refine ⟨?_, ?_⟩
    · intro p hp
      rw [hsplit] at hp
      exact h p (List.mem_of_mem_filter hp)
    · rw [hsplit, loadStateLoop_filter _ _ hs]

theorem loadState_of_file (w : World) (dir content : GoString)
    (h : w.files (statePath w.env dir) = FileSlot.file content) :
    loadState w dir = loadStateContent content := by
  unfold loadState
  rw [h]

/-- At the first piece that does not fit the buffer the scanner stops with
`ErrTooLong`; the lines it has yielded are the pieces before. -/
theorem scanPieces_long (before : List GoString) (long : GoString) (after : List GoString)
    (hb : ∀ p ∈ before, goLen p < maxScanTokenSize) (hl : maxScanTokenSize ≤ goLen long)
    (st : State) :
    (scanPieces (before ++ long :: after)).2 = true ∧
    loadStateLoop (scanPieces (before ++ long :: after)).1 st = loadStateLoop before st := by
  induction before generalizing st with
  | nil =>
    have hne : long ≠ [] := by
      intro e
      rw [e] at hl
      revert hl
      decide
    cases after with
    | nil =>
      refine ⟨?_, ?_⟩
      · simp only [List.nil_append, scanPieces, if_neg hne, if_pos hl]
      · simp only [List.nil_append, scanPieces, if_neg hne, if_pos hl]
    | cons a rest =>
      refine ⟨?_, ?_⟩
      · simp only [List.nil_append, scanPieces, if_pos hl]
      · simp only [List.nil_append, scanPieces, if_pos hl]
  | cons p ps ih =>
    simp only [List.mem_cons, forall_eq_or_imp] at hb
    have hp : ¬ maxScanTokenSize ≤ goLen p := Nat.not_le.2 hb.1
    obtain ⟨h1, h2⟩ := ih hb.2 (loadStateLine st p)
    cases hps : ps ++ long :: after with
    | nil => simp at hps
    | cons q qs =>
      rw [hps] at h1 h2
      rw [List.cons_append, hps]
      simp only [scanPieces, if_neg hp]
      refine ⟨h1, ?_⟩
      simp only [loadStateLoop, List.foldl_cons] at h2 ⊢
      rw [loadStateLine_dropCR]
      exact h2

theorem splitOnChar_joinLines_append (ls : List GoString) (h : ∀ l ∈ ls, '\n' ∉ l)
    (tail : GoString) :
    splitOnChar '\n' (joinLines ls ++ tail) = ls ++ splitOnChar '\n' tail := by
  induction ls with
  | nil => rfl
  | cons l rest ih =>
    simp only [List.mem_cons, forall_eq_or_imp] at h
    rw [joinLines, List.append_assoc, List.cons_append, splitOnChar_line '\n' l _ h.1, ih h.2]
    rfl

/-- The lines in front of a line that does not fit are read, the scanner's
error is returned, and what follows the long line is not read. -/
theorem loadStateContent_long (before : List GoString) (long rest : GoString)
    (hb : ∀ l ∈ before, '\n' ∉ l ∧ goLen l < maxScanTokenSize)
    (hn : '\n' ∉ long) (hl : maxScanTokenSize ≤ goLen long)
    (hr : rest = [] ∨ rest.head? = some '\n') :
    loadStateContent (joinLines before ++ long ++ rest)
      = (loadStateLoop before State.empty, some GsError.scanTooLong) := by
  have hsplit : ∃ after, splitOnChar '\n' (joinLines before ++ long ++ rest)
      = before ++ long :: after := by
    rw [List.append_assoc, splitOnChar_joinLines_append before (fun l hl => (hb l hl).1)]
    rcases hr with rfl | hr
    · rw [List.append_nil, splitOnChar_of_not_mem '\n' long hn]
      exact ⟨[], rfl⟩
    · cases rest with
      | nil => simp at hr
      | cons c cs =>
        simp only [List.head?_cons, Option.some.injEq] at hr
        rw [hr, splitOnChar_line '\n' long cs hn]
        exact ⟨_, rfl⟩
  obtain ⟨after, hs⟩ := hsplit
  obtain ⟨h1, h2⟩ := scanPieces_long before long after (fun l hl => (hb l hl).2) hl State.empty
  unfold loadStateContent scanLines
  rw [hs]
  simp only [h1, h2]
  rfl

theorem loadStateLoop_append_empty (ps : List GoString) (st : State) :
    loadStateLoop (ps ++ [[]]) st = loadStateLoop ps st := by
  simp only [loadStateLoop, List.foldl_append, List.foldl_cons, List.foldl_nil]
  rfl

/-- A file made of lines that fit loads without error to the state of the
loop over these lines. -/
theorem loadStateContent_lines (before : List GoString)
    (hb : ∀ l ∈ before, '\n' ∉ l ∧ goLen l < maxScanTokenSize) :
    loadStateContent (joinLines before) = (loadStateLoop before State.empty, none) := by
  have hs : splitOnChar '\n' (joinLines before) = before ++ [[]] := by
    have := splitOnChar_joinLines_append before (fun l hl => (hb l hl).1) []
    rw [List.append_nil] at this
    rw [this]
    rfl
  have hfit : AllLinesFit (joinLines before) := by
    intro p hp
    rw [hs, List.mem_append, List.mem_singleton] at hp
    rcases hp with hp | rfl
    · exact (hb p hp).2
    · decide
  rw [loadStateContent_fit _ hfit, hs, loadStateLoop_append_empty]

/-- A content with a line that does not fit has a first such line: lines that
fit, each closed by a newline, then the long line, then nothing or a newline
and the rest. -/
theorem exists_first_long (n : Nat) (content : GoString) (hlen : content.length ≤ n)
    (h : ¬ AllLinesFit content) :
    ∃ (before : List GoString) (long rest : GoString),
      (∀ l ∈ before, '\n' ∉ l ∧ goLen l < maxScanTokenSize) ∧ '\n' ∉ long ∧
      maxScanTokenSize ≤ goLen long ∧ (rest = [] ∨ rest.head? = some '\n') ∧
      content = joinLines before ++ long ++ rest := by
  induction n generalizing content with
  | zero =>
    exfalso
    apply h
    have : content = [] := List.length_eq_zero.1 (Nat.le_zero.1 hlen)
    subst this
    decide
  | succ k ih =>
    by_cases hm : '\n' ∈ content
    · obtain ⟨a, b, rfl, ha⟩ := exists_cut_of_mem '\n' content hm
      by_cases hal : maxScanTokenSize ≤ goLen a
      · exact ⟨[], a, '\n' :: b, fun _ hl => absurd hl (List.not_mem_nil _), ha, hal,
          Or.inr rfl, rfl⟩
      · have hb : ¬ AllLinesFit b := by
          intro hb
          apply h
          intro p hp
          rw [splitOnChar_line '\n' a b ha, List.mem_cons] at hp
          rcases hp with rfl | hp
          · exact Nat.not_le.1 hal
          · exact hb p hp
        have hbl : b.length ≤ k := by
          rw [List.length_append, List.length_cons] at hlen
          omega
        obtain ⟨before, long, rest, h1, h2, h3, h4, h5⟩ := ih b hbl hb
        refine ⟨a :: before, long, rest, ?_, h2, h3, h4, ?_⟩
        · intro l hl
          rcases List.mem_cons.1 hl with rfl | hl
          · exact ⟨ha, Nat.not_le.1 hal⟩
          · exact h1 l hl
        · rw [h5]
          simp [joinLines, List.append_assoc]
    · refine ⟨[], content, [], fun _ hl => absurd hl (List.not_mem_nil _), hm, ?_,
        Or.inl rfl, by simp [joinLines]⟩
      by_contra hc
      apply h
      intro p hp
      rw [splitOnChar_of_not_mem '\n' content hm, List.mem_singleton] at hp
      rw [hp]
      exact Nat.not_le.1 hc

/-- What `Format` writes for a UTC time with a four-digit year is a valid RFC
3339 timestamp. -/
theorem isRFC3339_formatRFC3339 (t : Time) (hs : t.Storable) :
    isRFC3339 t.formatRFC3339 = true := by
  obtain ⟨hv, hoff, hy0, hy1⟩ := hs
  rw [formatRFC3339_utc t hv hoff hy0 hy1]
  obtain ⟨hmo0, hmo1, hd0, hd1, hh, hm, hsec, _⟩ := hv
  have hd31 := daysIn_le t.month t.year
  have ey : ((t.year.toNat / 1000 % 10 * 1000 + t.year.toNat / 100 % 10 * 100 +
      t.year.toNat / 10 % 10 * 10 + t.year.toNat % 10 : Nat) : Int) = t.year := by omega
  have emo : t.month / 10 % 10 * 10 + t.month % 10 = t.month := by omega
  have ed : t.day / 10 % 10 * 10 + t.day % 10 = t.day := by omega
  have eh : t.hour / 10 % 10 * 10 + t.hour % 10 = t.hour := by omega
  have emi : t.minute / 10 % 10 * 10 + t.minute % 10 = t.minute := by omega
  have es : t.second / 10 % 10 * 10 + t.second % 10 = t.second := by omega
  have htail : isRFC3339Tail ['Z'] = true := by decide
  simp only [isRFC3339, htail, isDigit_digitChar, digitVal_digitChar,
    ey, emo, ed, eh, emi, es, Bool.and_self, Bool.true_and, Bool.and_true, decide_True,
    Bool.or_false, Bool.true_or, Bool.and_eq_true, decide_eq_true_eq, true_and, and_true]
  omega

theorem lineValid_key_value (key value : GoString) (hk : IsField key) (hv : IsField value)
    (hkey : key = "last_push".toList ∨ key = "last_pull".toList)
    (hr : isRFC3339 value = true) : lineValid (key ++ ' ' :: value) = true := by
  unfold lineValid
  rw [fields_key_value key value hk hv]
  simp only [hr, Bool.true_and, Bool.or_eq_true, decide_eq_true_eq]
  exact hkey

theorem saveStateContent_lines (s : State) :
    ∃ ls : List GoString, saveStateContent s = joinLines ls ∧
      ∀ l ∈ ls, l = "last_push".toList ++ ' ' :: s.LastPush.formatRFC3339 ∨
        l = "last_pull".toList ++ ' ' :: s.LastPull.formatRFC3339 := by
  by_cases hzp : s.LastPush.IsZero = true <;> by_cases hzq : s.LastPull.IsZero = true
  · exact ⟨[], by simp [saveStateContent, hzp, hzq, joinLines], by simp⟩
  · exact ⟨["last_pull".toList ++ ' ' :: s.LastPull.formatRFC3339],
      by simp [saveStateContent, hzp, hzq, joinLines], by simp⟩
  · exact ⟨["last_push".toList ++ ' ' :: s.LastPush.formatRFC3339],
      by simp [saveStateContent, hzp, hzq, joinLines], by simp⟩
  · exact ⟨["last_push".toList ++ ' ' :: s.LastPush.formatRFC3339,
       "last_pull".toList ++ ' ' :: s.LastPull.formatRFC3339],
      by simp [saveStateContent, hzp, hzq, joinLines], by simp⟩

/-- A file that `saveState` writes for UTC times with four-digit years has
short lines only, and its lines are valid. -/
theorem saveStateContent_tolerated (s : State)
    (hp : s.LastPush.Storable) (hq : s.LastPull.Storable) :
    AllLinesFit (saveStateContent s) ∧ ReadLinesValid (saveStateContent s) := by
  obtain ⟨ls, hls, hmem⟩ := saveStateContent_lines s
  have hgood : ∀ l ∈ ls, GoodLine l ∧ lineValid l = true := by
    intro l hl
    rcases hmem l hl with rfl | rfl
    · exact ⟨goodLine_push _ hp, lineValid_key_value _ _ isField_last_push
        (isField_formatRFC3339 _ hp).1 (Or.inl rfl) (isRFC3339_formatRFC3339 _ hp)⟩
    · exact ⟨goodLine_pull _ hq, lineValid_key_value _ _ isField_last_pull
        (isField_formatRFC3339 _ hq).1 (Or.inr rfl) (isRFC3339_formatRFC3339 _ hq)⟩
  have hs : splitOnChar '\n' (saveStateContent s) = ls ++ [[]] := by
    have := splitOnChar_joinLines_append ls (fun l hl => (hgood l hl).1.1) []
    rw [List.append_nil] at this
    rw [hls, this]
    rfl
  constructor
  · intro p hpm
    rw [hs, List.mem_append, List.mem_singleton] at hpm
    rcases hpm with hpm | rfl
    · exact (hgood p hpm).1.2.2
    · decide
  · intro p hpm hr
    rw [hs, List.mem_append, List.mem_singleton] at hpm
    rcases hpm with hpm | rfl
    · exact (hgood p hpm).2
    · revert hr
      decide

/-- C12, as the code has it. `loadState` of an existing state file returns an
error exactly when some line has 65536 bytes or more, and the error is the
scanner's. For a state file in which every line is shorter and every line from
which `loadState` takes a timestamp carries a valid RFC 3339 timestamp,
`loadState` returns the same result as for the file with every invalid line
removed. A file with a line of 65536 bytes or more is made of lines that are
all shorter, the first long line, and what follows it; `loadState` returns the
scanner's error together with the state of the file made of the lines before
the long line, whatever follows it. A file with a line of an unknown key and a
line with a malformed timestamp loads to the same state as the file with only
its valid lines. The files `saveState` writes for UTC times with four-digit
years meet both conditions. -/
theorem loadState_skips_invalid_lines (w : World) (dir content : GoString)
    (hfile : w.files (statePath w.env dir) = FileSlot.file content) :
    (AllLinesFit content → (loadState w dir).2 = none) ∧
    (¬ AllLinesFit content →
      (loadState w dir).2 = some GsError.scanTooLong ∧
      ∃ (before : List GoString) (long rest : GoString),
        (∀ l ∈ before, '\n' ∉ l ∧ goLen l < maxScanTokenSize) ∧ '\n' ∉ long ∧
        maxScanTokenSize ≤ goLen long ∧ (rest = [] ∨ rest.head? = some '\n') ∧
        content = joinLines before ++ long ++ rest) ∧
    (AllLinesFit content → ReadLinesValid content →
      ∀ w' : World,
        w'.files (statePath w'.env dir) = FileSlot.file (removeInvalidLines content) →
        loadState w dir = loadState w' dir) ∧
    (∀ (w0 : World) (before : List GoString) (long rest : GoString),
      (∀ l ∈ before, '\n' ∉ l ∧ goLen l < maxScanTokenSize) →
      '\n' ∉ long → maxScanTokenSize ≤ goLen long →
      (rest = [] ∨ rest.head? = some '\n') →
      content = joinLines before ++ long ++ rest →
      w0.files (statePath w0.env dir) = FileSlot.file (joinLines before) →
      (loadState w0 dir).2 = none ∧
      loadState w dir = ((loadState w0 dir).1, some GsError.scanTooLong)) ∧
    loadState (worldWithStateFile mixedStateContent) dir
      = loadState (worldWithStateFile validOnlyStateContent) dir ∧
    (∀ s : State, s.LastPush.Storable → s.LastPull.Storable →
      AllLinesFit (saveStateContent s) ∧ ReadLinesValid (saveStateContent s)) := by
  refine ⟨?_, ?_, ?_, ?_, ?_, saveStateContent_tolerated⟩
  · intro hfit
    rw [loadState_of_file w dir content hfile, loadStateContent_fit content hfit]
  · intro hlong
    obtain ⟨before, long, rest, hb, hn, hl, hr, hc⟩ :=
      exists_first_long content.length content (Nat.le_refl _) hlong
    refine ⟨?_, before, long, rest, hb, hn, hl, hr, hc⟩
    rw [loadState_of_file w dir content hfile, hc,
      loadStateContent_long before long rest hb hn hl hr]
  · intro hfit hvalid w' hclean
    obtain ⟨hfit', hloop⟩ := allLinesFit_removeInvalidLines content hfit hvalid
    rw [loadState_of_file w dir content hfile, loadStateContent_fit content hfit,
      loadState_of_file w' dir _ hclean, loadStateContent_fit _ hfit', hloop]
  · intro w0 before long rest hb hn hl hr hc h0
    rw [loadState_of_file w dir content hfile, loadState_of_file w0 dir _ h0, hc,
      loadStateContent_long before long rest hb hn hl hr, loadStateContent_lines before hb]
    exact ⟨rfl, rfl⟩
  · show loadStateContent mixedStateContent = loadStateContent validOnlyStateContent
    decide

theorem goLen_replicate (n : Nat) (c : Char) : goLen (List.replicate n c) = n * utf8Size c := by
  induction n with
  | zero => simp [goLen]
  | succ k ih =>
    simp only [goLen, List.replicate_succ, List.map_cons, List.sum_cons] at ih ⊢
    rw [ih, Nat.succ_mul]
    omega

theorem fields_of_isField (s : GoString) (h : IsField s) : fields s = [s] := by
  have := fieldsAux_append s [] [] h.2
  simp only [List.append_nil, List.nil_append] at this
  unfold fields
  rw [this]
  simp [fieldsAux, h.1]

theorem lineValid_of_isField (s : GoString) (h : IsField s) : lineValid s = false := by
  unfold lineValid
  rw [fields_of_isField s h]

theorem scanPieces_too_long (p q : GoString) (rest : List GoString)
    (h : maxScanTokenSize ≤ goLen p) : scanPieces (p :: q :: rest) = ([], true) := by
  simp [scanPieces, h]

theorem replicate_ne_nil (n : Nat) (c : Char) (h : 0 < n) : List.replicate n c ≠ [] := by
  intro e
  have := congrArg List.length e
  rw [List.length_replicate, List.length_nil] at this
  omega

theorem isField_replicate_x : IsField (List.replicate 65536 'x') := by
  refine ⟨replicate_ne_nil 65536 'x' (by decide), ?_⟩
  intro c hc
  rw [(List.mem_replicate.1 hc).2]
  decide

theorem goLen_replicate_x : maxScanTokenSize ≤ goLen (List.replicate 65536 'x') := by
  rw [goLen_replicate]
  decide

/-- Witness for C12: the mixed sample file fits the scanner, its read lines
are valid, and it loads, without error, to the state of its cleaned copy; the
file that starts with a line of 65536 letters loads to the scanner's error and
the state of the empty file. -/
theorem loadState_skips_invalid_lines_witness :
    (worldWithStateFile mixedStateContent).files
        (statePath (worldWithStateFile mixedStateContent).env "/home/user/notes".toList)
      = FileSlot.file mixedStateContent ∧
    AllLinesFit mixedStateContent ∧ ReadLinesValid mixedStateContent ∧
    (loadState (worldWithStateFile mixedStateContent) "/home/user/notes".toList).2 = none ∧
    loadState (worldWithStateFile mixedStateContent) "/home/user/notes".toList
      = loadState (worldWithStateFile (removeInvalidLines mixedStateContent))
          "/home/user/notes".toList ∧
    loadState (worldWithStateFile longLineContent) "/home/user/notes".toList
      = ((loadState (worldWithStateFile []) "/home/user/notes".toList).1,
          some GsError.scanTooLong) :=
  ⟨rfl, by decide, by decide,
   (loadState_skips_invalid_lines (worldWithStateFile mixedStateContent)
      "/home/user/notes".toList mixedStateContent rfl).1 (by decide),
   (loadState_skips_invalid_lines (worldWithStateFile mixedStateContent)
      "/home/user/notes".toList mixedStateContent rfl).2.2.1 (by decide) (by decide)
      (worldWithStateFile (removeInvalidLines mixedStateContent)) rfl,
   ((loadState_skips_invalid_lines (worldWithStateFile longLineContent)
      "/home/user/notes".toList longLineContent rfl).2.2.2.1
      (worldWithStateFile []) [] (List.replicate 65536 'x')
      "\nlast_push 2026-11-01T09:05:07Z\n".toList
      (fun _ h => absurd h (List.not_mem_nil _))
      (not_mem_newline_of_isField _ isField_replicate_x) goLen_replicate_x
      (Or.inr rfl) rfl rfl).2⟩

/-- C12 as stated fails in two ways. A first line of 65536 letters `x` is an
invalid line (it is a single field), yet `loadState` returns the scanner's
error for the file and stops reading, so the valid `last_push` line after it
is lost; the same file without the invalid line loads without error to a
state with `lastPush` present. A line whose timestamp has a one-digit hour is
invalid, since the timestamp is not valid RFC 3339, yet `loadState` takes the
timestamp from it; the file without the line loads to the empty state. -/
theorem loadState_tolerance_fails :
    lineValid (List.replicate 65536 'x') = false ∧
    loadState (worldWithStateFile longLineContent) "/home/user/notes".toList
      = (State.empty, some GsError.scanTooLong) ∧
    removeInvalidLines longLineContent = "last_push 2026-11-01T09:05:07Z".toList ∧
    loadState (worldWithStateFile "last_push 2026-11-01T09:05:07Z".toList)
        "/home/user/notes".toList
      = ({ LastPush := { sampleNow with nsec := 0 }, LastPull := Time.zero }, none) ∧
    isRFC3339 "2026-11-01T9:05:07Z".toList = false ∧
    lineValid "last_push 2026-11-01T9:05:07Z".toList = false ∧
    removeInvalidLines lenientStateContent = [] ∧
    loadState (worldWithStateFile lenientStateContent) "/home/user/notes".toList
      = ({ LastPush := { sampleNow with nsec := 0 }, LastPull := Time.zero }, none) ∧
    loadState (worldWithStateFile []) "/home/user/notes".toList = (State.empty, none) := by
  have hx := isField_replicate_x
  have hnl : '\n' ∉ List.replicate 65536 'x' := not_mem_newline_of_isField _ hx
  have hlong : lineValid (List.replicate 65536 'x') = false := lineValid_of_isField _ hx
  have hlen := goLen_replicate_x
  have hrest : splitOnChar '\n' "last_push 2026-11-01T09:05:07Z\n".toList
      = ["last_push 2026-11-01T09:05:07Z".toList, []] := by decide
  have hsplit : splitOnChar '\n' longLineContent
      = [List.replicate 65536 'x', "last_push 2026-11-01T09:05:07Z".toList, []] := by
    have e : longLineContent
        = List.replicate 65536 'x' ++ '\n' :: "last_push 2026-11-01T09:05:07Z\n".toList := rfl
    rw [e, splitOnChar_line '\n' _ _ hnl, hrest]
  have hv : lineValid "last_push 2026-11-01T09:05:07Z".toList = true := by decide
  have hv0 : lineValid [] = false := by decide
  refine ⟨hlong, ?_, ?_, ?_, by decide, by decide, by decide, ?_, ?_⟩
  · rw [loadState_of_file _ _ longLineContent rfl]
    unfold loadStateContent scanLines
    rw [hsplit, scanPieces_too_long _ _ _ hlen]
    rfl
  · unfold removeInvalidLines
    rw [hsplit, List.filter_cons_of_neg (by rw [hlong]; exact Bool.false_ne_true),
      List.filter_cons_of_pos hv, List.filter_cons_of_neg (by rw [hv0]; exact Bool.false_ne_true)]
    rfl
  · rw [loadState_of_file _ _ "last_push 2026-11-01T09:05:07Z".toList rfl]
    decide
  · rw [loadState_of_file _ _ lenientStateContent rfl]
    decide
  · rw [loadState_of_file _ _ [] rfl]
    decide

/-! ## Theorems: auto-pull-all -/

theorem emit_printErr_significant (w : World) (t : GoString) (e : GsError) :
    significant (w.emit (Event.printErr t e)).trace = significant w.trace := by
  simp [World.emit, significant_append, significant, Event.isSignificant]

/-- The engine runs of `pullLocal`: one real pull of the binding, or none
when the pull failed before reaching the engine. -/
theorem pullLocal_run (w : World) (cfg : Config) (l : Local) :
    ∃ evs : List Event, PullRun cfg (l, (pullLocal w cfg l).1) evs ∧
      significant (pullLocal w cfg l).2.trace = significant w.trace ++ evs := by
  cases hs : loadState w l.Path with
  | mk state err =>
    cases err with
    | some e =>
      refine ⟨[], Or.inl ⟨rfl, ?_⟩, ?_⟩ <;> simp [pullLocal, hs]
    | none =>
      rw [pullLocal_eq w cfg l state hs]
      obtain ⟨_, _, _, _, _, t6⟩ := transferAndStamp_result (pullLocalPrepare w l) cfg l
        (cfg.RemoteForLocal l) l.Path (fun now => { state with LastPull := now })
        ("[+] pull complete for '".toList ++ l.Name ++ "'\n".toList)
      have hp : significant (pullLocalPrepare w l).trace = significant w.trace :=
        print_significant w _
      rcases t6 with ⟨t6, te⟩ | ⟨args, hargs, t6⟩
      · refine ⟨[], Or.inl ⟨rfl, ?_⟩, by rw [t6, hp]; simp⟩
        rw [te]
        simp
      · exact ⟨[Event.exec args], Or.inr ⟨args, rfl, hargs⟩, by rw [t6, hp]⟩

theorem pullEach_bindings (cfg : Config) (ls : List Local) (w : World) :
    (pullEach cfg ls w).1.map Prod.fst = ls := by
  induction ls generalizing w with
  | nil => rfl
  | cons l rest ih =>
    simp only [pullEach, List.map_cons, ih]

theorem pullEach_runs (cfg : Config) (ls : List Local) (w : World) :
    ∃ evs : List (List Event), List.Forall₂ (PullRun cfg) (pullEach cfg ls w).1 evs ∧
      significant (pullEach cfg ls w).2.trace = significant w.trace ++ evs.flatten := by
  induction ls generalizing w with
  | nil => exact ⟨[], List.Forall₂.nil, by simp [pullEach]⟩
  | cons l rest ih =>
    obtain ⟨ev, hrun, hsig⟩ := pullLocal_run w cfg l
    simp only [pullEach]
    cases hr : (pullLocal w cfg l).1 with
    | some err =>
      dsimp only
      obtain ⟨evs, hall, hrest⟩ := ih ((pullLocal w cfg l).2.emit
        (Event.printErr ("[!] failed to pull '".toList ++ l.Name ++ "': ".toList) err))
      rw [hr] at hrun
      refine ⟨ev :: evs, List.Forall₂.cons hrun hall, ?_⟩
      rw [hrest, emit_printErr_significant, hsig]
      simp
    | none =>
      dsimp only
      obtain ⟨evs, hall, hrest⟩ := ih (pullLocal w cfg l).2
      rw [hr] at hrun
      refine ⟨ev :: evs, List.Forall₂.cons hrun hall, ?_⟩
      rw [hrest, hsig]
      simp

/-- The loop of `cmdAuto` with its slice of failed names is the sequence of
pulls with the failed names collected afterwards. -/
theorem autoPullLoop_eq (cfg : Config) (ls : List Local) (w : World) (failed : List GoString) :
    autoPullLoop cfg ls w failed
      = (failed ++ failedNames (pullEach cfg ls w).1, (pullEach cfg ls w).2) := by
  induction ls generalizing w failed with
  | nil => simp [autoPullLoop, pullEach, failedNames]
  | cons l rest ih =>
    simp only [autoPullLoop, pullEach]
    cases hr : pullLocal w cfg l with
    | mk r w1 =>
      cases r with
      | some err =>
        dsimp only
        rw [ih]
        simp [failedNames]
      | none =>
        dsimp only
        rw [ih]
        simp [failedNames]

theorem failedNames_ne_nil_iff (outcomes : List (Local × Option GsError)) :
    failedNames outcomes ≠ [] ↔ ∃ o ∈ outcomes, o.2 ≠ none := by
  unfold failedNames
  rw [Ne, List.map_eq_nil_iff, List.filter_eq_nil_iff]
  constructor
  · intro h
    by_contra hc
    apply h
    intro o ho hs
    exact hc ⟨o, ho, by cases ho2 : o.2 <;> simp_all⟩
  · rintro ⟨o, ho, hne⟩ h
    have := h o ho
    cases ho2 : o.2 with
    | none => exact hne ho2
    | some e => simp [ho2] at this

/-- The polling loop returns when the server answers one of the dials to
come: with the answer at the `k`-th further dial, `k + 1` rounds are enough. -/
theorem waitForServerLoop_returns (host port : GoString) (interval timeout start : Int)
    (k : Nat) (w : World) (h : w.dialOk (w.dials + k) = true) :
    ∃ r, waitForServerLoop host port interval timeout start (k + 1) w = some r := by
  induction k generalizing w with
  | zero =>
    have h0 : w.dialOk w.dials = true := by simpa using h
    refine ⟨(none, (isServerReachable w host port (5 * second)).2), ?_⟩
    simp [waitForServerLoop, isServerReachable, h0]
  | succ k ih =>
    rw [waitForServerLoop]
    cases hd : w.dialOk w.dials with
    | true =>
      refine ⟨(none, (isServerReachable w host port (5 * second)).2), ?_⟩
      simp [isServerReachable, hd]
    | false =>
      simp only [isServerReachable, hd]
      split
      · exact ⟨_, rfl⟩
      · apply ih
        simp only [World.sleep]
        rw [← h]
        congr 1
        omega

theorem cmdAuto_returns (w : World) (interval timeout : Int) (k : Nat)
    (h : w.dialOk (w.dials + k) = true) :
    ∃ r, cmdAuto (k + 1) w interval timeout = some r := by
  unfold cmdAuto
  cases loadConfig w with
  | error e => exact ⟨_, rfl⟩
  | ok cfg =>
    dsimp only
    split
    · exact ⟨_, rfl⟩
    · obtain ⟨r, hr⟩ := waitForServerLoop_returns cfg.Server cfg.Port interval timeout
        (w.print ("[~] waiting for server ".toList ++ cfg.Server ++ ":".toList ++ cfg.Port ++
          "...\n".toList)).mono k
        (w.print ("[~] waiting for server ".toList ++ cfg.Server ++ ":".toList ++ cfg.Port ++
          "...\n".toList)) h
      unfold waitForServer
      rw [hr]
      obtain ⟨e, w2⟩ := r
      cases e with
      | some e => exact ⟨_, rfl⟩
      | none =>
        dsimp only
        split <;> exact ⟨_, rfl⟩

/-- C11: with a registry without bindings `cmdAuto` returns the error "no
locals configured" and does nothing else. With bindings, once `waitForServer`
has found the server reachable, the pull of every binding is started exactly
once, in registry order, whatever the earlier pulls returned (each runs the
engine at most once, and only a failed pull runs it not at all); `cmdAuto`
returns an error exactly when some pull failed, and the error lists the names
of the failed bindings in registry order. The command does return when the
server answers one of the dials to come. -/
theorem cmdAuto_pulls_every_binding (fuel : Nat) (w : World) (interval timeout : Int)
    (cfg : Config) (hc : loadConfig w = Except.ok cfg) :
    (cfg.Locals = [] → cmdAuto fuel w interval timeout = some (some GsError.noLocals, w)) ∧
    (∀ k : Nat, w.dialOk (w.dials + k) = true →
      ∃ r, cmdAuto (k + 1) w interval timeout = some r) ∧
    (cfg.Locals ≠ [] → ∀ w1 : World,
      waitForServer fuel (autoWaitingWorld w cfg) cfg.Server cfg.Port interval timeout
        = some (none, w1) →
      (pullEach cfg cfg.Locals (autoPullingWorld w1 cfg)).1.map Prod.fst = cfg.Locals ∧
      (∃ w' : World,
        cmdAuto fuel w interval timeout
          = some
              (if failedNames (pullEach cfg cfg.Locals (autoPullingWorld w1 cfg)).1 = [] then none
               else some (GsError.failedToPull
                 (failedNames (pullEach cfg cfg.Locals (autoPullingWorld w1 cfg)).1)), w') ∧
        ∃ evs : List (List Event),
          List.Forall₂ (PullRun cfg) (pullEach cfg cfg.Locals (autoPullingWorld w1 cfg)).1 evs ∧
          significant w'.trace = significant w1.trace ++ evs.flatten) ∧
      (failedNames (pullEach cfg cfg.Locals (autoPullingWorld w1 cfg)).1 ≠ [] ↔
        ∃ o ∈ (pullEach cfg cfg.Locals (autoPullingWorld w1 cfg)).1, o.2 ≠ none)) := by
  refine ⟨?_, fun k hk => cmdAuto_returns w interval timeout k hk, ?_⟩
  · intro hnil
    unfold cmdAuto
    rw [hc]
    simp [hnil]
  · intro hne w1 hwait
    refine ⟨pullEach_bindings _ _ _, ?_, failedNames_ne_nil_iff _⟩
    have hlen : ¬ cfg.Locals.length = 0 := by
      intro h
      exact hne (List.length_eq_zero.1 h)
    obtain ⟨evs, hall, hsig⟩ := pullEach_runs cfg cfg.Locals (autoPullingWorld w1 cfg)
    have hsig' : significant (pullEach cfg cfg.Locals (autoPullingWorld w1 cfg)).2.trace
        = significant w1.trace ++ evs.flatten := by
      rw [hsig]
      unfold autoPullingWorld
      rw [print_significant]
    have hauto : cmdAuto fuel w interval timeout
        = (match autoPullLoop cfg cfg.Locals (autoPullingWorld w1 cfg) [] with
           | (failed, w2) =>
             if 0 < failed.length then some (some (GsError.failedToPull failed), w2)
             else some (none, w2.print "[+] auto-pull complete for all locals\n".toList)) := by
      unfold cmdAuto
      rw [hc]
      dsimp only
      rw [if_neg hlen]
      unfold autoWaitingWorld at hwait
      rw [hwait]
      rfl
    rw [hauto, autoPullLoop_eq]
    dsimp only
    by_cases hf : failedNames (pullEach cfg cfg.Locals (autoPullingWorld w1 cfg)).1 = []
    · rw [hf]
      refine ⟨(pullEach cfg cfg.Locals (autoPullingWorld w1 cfg)).2.print
        "[+] auto-pull complete for all locals\n".toList, ?_, evs, hall, ?_⟩
      · simp
      · rw [print_significant, hsig']
    · have hpos : 0 < ([] ++ failedNames
          (pullEach cfg cfg.Locals (autoPullingWorld w1 cfg)).1).length := by
        rw [List.nil_append]
        exact List.length_pos.2 hf
      rw [if_pos hpos, if_neg hf, List.nil_append]
      exact ⟨_, rfl, evs, hall, hsig'⟩

/-- Witness for C11: in the two-binding world the pull of `notes` fails and
the pull of `projects` is still made; `cmdAuto` returns the error that lists
`notes` alone. -/
theorem cmdAuto_pulls_every_binding_witness :
    loadConfig twoBindingWorld = Except.ok twoBindingConfig ∧
    twoBindingConfig.Locals ≠ [] ∧
    waitForServer 1 (autoWaitingWorld twoBindingWorld twoBindingConfig) twoBindingConfig.Server
        twoBindingConfig.Port (30 * second) 0 = some (none, twoBindingReached) ∧
    (pullEach twoBindingConfig twoBindingConfig.Locals
        (autoPullingWorld twoBindingReached twoBindingConfig)).1.map Prod.fst
      = twoBindingConfig.Locals ∧
    (cmdAuto 1 twoBindingWorld (30 * second) 0).map (fun r => (r.1, significant r.2.trace))
      = some (some (GsError.failedToPull ["notes".toList]),
          [Event.exec samplePullArgs, Event.exec sampleProjectsPullArgs]) :=
  ⟨rfl, by decide, rfl,
   ((cmdAuto_pulls_every_binding 1 twoBindingWorld (30 * second) 0 twoBindingConfig rfl).2.2
      (by decide) twoBindingReached rfl).1,
   by decide⟩

end Gs
